import Mathlib

/-!
# Verification of the Promotion-Variant-Chess rust engine core

This file gives a shallow embedding, in Lean 4, of the chess-engine core found
in `src/rust-engine/src` (bitboards, Zobrist hashing, position make/unmake,
FEN I/O, move generation, transposition table, alpha-beta search, game state),
and proves or refutes the frozen specification claims about it.

Machine integers (`u64`, `u16`, `u8`) are embedded as `Nat` with explicit
reduction modulo `2 ^ 64` where Rust wrapping/truncation occurs.  Scores
(`i32`) are embedded as `Int`.  Mutation of `&mut self` methods is embedded
as explicit state passing: a Rust method that can fail after partially
mutating the receiver returns the (possibly mutated) state together with the
`Option` result.
-/

set_option maxRecDepth 10000
set_option maxHeartbeats 1600000

namespace Engine

/-- `2 ^ 64`, the modulus of Rust `u64` arithmetic. -/
def U64 : Nat := 18446744073709551616

/-- All-ones 64-bit word, used to embed Rust `!x` on `u64` as `mask64 ^^^ x`. -/
def mask64 : Nat := U64 - 1

/-- Rust `x << k` on `u64` (truncating shift). -/
def shl64 (x k : Nat) : Nat := (x <<< k) % U64

/-- Single-bit bitboard for a square: `Bitboard::from_square` (`1u64 << sq`). -/
def sqBB (sq : Nat) : Nat := shl64 1 sq

/-- Rust `!bb` on a `u64` bitboard. -/
def bbNot (b : Nat) : Nat := mask64 ^^^ b

-- ===========================================================================
-- types.rs
-- ===========================================================================

/-- `Color` from types.rs. -/
inductive Color where
  | White
  | Black
deriving DecidableEq, Repr, Fintype

/-- `Color::flip`. -/
def Color.flip : Color → Color
  | .White => .Black
  | .Black => .White

/-- Discriminant of `Color` (`color as usize`). -/
def Color.idx : Color → Nat
  | .White => 0
  | .Black => 1

/-- `PieceType` from types.rs. -/
inductive PieceType where
  | Pawn
  | Knight
  | Bishop
  | Rook
  | Queen
  | King
deriving DecidableEq, Repr, Fintype

/-- Discriminant of `PieceType` (`piece as usize`). -/
def PieceType.idx : PieceType → Nat
  | .Pawn => 0
  | .Knight => 1
  | .Bishop => 2
  | .Rook => 3
  | .Queen => 4
  | .King => 5

/-- `Square::file` (`sq % 8`). Squares are embedded as `Nat` indices `0..63`. -/
def sqFile (sq : Nat) : Nat := sq % 8

/-- `Square::rank` (`sq / 8`). -/
def sqRank (sq : Nat) : Nat := sq / 8

/-- `Square::from_file_rank`. -/
def fromFileRank (file rank : Nat) : Nat := rank * 8 + file

-- Move encoding from types.rs: bits 0-5 from, 6-11 to, 12-13 promo, 14-15 flag.
-- A `Move` is embedded as a `Nat` in `0..65535`.

/-- `Move::from()`: bits 0-5. -/
def Move.fromSq (m : Nat) : Nat := m % 64

/-- `Move::to()`: bits 6-11. -/
def Move.toSq (m : Nat) : Nat := (m / 64) % 64

/-- `Move::flags()`: bits 14-15. -/
def Move.flags (m : Nat) : Nat := (m / 16384) % 4

/-- `Move::is_promotion()`. -/
def Move.isPromotion (m : Nat) : Bool := Move.flags m = 1

/-- `Move::is_en_passant()`. -/
def Move.isEnPassant (m : Nat) : Bool := Move.flags m = 2

/-- `Move::is_castling()`. -/
def Move.isCastling (m : Nat) : Bool := Move.flags m = 3

/-- `Move::promotion_piece()`: promo bits decoded, `none` unless flagged. -/
def Move.promotionPiece (m : Nat) : Option PieceType :=
  if Move.isPromotion m then
    some (match (m / 4096) % 4 with
      | 0 => PieceType.Knight
      | 1 => PieceType.Bishop
      | 2 => PieceType.Rook
      | _ => PieceType.Queen)
  else none

/-- `Move::new`. -/
def Move.mkNormal (f t : Nat) : Nat := f + t * 64

/-- `Move::new_promotion`. -/
def Move.mkPromotion (f t : Nat) (promo : PieceType) : Nat :=
  let promoBits : Nat :=
    match promo with
    | .Knight => 0
    | .Bishop => 1
    | .Rook => 2
    | .Queen => 3
    | _ => 3
  f + t * 64 + promoBits * 4096 + 1 * 16384

/-- `Move::new_en_passant`. -/
def Move.mkEnPassant (f t : Nat) : Nat := f + t * 64 + 2 * 16384

/-- `Move::new_castling`. -/
def Move.mkCastling (f t : Nat) : Nat := f + t * 64 + 3 * 16384

-- CastlingRights from types.rs, embedded as a `Nat` bit set.

/-- `CastlingRights::WHITE_KINGSIDE`. -/
def WHITE_KINGSIDE : Nat := 1
/-- `CastlingRights::WHITE_QUEENSIDE`. -/
def WHITE_QUEENSIDE : Nat := 2
/-- `CastlingRights::BLACK_KINGSIDE`. -/
def BLACK_KINGSIDE : Nat := 4
/-- `CastlingRights::BLACK_QUEENSIDE`. -/
def BLACK_QUEENSIDE : Nat := 8

/-- `CastlingRights::has`. -/
def crHas (rights bit : Nat) : Bool := rights &&& bit ≠ 0

/-- `CastlingRights::remove` (`self.0 &= !right`, on a `u8`). -/
def crRemove (rights bit : Nat) : Nat := rights &&& (255 - bit % 256)

/-- `CastlingRights::add`. -/
def crAdd (rights bit : Nat) : Nat := rights ||| bit

-- ===========================================================================
-- zobrist.rs
-- ===========================================================================

/-- `xorshift64` from zobrist.rs, on `u64` embedded as `Nat % 2 ^ 64`. -/
def xorshift64 (s0 : Nat) : Nat :=
  let s1 := s0 ^^^ shl64 s0 13
  let s2 := s1 ^^^ (s1 >>> 7)
  s2 ^^^ shl64 s2 17

/-- The seed constant `SEED` from zobrist.rs. -/
def SEED : Nat := 0x2d358dccaa6c78a5

/-- Iterate `xorshift64` `n` times.  The `= 0` early exit is semantically
invisible (`xorshift64 0 = 0`, so once the state is zero every further
iterate is zero); it only forces intermediate states to numerals so that
kernel evaluation runs in constant stack space. -/
def xsIter : Nat → Nat → Nat
  | 0, s => s
  | n + 1, s =>
    let s' := xorshift64 s
    if s' = 0 then 0 else xsIter n s'

/-- `generate_keys::<N>(seed)[i]`: the `(i+1)`-st iterate of `xorshift64`. -/
def keyAt (seed : Nat) (i : Nat) : Nat := xsIter (i + 1) seed

/-- `PIECE_KEYS[i]` (768 keys seeded with `SEED`). -/
def PIECE_KEYS (i : Nat) : Nat := keyAt SEED i

/-- `SIDE_KEY`. -/
def SIDE_KEY : Nat := keyAt (xorshift64 (SEED ^^^ 0xAAAABBBBCCCCDDDD)) 0

/-- `CASTLING_KEYS[i]`. -/
def CASTLING_KEYS (i : Nat) : Nat := keyAt (xorshift64 (SEED ^^^ 0x1111222233334444)) i

/-- `EP_KEYS[f]`. -/
def EP_KEYS (f : Nat) : Nat := keyAt (xorshift64 (SEED ^^^ 0x5555666677778888)) f

/-- `zobrist::piece_key`. -/
def piece_key (c : Color) (p : PieceType) (sq : Nat) : Nat :=
  PIECE_KEYS (c.idx * 384 + p.idx * 64 + sq)

/-- `zobrist::side_to_move_key`. -/
def side_to_move_key : Nat := SIDE_KEY

/-- `zobrist::castling_key`: XOR of the keys of the held rights. -/
def castling_key (rights : Nat) : Nat :=
  let h0 : Nat := 0
  let h1 := if crHas rights WHITE_KINGSIDE then h0 ^^^ CASTLING_KEYS 0 else h0
  let h2 := if crHas rights WHITE_QUEENSIDE then h1 ^^^ CASTLING_KEYS 1 else h1
  let h3 := if crHas rights BLACK_KINGSIDE then h2 ^^^ CASTLING_KEYS 2 else h2
  if crHas rights BLACK_QUEENSIDE then h3 ^^^ CASTLING_KEYS 3 else h3

/-- `zobrist::en_passant_key`. -/
def en_passant_key (file : Nat) : Nat := EP_KEYS file

/-- Hash contribution of an optional en-passant square
(`if let Some(ep) = ep { hash ^= en_passant_key(ep.file()) }`). -/
def epHash : Option Nat → Nat
  | some sq => en_passant_key (sqFile sq)
  | none => 0

/-- Hash contribution of the side to move. -/
def sideHash : Color → Nat
  | .White => 0
  | .Black => SIDE_KEY

-- ===========================================================================
-- attacks.rs — precomputed knight / king / pawn attack tables
-- ===========================================================================

/-- `KNIGHT_ATTACKS[sq]` from attacks.rs: the eight bounds-checked knight
offsets from `sq`. -/
def knight_attacks (sq : Nat) : Nat :=
  let bb := sqBB sq
  let file := sq % 8
  let rank := sq / 8
  let a : Nat := 0
  let a := if rank < 6 ∧ file > 0 then a ||| shl64 bb 15 else a
  let a := if rank < 6 ∧ file < 7 then a ||| shl64 bb 17 else a
  let a := if rank < 7 ∧ file > 1 then a ||| shl64 bb 6 else a
  let a := if rank < 7 ∧ file < 6 then a ||| shl64 bb 10 else a
  let a := if rank > 0 ∧ file > 1 then a ||| (bb >>> 10) else a
  let a := if rank > 0 ∧ file < 6 then a ||| (bb >>> 6) else a
  let a := if rank > 1 ∧ file > 0 then a ||| (bb >>> 17) else a
  let a := if rank > 1 ∧ file < 7 then a ||| (bb >>> 15) else a
  a

/-- `KING_ATTACKS[sq]` from attacks.rs. -/
def king_attacks (sq : Nat) : Nat :=
  let bb := sqBB sq
  let file := sq % 8
  let rank := sq / 8
  let a : Nat := 0
  let a := if rank < 7 then a ||| shl64 bb 8 else a
  let a := if rank > 0 then a ||| (bb >>> 8) else a
  let a := if file < 7 then a ||| shl64 bb 1 else a
  let a := if file > 0 then a ||| (bb >>> 1) else a
  let a := if rank < 7 ∧ file < 7 then a ||| shl64 bb 9 else a
  let a := if rank < 7 ∧ file > 0 then a ||| shl64 bb 7 else a
  let a := if rank > 0 ∧ file < 7 then a ||| (bb >>> 7) else a
  let a := if rank > 0 ∧ file > 0 then a ||| (bb >>> 9) else a
  a

/-- `WHITE_PAWN_ATTACKS[sq]` from attacks.rs (captures only). -/
def white_pawn_attacks (sq : Nat) : Nat :=
  let bb := sqBB sq
  let file := sq % 8
  let rank := sq / 8
  let a : Nat := 0
  let a := if rank < 7 ∧ file > 0 then a ||| shl64 bb 7 else a
  let a := if rank < 7 ∧ file < 7 then a ||| shl64 bb 9 else a
  a

/-- `BLACK_PAWN_ATTACKS[sq]` from attacks.rs (captures only). -/
def black_pawn_attacks (sq : Nat) : Nat :=
  let bb := sqBB sq
  let file := sq % 8
  let rank := sq / 8
  let a : Nat := 0
  let a := if rank > 0 ∧ file > 0 then a ||| (bb >>> 9) else a
  let a := if rank > 0 ∧ file < 7 then a ||| (bb >>> 7) else a
  a

/-- `attacks::pawn_attacks(sq, is_white)`. -/
def pawn_attacks (sq : Nat) (isWhite : Bool) : Nat :=
  if isWhite then white_pawn_attacks sq else black_pawn_attacks sq

-- ===========================================================================
-- magic.rs — sliding-piece attacks
--
-- The magic lookup table entry for square `sq` at the index of the blocker
-- set `occ & mask(sq)` is installed (in `MagicTables::new`) as
-- `*_attacks_slow(sq, occ & mask(sq))`, and the per-square magics are
-- validated to be collision-free, so the table lookup is embedded as exactly
-- that ray-marched attack set.
-- ===========================================================================

/-- March along a ray: each square is attacked, stopping after the first
blocker (the loop body of `rook_attacks_slow` / `bishop_attacks_slow`). -/
def marchRay (blockers : Nat) : List Nat → Nat
  | [] => 0
  | s :: rest =>
    let bit := sqBB s
    if blockers &&& bit ≠ 0 then bit else bit ||| marchRay blockers rest

/-- Squares strictly north of `sq`, nearest first. -/
def rayN (sq : Nat) : List Nat :=
  (List.range (7 - sq / 8)).map (fun i => (sq / 8 + 1 + i) * 8 + sq % 8)

/-- Squares strictly south of `sq`, nearest first. -/
def rayS (sq : Nat) : List Nat :=
  (List.range (sq / 8)).map (fun i => (sq / 8 - 1 - i) * 8 + sq % 8)

/-- Squares strictly east of `sq`, nearest first. -/
def rayE (sq : Nat) : List Nat :=
  (List.range (7 - sq % 8)).map (fun i => (sq / 8) * 8 + (sq % 8 + 1 + i))

/-- Squares strictly west of `sq`, nearest first. -/
def rayW (sq : Nat) : List Nat :=
  (List.range (sq % 8)).map (fun i => (sq / 8) * 8 + (sq % 8 - 1 - i))

/-- Northeast diagonal squares from `sq`, nearest first. -/
def rayNE (sq : Nat) : List Nat :=
  (List.range (min (7 - sq / 8) (7 - sq % 8))).map
    (fun i => (sq / 8 + 1 + i) * 8 + (sq % 8 + 1 + i))

/-- Northwest diagonal squares from `sq`, nearest first. -/
def rayNW (sq : Nat) : List Nat :=
  (List.range (min (7 - sq / 8) (sq % 8))).map
    (fun i => (sq / 8 + 1 + i) * 8 + (sq % 8 - 1 - i))

/-- Southeast diagonal squares from `sq`, nearest first. -/
def raySE (sq : Nat) : List Nat :=
  (List.range (min (sq / 8) (7 - sq % 8))).map
    (fun i => (sq / 8 - 1 - i) * 8 + (sq % 8 + 1 + i))

/-- Southwest diagonal squares from `sq`, nearest first. -/
def raySW (sq : Nat) : List Nat :=
  (List.range (min (sq / 8) (sq % 8))).map
    (fun i => (sq / 8 - 1 - i) * 8 + (sq % 8 - 1 - i))

/-- `magic::rook_attacks_slow`. -/
def rook_attacks_slow (sq blockers : Nat) : Nat :=
  marchRay blockers (rayN sq) ||| marchRay blockers (rayS sq) |||
  marchRay blockers (rayE sq) ||| marchRay blockers (rayW sq)

/-- `magic::bishop_attacks_slow`. -/
def bishop_attacks_slow (sq blockers : Nat) : Nat :=
  marchRay blockers (rayNE sq) ||| marchRay blockers (rayNW sq) |||
  marchRay blockers (raySE sq) ||| marchRay blockers (raySW sq)

/-- OR of the single-square bitboards of a list of squares. -/
def orSquares (l : List Nat) : Nat := l.foldl (fun acc s => acc ||| sqBB s) 0

/-- `magic::rook_mask`: relevant blocker squares (rays excluding the edges). -/
def rook_mask (sq : Nat) : Nat :=
  let rank := sq / 8
  let file := sq % 8
  orSquares ((List.range (6 - rank)).map (fun i => (rank + 1 + i) * 8 + file)) |||
  orSquares ((List.range (rank - 1)).map (fun i => (1 + i) * 8 + file)) |||
  orSquares ((List.range (6 - file)).map (fun i => rank * 8 + (file + 1 + i))) |||
  orSquares ((List.range (file - 1)).map (fun i => rank * 8 + (1 + i)))

/-- `magic::bishop_mask`: relevant diagonal blocker squares (excluding edges). -/
def bishop_mask (sq : Nat) : Nat :=
  let rank := sq / 8
  let file := sq % 8
  orSquares ((List.range (min (6 - rank) (6 - file))).map
    (fun i => (rank + 1 + i) * 8 + (file + 1 + i))) |||
  orSquares ((List.range (min (6 - rank) (file - 1))).map
    (fun i => (rank + 1 + i) * 8 + (file - 1 - i))) |||
  orSquares ((List.range (min (rank - 1) (6 - file))).map
    (fun i => (rank - 1 - i) * 8 + (file + 1 + i))) |||
  orSquares ((List.range (min (rank - 1) (file - 1))).map
    (fun i => (rank - 1 - i) * 8 + (file - 1 - i)))

/-- `magic::rook_attacks` (the `MagicTables` lookup): the installed table
entry for blocker set `occ & rook_mask sq`. -/
def rook_attacks (sq occ : Nat) : Nat := rook_attacks_slow sq (occ &&& rook_mask sq)

/-- `magic::bishop_attacks` (the `MagicTables` lookup). -/
def bishop_attacks (sq occ : Nat) : Nat := bishop_attacks_slow sq (occ &&& bishop_mask sq)

/-- `magic::queen_attacks`: rook and bishop attacks combined. -/
def queen_attacks (sq occ : Nat) : Nat := rook_attacks sq occ ||| bishop_attacks sq occ

-- ===========================================================================
-- position.rs — board state
-- ===========================================================================

/-- One color's six piece bitboards (`pieces[color]` in position.rs). -/
structure PieceSet where
  pawn : Nat
  knight : Nat
  bishop : Nat
  rook : Nat
  queen : Nat
  king : Nat
deriving DecidableEq, Repr

/-- Index a `PieceSet` by piece type (`pieces[color][piece_type]`). -/
def PieceSet.get (s : PieceSet) : PieceType → Nat
  | .Pawn => s.pawn
  | .Knight => s.knight
  | .Bishop => s.bishop
  | .Rook => s.rook
  | .Queen => s.queen
  | .King => s.king

/-- Update one piece type's bitboard. -/
def PieceSet.setPT (s : PieceSet) : PieceType → Nat → PieceSet
  | .Pawn, v => { s with pawn := v }
  | .Knight, v => { s with knight := v }
  | .Bishop, v => { s with bishop := v }
  | .Rook, v => { s with rook := v }
  | .Queen, v => { s with queen := v }
  | .King, v => { s with king := v }

/-- All-empty piece set. -/
def PieceSet.empty : PieceSet := ⟨0, 0, 0, 0, 0, 0⟩

/-- `Position` from position.rs.  Bitboards are `u64` values (`Nat < 2^64`);
`halfmove_clock` is a `u8`, `fullmove_number` a `u16`, `hash` a `u64`. -/
structure Position where
  white : PieceSet
  black : PieceSet
  occupied_white : Nat
  occupied_black : Nat
  occupied_all : Nat
  side_to_move : Color
  castling : Nat
  en_passant : Option Nat
  halfmove_clock : Nat
  fullmove_number : Nat
  hash : Nat
deriving DecidableEq, Repr

/-- The piece set of a color (`pieces[color]`). -/
def Position.colorPieces (p : Position) : Color → PieceSet
  | .White => p.white
  | .Black => p.black

/-- `Position::pieces(color, piece)`. -/
def Position.pieces (p : Position) (c : Color) (pt : PieceType) : Nat :=
  (p.colorPieces c).get pt

/-- `Position::occupied_by(color)`. -/
def Position.occupied_by (p : Position) : Color → Nat
  | .White => p.occupied_white
  | .Black => p.occupied_black

/-- Set the piece set of a color. -/
def Position.setColorPieces (p : Position) (c : Color) (s : PieceSet) : Position :=
  match c with
  | .White => { p with white := s }
  | .Black => { p with black := s }

/-- Set the occupancy cache of a color. -/
def Position.setOccupied (p : Position) (c : Color) (v : Nat) : Position :=
  match c with
  | .White => { p with occupied_white := v }
  | .Black => { p with occupied_black := v }

/-- `Position::empty()`. -/
def Position.emptyPos : Position :=
  { white := PieceSet.empty, black := PieceSet.empty,
    occupied_white := 0, occupied_black := 0, occupied_all := 0,
    side_to_move := Color.White, castling := 0, en_passant := none,
    halfmove_clock := 0, fullmove_number := 1, hash := 0 }

/-- `Position::add_piece`: OR the square's bit into the piece bitboard and
both occupancy caches. -/
def Position.add_piece (p : Position) (c : Color) (pt : PieceType) (sq : Nat) : Position :=
  let bb := sqBB sq
  let p := p.setColorPieces c ((p.colorPieces c).setPT pt ((p.pieces c pt) ||| bb))
  let p := p.setOccupied c (p.occupied_by c ||| bb)
  { p with occupied_all := p.occupied_all ||| bb }

/-- `Position::remove_piece`: AND the complement of the square's bit into the
piece bitboard and both occupancy caches. -/
def Position.remove_piece (p : Position) (c : Color) (pt : PieceType) (sq : Nat) : Position :=
  let bb := sqBB sq
  let p := p.setColorPieces c ((p.colorPieces c).setPT pt ((p.pieces c pt) &&& bbNot bb))
  let p := p.setOccupied c (p.occupied_by c &&& bbNot bb)
  { p with occupied_all := p.occupied_all &&& bbNot bb }

/-- `Position::move_piece`. -/
def Position.move_piece (p : Position) (c : Color) (pt : PieceType) (f t : Nat) : Position :=
  (p.remove_piece c pt f).add_piece c pt t

/-- The inner piece-type scan of `Position::piece_on` (in the source's fixed
order Pawn, Knight, Bishop, Rook, Queen, King). -/
def PieceSet.findType (s : PieceSet) (bb : Nat) : Option PieceType :=
  if s.pawn &&& bb ≠ 0 then some PieceType.Pawn
  else if s.knight &&& bb ≠ 0 then some PieceType.Knight
  else if s.bishop &&& bb ≠ 0 then some PieceType.Bishop
  else if s.rook &&& bb ≠ 0 then some PieceType.Rook
  else if s.queen &&& bb ≠ 0 then some PieceType.Queen
  else if s.king &&& bb ≠ 0 then some PieceType.King
  else none

/-- `Position::piece_on`: scan White then Black, gated on the occupancy
cache, then scan the piece types in order. -/
def Position.piece_on (p : Position) (sq : Nat) : Option (Color × PieceType) :=
  let bb := sqBB sq
  let whiteHit : Option (Color × PieceType) :=
    if p.occupied_white &&& bb ≠ 0 then
      (p.white.findType bb).map (fun t => (Color.White, t))
    else none
  match whiteHit with
  | some r => some r
  | none =>
    if p.occupied_black &&& bb ≠ 0 then
      (p.black.findType bb).map (fun t => (Color.Black, t))
    else none

/-- XOR of `f sq` over the set bits of a 64-bit bitboard (the piece iteration
of `compute_hash`; XOR is commutative so the iteration order is immaterial). -/
def xorKeys (bb : Nat) (f : Nat → Nat) : Nat :=
  (List.range 64).foldl (fun h sq => if bb.testBit sq then h ^^^ f sq else h) 0

/-- XOR of the piece keys of every piece on the board
(the `pieces_iter` part of `Position::compute_hash`). -/
def Position.pieceHash (p : Position) : Nat :=
  xorKeys p.white.pawn (piece_key Color.White PieceType.Pawn) ^^^
  xorKeys p.white.knight (piece_key Color.White PieceType.Knight) ^^^
  xorKeys p.white.bishop (piece_key Color.White PieceType.Bishop) ^^^
  xorKeys p.white.rook (piece_key Color.White PieceType.Rook) ^^^
  xorKeys p.white.queen (piece_key Color.White PieceType.Queen) ^^^
  xorKeys p.white.king (piece_key Color.White PieceType.King) ^^^
  xorKeys p.black.pawn (piece_key Color.Black PieceType.Pawn) ^^^
  xorKeys p.black.knight (piece_key Color.Black PieceType.Knight) ^^^
  xorKeys p.black.bishop (piece_key Color.Black PieceType.Bishop) ^^^
  xorKeys p.black.rook (piece_key Color.Black PieceType.Rook) ^^^
  xorKeys p.black.queen (piece_key Color.Black PieceType.Queen) ^^^
  xorKeys p.black.king (piece_key Color.Black PieceType.King)

/-- `Position::compute_hash` (`zobrist::compute_hash` applied to the
position): pieces, then side to move, then castling rights, then EP file. -/
def Position.compute_hash (p : Position) : Nat :=
  p.pieceHash ^^^ sideHash p.side_to_move ^^^ castling_key p.castling ^^^
    epHash p.en_passant

/-- `UndoInfo` from position.rs. -/
structure UndoInfo where
  captured : Option PieceType
  castling : Nat
  en_passant : Option Nat
  halfmove_clock : Nat
  hash : Nat
deriving DecidableEq, Repr

/-- `Position::update_castling_rights`. Square constants: E1 = 4, E8 = 60,
A1 = 0, H1 = 7, A8 = 56, H8 = 63. -/
def Position.update_castling_rights (p : Position) (f t : Nat) : Position :=
  let c := p.castling
  let c := if f = 4 then crRemove c (WHITE_KINGSIDE ||| WHITE_QUEENSIDE) else c
  let c := if f = 60 then crRemove c (BLACK_KINGSIDE ||| BLACK_QUEENSIDE) else c
  let c := if f = 0 ∨ t = 0 then crRemove c WHITE_QUEENSIDE else c
  let c := if f = 7 ∨ t = 7 then crRemove c WHITE_KINGSIDE else c
  let c := if f = 56 ∨ t = 56 then crRemove c BLACK_QUEENSIDE else c
  let c := if f = 63 ∨ t = 63 then crRemove c BLACK_KINGSIDE else c
  { p with castling := c }

/-- The castling rook relocation table of `make_move` / `unmake_move`:
G1 ↦ (H1, F1), C1 ↦ (A1, D1), G8 ↦ (H8, F8), C8 ↦ (A8, D8), and `none` for
an unrecognized castling target square. -/
def castleRookSquares (t : Nat) : Option (Nat × Nat) :=
  if t = 6 then some (7, 5)
  else if t = 2 then some (0, 3)
  else if t = 62 then some (63, 61)
  else if t = 58 then some (56, 59)
  else none

/-- Trailing-zero count with structural fuel (64 suffices for any nonzero
64-bit value). -/
def tzAux : Nat → Nat → Nat
  | 0, _ => 0
  | fuel + 1, b => if b % 2 = 1 then 0 else tzAux fuel (b / 2) + 1

/-- `Bitboard::lsb`: index of the least significant set bit
(`trailing_zeros` for a nonzero value). -/
def bbLsb (bb : Nat) : Option Nat :=
  if bb = 0 then none else some (tzAux 64 bb)

/-- `Position::is_square_attacked`: knight, king, pawn table hits, then
bishop/queen diagonals and rook/queen laterals on the current occupancy. -/
def Position.is_square_attacked (p : Position) (sq : Nat) (attacker : Color) : Bool :=
  let knights := p.pieces attacker PieceType.Knight
  if knight_attacks sq &&& knights ≠ 0 then true
  else
    let king := p.pieces attacker PieceType.King
    if king_attacks sq &&& king ≠ 0 then true
    else
      let pawns := p.pieces attacker PieceType.Pawn
      let pawnAtt := pawn_attacks sq (attacker = Color.Black)
      if pawnAtt &&& pawns ≠ 0 then true
      else
        let occupied := p.occupied_all
        let bishops := p.pieces attacker PieceType.Bishop
        let queens := p.pieces attacker PieceType.Queen
        if bishop_attacks sq occupied &&& (bishops ||| queens) ≠ 0 then true
        else
          let rooks := p.pieces attacker PieceType.Rook
          if rook_attacks sq occupied &&& (rooks ||| queens) ≠ 0 then true
          else false

/-- `Position::is_in_check`: is the king's square attacked by the opposite
color (`true` when the king is missing, as in the source). -/
def Position.is_in_check (p : Position) (c : Color) : Bool :=
  match bbLsb (p.pieces c PieceType.King) with
  | some kingSq => p.is_square_attacked kingSq c.flip
  | none => true

-- ===========================================================================
-- position.rs — make_move / unmake_move
--
-- `make_move` takes `&mut self` and can return `None` after having already
-- mutated the position, so it is embedded as a function returning the
-- post-call state together with the optional `UndoInfo`.  The body is split
-- at the source's early returns: `makeMoveAux` covers everything before the
-- final king-safety test and distinguishes the early failures (which leave
-- the partially mutated state, `Sum.inl`) from the fully applied move
-- (`Sum.inr`).
-- ===========================================================================

/-- The en-passant victim square of `make_move` / `unmake_move`
(`to - 8` for White moving, `to + 8` for Black). -/
def epCapSq (us : Color) (t : Nat) : Nat :=
  if us = Color.White then t - 8 else t + 8

/-- Steps of `make_move` from removing the moving piece at `from` up to the
side flip (source lines: move the piece, promotion, castling-rights update,
en-passant update, halfmove clock, fullmove number, side to move). -/
def Position.makeMoveFinish (p : Position) (m : Nat) (us them : Color)
    (f t : Nat) (movingPiece : PieceType) (undo : UndoInfo) : Position × UndoInfo :=
  let p := p.remove_piece us movingPiece f
  let p := { p with hash := p.hash ^^^ piece_key us movingPiece f }
  let placed :=
    match Move.promotionPiece m with
    | some promo => promo
    | none => movingPiece
  let p := p.add_piece us placed t
  let p := { p with hash := p.hash ^^^ piece_key us placed t }
  let p := p.update_castling_rights f t
  let p := { p with hash := p.hash ^^^ castling_key p.castling }
  let newEp : Option Nat :=
    if movingPiece = PieceType.Pawn ∧ ((t : Int) - (f : Int)).natAbs = 16
    then some ((f + t) / 2) else none
  let p := { p with en_passant := newEp, hash := p.hash ^^^ epHash newEp }
  let p := { p with halfmove_clock :=
    if movingPiece = PieceType.Pawn ∨ undo.captured.isSome then 0
    else p.halfmove_clock + 1 }
  let p := if us = Color.Black then { p with fullmove_number := p.fullmove_number + 1 } else p
  let p := { p with side_to_move := them, hash := p.hash ^^^ side_to_move_key }
  (p, undo)

/-- The en-passant-removal and castling-rook steps of `make_move`,
continuing into `makeMoveFinish`.  An unrecognized castling target square is
the source's early `return None`, leaving the partially mutated state. -/
def Position.makeMoveTail (p0 : Position) (m : Nat) (us them : Color)
    (f t : Nat) (movingPiece : PieceType) (undo0 : UndoInfo) :
    Position ⊕ (Position × UndoInfo) :=
  let pu :=
    if Move.isEnPassant m then
      let capSq := epCapSq us t
      let p := p0.remove_piece them PieceType.Pawn capSq
      ({ p with hash := p.hash ^^^ piece_key them PieceType.Pawn capSq },
       { undo0 with captured := some PieceType.Pawn })
    else (p0, undo0)
  let p := pu.1
  let undo := pu.2
  if Move.isCastling m then
    match castleRookSquares t with
    | some rooks =>
      let p := p.move_piece us PieceType.Rook rooks.1 rooks.2
      let p := { p with hash :=
        (p.hash ^^^ piece_key us PieceType.Rook rooks.1) ^^^ piece_key us PieceType.Rook rooks.2 }
      Sum.inr (p.makeMoveFinish m us them f t movingPiece undo)
    | none => Sum.inl p
  else Sum.inr (p.makeMoveFinish m us them f t movingPiece undo)

/-- `make_move` up to (but not including) the final king-safety test:
identify the mover (failing without mutation if the source square does not
hold a piece of the side to move), XOR out the old castling and EP keys,
handle a capture at the destination (failing with the hash already mutated
if the destination holds an own piece), then the special-move steps. -/
def Position.makeMoveAux (p0 : Position) (m : Nat) : Position ⊕ (Position × UndoInfo) :=
  let us := p0.side_to_move
  let them := us.flip
  let f := Move.fromSq m
  let t := Move.toSq m
  match p0.piece_on f with
  | none => Sum.inl p0
  | some cm =>
    if cm.1 = us then
      let movingPiece := cm.2
      let undo : UndoInfo :=
        { captured := none, castling := p0.castling, en_passant := p0.en_passant,
          halfmove_clock := p0.halfmove_clock, hash := p0.hash }
      let p1 := { p0 with hash :=
        (p0.hash ^^^ castling_key p0.castling) ^^^ epHash p0.en_passant }
      match p1.piece_on t with
      | some cap =>
        if cap.1 = them then
          let undo1 := { undo with captured := some cap.2 }
          let p2 := p1.remove_piece them cap.2 t
          let p2h := { p2 with hash := p2.hash ^^^ piece_key them cap.2 t }
          p2h.makeMoveTail m us them f t movingPiece undo1
        else Sum.inl p1
      | none => p1.makeMoveTail m us them f t movingPiece undo
    else Sum.inl p0

/-- `Position::unmake_move`: flip the side back, restore the saved fields,
remove the placed piece from `to` (looking it up on the board unless the
move was a promotion), put the original piece back on `from`, restore a
captured piece, and reverse the castling rook move. -/
def Position.unmake_move (p : Position) (m : Nat) (undo : UndoInfo) : Position :=
  let them := p.side_to_move
  let us := them.flip
  let p := { p with side_to_move := us }
  let p := if us = Color.Black then { p with fullmove_number := p.fullmove_number - 1 } else p
  let p := { p with castling := undo.castling, en_passant := undo.en_passant,
                    halfmove_clock := undo.halfmove_clock, hash := undo.hash }
  let f := Move.fromSq m
  let t := Move.toSq m
  let placedOpt : Option PieceType :=
    match Move.promotionPiece m with
    | some promo => some promo
    | none => (p.piece_on t).map (fun ct => ct.2)
  match placedOpt with
  | none => p
  | some placed =>
    let p := p.remove_piece us placed t
    let original := if Move.isPromotion m then PieceType.Pawn else placed
    let p := p.add_piece us original f
    let p :=
      match undo.captured with
      | some capPiece =>
        if Move.isEnPassant m then p.add_piece them PieceType.Pawn (epCapSq us t)
        else p.add_piece them capPiece t
      | none => p
    if Move.isCastling m then
      match castleRookSquares t with
      | some rooks => p.move_piece us PieceType.Rook rooks.2 rooks.1
      | none => p
    else p

/-- `Position::make_move`: apply the move, then verify the mover's king is
not attacked; an illegal move is unmade with the saved `UndoInfo`. -/
def Position.make_move (p0 : Position) (m : Nat) : Position × Option UndoInfo :=
  match p0.makeMoveAux m with
  | Sum.inl pfail => (pfail, none)
  | Sum.inr qu =>
    if qu.1.is_in_check p0.side_to_move then (qu.1.unmake_move m qu.2, none)
    else (qu.1, some qu.2)

/-- `Position::make_null_move`: clear EP (XORing its key out), flip the side
(XORing the side key), and return the saved EP square and hash. -/
def Position.make_null_move (p : Position) : Position × (Option Nat × Nat) :=
  let savedEp := p.en_passant
  let savedHash := p.hash
  let p :=
    match p.en_passant with
    | some ep => { p with hash := p.hash ^^^ en_passant_key (sqFile ep), en_passant := none }
    | none => p
  let p := { p with side_to_move := p.side_to_move.flip, hash := p.hash ^^^ side_to_move_key }
  (p, (savedEp, savedHash))

/-- `Position::unmake_null_move`. -/
def Position.unmake_null_move (p : Position) (savedEp : Option Nat) (savedHash : Nat) : Position :=
  { p with side_to_move := p.side_to_move.flip, en_passant := savedEp, hash := savedHash }

/-- `Position::has_non_pawn_material`. -/
def Position.has_non_pawn_material (p : Position) (c : Color) : Bool :=
  (p.pieces c PieceType.Knight ||| p.pieces c PieceType.Bishop |||
   p.pieces c PieceType.Rook ||| p.pieces c PieceType.Queen) ≠ 0

-- ===========================================================================
-- position.rs — FEN parsing and rendering, and types.rs square notation
-- ===========================================================================

/-- `Square::to_algebraic`. -/
def toAlgebraic (sq : Nat) : String :=
  String.mk [Char.ofNat (97 + sqFile sq), Char.ofNat (49 + sqRank sq)]

/-- `Square::from_algebraic`.  The source operates on the two bytes of the
string with wrapping `u8` subtraction; ASCII characters are embedded
one-to-one as bytes. -/
def fromAlgebraic (s : String) : Option Nat :=
  match s.toList with
  | [c1, c2] =>
    let file := (c1.toNat % 256 + 256 - 97) % 256
    let rank := (c2.toNat % 256 + 256 - 49) % 256
    if file < 8 ∧ rank < 8 then some (fromFileRank file rank) else none
  | _ => none

/-- The piece-letter decoding of `from_fen` (`ch.to_ascii_lowercase()`). -/
def charPiece (ch : Char) : Option PieceType :=
  match ch.toLower with
  | 'p' => some PieceType.Pawn
  | 'n' => some PieceType.Knight
  | 'b' => some PieceType.Bishop
  | 'r' => some PieceType.Rook
  | 'q' => some PieceType.Queen
  | 'k' => some PieceType.King
  | _ => none

/-- The placement-field loop of `from_fen`: scan characters, tracking the
current rank (starting at 7) and file, adding pieces as they appear. -/
def parsePlacement : List Char → Nat → Nat → Position → Except String Position
  | [], _, _, pos => Except.ok pos
  | ch :: rest, rank, file, pos =>
    if ch = '/' then
      if rank = 0 then Except.error "Too many ranks in FEN"
      else parsePlacement rest (rank - 1) 0 pos
    else if '1' ≤ ch ∧ ch ≤ '8' then
      parsePlacement rest rank (file + (ch.toNat - 48)) pos
    else if file ≥ 8 then Except.error "Too many files in FEN rank"
    else
      match charPiece ch with
      | none => Except.error "Invalid piece character in FEN"
      | some piece =>
        let color := if ch.isUpper then Color.White else Color.Black
        parsePlacement rest rank (file + 1)
          (pos.add_piece color piece (fromFileRank file rank))

/-- The castling-field loop of `from_fen`. -/
def parseCastlingField : List Char → Nat → Except String Nat
  | [], acc => Except.ok acc
  | c :: rest, acc =>
    if c = 'K' then parseCastlingField rest (crAdd acc WHITE_KINGSIDE)
    else if c = 'Q' then parseCastlingField rest (crAdd acc WHITE_QUEENSIDE)
    else if c = 'k' then parseCastlingField rest (crAdd acc BLACK_KINGSIDE)
    else if c = 'q' then parseCastlingField rest (crAdd acc BLACK_QUEENSIDE)
    else Except.error "Invalid castling rights"

/-- Rust `str::parse::<uN>()` for an unsigned bound `maxVal`: an optional
leading `+`, then one or more ASCII digits, rejecting values above the
bound. -/
def parseUInt (maxVal : Nat) (s : String) : Option Nat :=
  let cs := s.toList
  let cs := match cs with
    | '+' :: rest => rest
    | other => other
  if cs.isEmpty then none
  else if cs.all Char.isDigit then
    let v := cs.foldl (fun a c => a * 10 + (c.toNat - 48)) 0
    if v ≤ maxVal then some v else none
  else none

/-- Helper for `fenFields`: split a character list at whitespace, dropping
empty chunks (`acc` is the current chunk, reversed). -/
def splitWsAux : List Char → List Char → List String
  | [], acc => if acc.isEmpty then [] else [String.mk acc.reverse]
  | c :: rest, acc =>
    if c.isWhitespace then
      if acc.isEmpty then splitWsAux rest []
      else String.mk acc.reverse :: splitWsAux rest []
    else splitWsAux rest (c :: acc)

/-- The whitespace split of `from_fen` (`split_whitespace`: split at runs of
whitespace, no empty chunks). -/
def fenFields (fen : String) : List String := splitWsAux fen.toList []

/-- `Position::from_fen`. -/
def Position.from_fen (fen : String) : Except String Position :=
  let parts := fenFields fen
  if parts.length < 4 then Except.error "FEN must have at least 4 parts"
  else
    match parsePlacement (parts.getD 0 "").toList 7 0 Position.emptyPos with
    | Except.error e => Except.error e
    | Except.ok pos0 =>
      let sideField := parts.getD 1 ""
      if sideField = "w" ∨ sideField = "b" then
        let pos1 := { pos0 with side_to_move :=
          if sideField = "w" then Color.White else Color.Black }
        let castlingField := parts.getD 2 ""
        let castlingRes :=
          if castlingField = "-" then Except.ok 0
          else parseCastlingField castlingField.toList 0
        match castlingRes with
        | Except.error e => Except.error e
        | Except.ok cr =>
          let pos2 := { pos1 with castling := cr }
          let epField := parts.getD 3 ""
          let pos3 := { pos2 with en_passant :=
            if epField = "-" then none else fromAlgebraic epField }
          let hm :=
            match parts.get? 4 with
            | some s => (parseUInt 255 s).getD 0
            | none => 0
          let pos4 := { pos3 with halfmove_clock := hm }
          let fm :=
            match parts.get? 5 with
            | some s => (parseUInt 65535 s).getD 1
            | none => 1
          let pos5 := { pos4 with fullmove_number := fm }
          Except.ok { pos5 with hash := pos5.compute_hash }
      else Except.error "Invalid side to move"

/-- The FEN letter of a piece (`to_fen`): lowercase, uppercased for White. -/
def pieceFenChar (c : Color) (pt : PieceType) : Char :=
  let ch : Char :=
    match pt with
    | .Pawn => 'p'
    | .Knight => 'n'
    | .Bishop => 'b'
    | .Rook => 'r'
    | .Queen => 'q'
    | .King => 'k'
  if c = Color.White then ch.toUpper else ch

/-- One rank of the `to_fen` placement field, with run-length encoded empty
squares. -/
def rankFen (p : Position) (rank : Nat) : String :=
  let sf := (List.range 8).foldl
    (fun (acc : String × Nat) file =>
      match p.piece_on (fromFileRank file rank) with
      | some cp =>
        (((acc.1.append (if acc.2 > 0 then toString acc.2 else "")).push
            (pieceFenChar cp.1 cp.2)), 0)
      | none => (acc.1, acc.2 + 1))
    ("", 0)
  if sf.2 > 0 then sf.1.append (toString sf.2) else sf.1

/-- The castling field of `to_fen`. -/
def castlingFen (castling : Nat) : String :=
  if castling = 0 then "-"
  else
    let s := ""
    let s := if crHas castling WHITE_KINGSIDE then s.push 'K' else s
    let s := if crHas castling WHITE_QUEENSIDE then s.push 'Q' else s
    let s := if crHas castling BLACK_KINGSIDE then s.push 'k' else s
    if crHas castling BLACK_QUEENSIDE then s.push 'q' else s

/-- `Position::to_fen`: placement (ranks 8 down to 1), side, castling, EP,
halfmove clock, fullmove number. -/
def Position.to_fen (p : Position) : String :=
  let placement := String.intercalate "/" ((List.range 8).map (fun i => rankFen p (7 - i)))
  let side := match p.side_to_move with
    | Color.White => "w"
    | Color.Black => "b"
  let ep := match p.en_passant with
    | some sq => toAlgebraic sq
    | none => "-"
  placement ++ " " ++ side ++ " " ++ castlingFen p.castling ++ " " ++ ep ++ " " ++
    toString p.halfmove_clock ++ " " ++ toString p.fullmove_number

/-- The starting-position FEN of `Position::starting_position`. -/
def startFen : String := "rnbqkbnr/pppppppp/8/8/8/8/PPPPPPPP/RNBQKBNR w KQkq - 0 1"

/-- `Position::starting_position` (`from_fen(START).expect(..)`; the parse
cannot fail, so the fallback branch is never taken). -/
def Position.starting_position : Position :=
  match Position.from_fen startFen with
  | Except.ok p => p
  | Except.error _ => Position.emptyPos

-- ===========================================================================
-- bitboard.rs — masks and shifts used by the move generator
-- ===========================================================================

/-- `Bitboard::RANK_1`. -/
def RANK_1 : Nat := 0x00000000000000FF
/-- `Bitboard::RANK_3`. -/
def RANK_3 : Nat := 0x0000000000FF0000
/-- `Bitboard::RANK_6`. -/
def RANK_6 : Nat := 0x0000FF0000000000
/-- `Bitboard::RANK_8`. -/
def RANK_8 : Nat := 0xFF00000000000000
/-- `Bitboard::FILE_A`. -/
def FILE_A : Nat := 0x0101010101010101
/-- `Bitboard::FILE_H`. -/
def FILE_H : Nat := 0x8080808080808080
/-- `Bitboard::NOT_FILE_A`. -/
def NOT_FILE_A : Nat := mask64 ^^^ FILE_A
/-- `Bitboard::NOT_FILE_H`. -/
def NOT_FILE_H : Nat := mask64 ^^^ FILE_H

/-- `Bitboard::north`. -/
def bbNorth (b : Nat) : Nat := shl64 b 8
/-- `Bitboard::south`. -/
def bbSouth (b : Nat) : Nat := b >>> 8
/-- `Bitboard::north_east`. -/
def bbNorthEast (b : Nat) : Nat := shl64 b 9 &&& NOT_FILE_A
/-- `Bitboard::north_west`. -/
def bbNorthWest (b : Nat) : Nat := shl64 b 7 &&& NOT_FILE_H
/-- `Bitboard::south_east`. -/
def bbSouthEast (b : Nat) : Nat := (b >>> 7) &&& NOT_FILE_A
/-- `Bitboard::south_west`. -/
def bbSouthWest (b : Nat) : Nat := (b >>> 9) &&& NOT_FILE_H

/-- The ascending square indices of the set bits of a bitboard: the order a
`while let Some(sq) = bb.pop_lsb()` loop visits them. -/
def bitList (bb : Nat) : List Nat :=
  (List.range 64).filter (fun sq => bb.testBit sq)

-- ===========================================================================
-- movegen.rs — pseudo-legal and legal move generation
--
-- `MoveList` is a fixed-capacity array plus length; it is embedded as the
-- list of pushed moves, in push order.
-- ===========================================================================

/-- The four promotion pushes of `generate_pawn_moves` (Queen, Rook, Bishop,
Knight, in source order). -/
def promotionMoves (f t : Nat) : List Nat :=
  [Move.mkPromotion f t PieceType.Queen, Move.mkPromotion f t PieceType.Rook,
   Move.mkPromotion f t PieceType.Bishop, Move.mkPromotion f t PieceType.Knight]

/-- `generate_pawn_moves`: single pushes, double pushes, captures
(per pawn), then en passant, in the source's push order. -/
def generate_pawn_moves (p : Position) (us : Color) : List Nat :=
  let pawns := p.pieces us PieceType.Pawn
  let occupied := p.occupied_all
  let empty := bbNot occupied
  let enemies := p.occupied_by us.flip
  let isWhite := us = Color.White
  let promoRank := if isWhite then RANK_8 else RANK_1
  let singlePushes := if isWhite then bbNorth pawns &&& empty else bbSouth pawns &&& empty
  let doublePushes :=
    if isWhite then bbNorth (singlePushes &&& RANK_3) &&& empty
    else bbSouth (singlePushes &&& RANK_6) &&& empty
  let pushMoves := (bitList singlePushes).flatMap (fun t =>
    let f := if isWhite then t - 8 else t + 8
    if sqBB t &&& promoRank ≠ 0 then promotionMoves f t else [Move.mkNormal f t])
  let doubleMoves := (bitList doublePushes).map (fun t =>
    Move.mkNormal (if isWhite then t - 16 else t + 16) t)
  let capMoves := (bitList pawns).flatMap (fun f =>
    (bitList (pawn_attacks f isWhite &&& enemies)).flatMap (fun t =>
      if sqBB t &&& promoRank ≠ 0 then promotionMoves f t else [Move.mkNormal f t]))
  let epMoves :=
    match p.en_passant with
    | some epSq =>
      let epBB := sqBB epSq
      let attackers :=
        if isWhite then
          (bbSouthWest (epBB &&& NOT_FILE_A) ||| bbSouthEast (epBB &&& NOT_FILE_H)) &&& pawns
        else
          (bbNorthWest (epBB &&& NOT_FILE_A) ||| bbNorthEast (epBB &&& NOT_FILE_H)) &&& pawns
      (bitList attackers).map (fun f => Move.mkEnPassant f epSq)
    | none => []
  pushMoves ++ doubleMoves ++ capMoves ++ epMoves

/-- `generate_knight_moves`. -/
def generate_knight_moves (p : Position) (us : Color) : List Nat :=
  let friendly := p.occupied_by us
  (bitList (p.pieces us PieceType.Knight)).flatMap (fun f =>
    (bitList (knight_attacks f &&& bbNot friendly)).map (fun t => Move.mkNormal f t))

/-- `generate_bishop_moves`. -/
def generate_bishop_moves (p : Position) (us : Color) : List Nat :=
  let friendly := p.occupied_by us
  (bitList (p.pieces us PieceType.Bishop)).flatMap (fun f =>
    (bitList (bishop_attacks f p.occupied_all &&& bbNot friendly)).map
      (fun t => Move.mkNormal f t))

/-- `generate_rook_moves`. -/
def generate_rook_moves (p : Position) (us : Color) : List Nat :=
  let friendly := p.occupied_by us
  (bitList (p.pieces us PieceType.Rook)).flatMap (fun f =>
    (bitList (rook_attacks f p.occupied_all &&& bbNot friendly)).map
      (fun t => Move.mkNormal f t))

/-- `generate_queen_moves`. -/
def generate_queen_moves (p : Position) (us : Color) : List Nat :=
  let friendly := p.occupied_by us
  (bitList (p.pieces us PieceType.Queen)).flatMap (fun f =>
    (bitList (queen_attacks f p.occupied_all &&& bbNot friendly)).map
      (fun t => Move.mkNormal f t))

/-- `generate_castling_moves`: requires the right, empty between-squares,
not being in check, and unattacked pass-through and destination squares.
Square constants: F1 = 5, G1 = 6, B1 = 1, C1 = 2, D1 = 3, and the rank-8
analogues 61, 62, 57, 58, 59. -/
def generate_castling_moves (p : Position) (us : Color) (kingSq : Nat) : List Nat :=
  let rights := p.castling
  let occupied := p.occupied_all
  let them := us.flip
  if p.is_in_check us then []
  else
    match us with
    | Color.White =>
      (if crHas rights WHITE_KINGSIDE ∧ occupied &&& (sqBB 5 ||| sqBB 6) = 0 ∧
          ¬ p.is_square_attacked 5 them ∧ ¬ p.is_square_attacked 6 them
       then [Move.mkCastling kingSq 6] else []) ++
      (if crHas rights WHITE_QUEENSIDE ∧ occupied &&& (sqBB 1 ||| sqBB 2 ||| sqBB 3) = 0 ∧
          ¬ p.is_square_attacked 3 them ∧ ¬ p.is_square_attacked 2 them
       then [Move.mkCastling kingSq 2] else [])
    | Color.Black =>
      (if crHas rights BLACK_KINGSIDE ∧ occupied &&& (sqBB 61 ||| sqBB 62) = 0 ∧
          ¬ p.is_square_attacked 61 them ∧ ¬ p.is_square_attacked 62 them
       then [Move.mkCastling kingSq 62] else []) ++
      (if crHas rights BLACK_QUEENSIDE ∧ occupied &&& (sqBB 57 ||| sqBB 58 ||| sqBB 59) = 0 ∧
          ¬ p.is_square_attacked 59 them ∧ ¬ p.is_square_attacked 58 them
       then [Move.mkCastling kingSq 58] else [])

/-- `generate_king_moves` (normal steps, then castling). -/
def generate_king_moves (p : Position) (us : Color) : List Nat :=
  let friendly := p.occupied_by us
  match bbLsb (p.pieces us PieceType.King) with
  | some f =>
    ((bitList (king_attacks f &&& bbNot friendly)).map (fun t => Move.mkNormal f t)) ++
      generate_castling_moves p us f
  | none => []

/-- `generate_pseudo_legal_moves`: pawn, knight, bishop, rook, queen, king,
in source order. -/
def generate_pseudo_legal_moves (p : Position) : List Nat :=
  let us := p.side_to_move
  generate_pawn_moves p us ++ generate_knight_moves p us ++
  generate_bishop_moves p us ++ generate_rook_moves p us ++
  generate_queen_moves p us ++ generate_king_moves p us

/-- `generate_legal_moves`: keep the pseudo-legal moves accepted by
`make_move` (the source applies make/unmake on the same position, relying on
the rollback; the net effect on the returned list is this filter). -/
def generate_legal_moves (p : Position) : List Nat :=
  (generate_pseudo_legal_moves p).filter (fun m => (p.make_move m).2.isSome)

-- ===========================================================================
-- eval.rs — material and piece-square evaluation
-- ===========================================================================

/-- `MATE_SCORE` from eval.rs. -/
def MATE_SCORE : Int := 30000
/-- `DRAW_SCORE` from eval.rs. -/
def DRAW_SCORE : Int := 0

/-- `eval::piece_value` (centipawns). -/
def piece_value : PieceType → Int
  | .Pawn => 100
  | .Knight => 320
  | .Bishop => 330
  | .Rook => 500
  | .Queen => 900
  | .King => 20000

/-- `PAWN_PST` from eval.rs. -/
def PAWN_PST : List Int :=
  [0, 0, 0, 0, 0, 0, 0, 0,
   5, 10, 10, -20, -20, 10, 10, 5,
   5, -5, -10, 0, 0, -10, -5, 5,
   0, 0, 0, 20, 20, 0, 0, 0,
   5, 5, 10, 25, 25, 10, 5, 5,
   10, 10, 20, 30, 30, 20, 10, 10,
   50, 50, 50, 50, 50, 50, 50, 50,
   0, 0, 0, 0, 0, 0, 0, 0]

/-- `KNIGHT_PST` from eval.rs. -/
def KNIGHT_PST : List Int :=
  [-50, -40, -30, -30, -30, -30, -40, -50,
   -40, -20, 0, 5, 5, 0, -20, -40,
   -30, 5, 10, 15, 15, 10, 5, -30,
   -30, 0, 15, 20, 20, 15, 0, -30,
   -30, 5, 15, 20, 20, 15, 5, -30,
   -30, 0, 10, 15, 15, 10, 0, -30,
   -40, -20, 0, 0, 0, 0, -20, -40,
   -50, -40, -30, -30, -30, -30, -40, -50]

/-- `BISHOP_PST` from eval.rs. -/
def BISHOP_PST : List Int :=
  [-20, -10, -10, -10, -10, -10, -10, -20,
   -10, 5, 0, 0, 0, 0, 5, -10,
   -10, 10, 10, 10, 10, 10, 10, -10,
   -10, 0, 10, 10, 10, 10, 0, -10,
   -10, 5, 5, 10, 10, 5, 5, -10,
   -10, 0, 5, 10, 10, 5, 0, -10,
   -10, 0, 0, 0, 0, 0, 0, -10,
   -20, -10, -10, -10, -10, -10, -10, -20]

/-- `ROOK_PST` from eval.rs. -/
def ROOK_PST : List Int :=
  [0, 0, 0, 5, 5, 0, 0, 0,
   -5, 0, 0, 0, 0, 0, 0, -5,
   -5, 0, 0, 0, 0, 0, 0, -5,
   -5, 0, 0, 0, 0, 0, 0, -5,
   -5, 0, 0, 0, 0, 0, 0, -5,
   -5, 0, 0, 0, 0, 0, 0, -5,
   5, 10, 10, 10, 10, 10, 10, 5,
   0, 0, 0, 0, 0, 0, 0, 0]

/-- `QUEEN_PST` from eval.rs. -/
def QUEEN_PST : List Int :=
  [-20, -10, -10, -5, -5, -10, -10, -20,
   -10, 0, 5, 0, 0, 0, 0, -10,
   -10, 5, 5, 5, 5, 5, 0, -10,
   0, 0, 5, 5, 5, 5, 0, -5,
   -5, 0, 5, 5, 5, 5, 0, -5,
   -10, 0, 5, 5, 5, 5, 0, -10,
   -10, 0, 0, 0, 0, 0, 0, -10,
   -20, -10, -10, -5, -5, -10, -10, -20]

/-- `KING_PST_MG` from eval.rs. -/
def KING_PST_MG : List Int :=
  [20, 30, 10, 0, 0, 10, 30, 20,
   20, 20, 0, 0, 0, 0, 20, 20,
   -10, -20, -20, -20, -20, -20, -20, -10,
   -20, -30, -30, -40, -40, -30, -30, -20,
   -30, -40, -40, -50, -50, -40, -40, -30,
   -30, -40, -40, -50, -50, -40, -40, -30,
   -30, -40, -40, -50, -50, -40, -40, -30,
   -30, -40, -40, -50, -50, -40, -40, -30]

/-- `KING_PST_EG` from eval.rs. -/
def KING_PST_EG : List Int :=
  [-50, -30, -30, -30, -30, -30, -30, -50,
   -30, -30, 0, 0, 0, 0, -30, -30,
   -30, -10, 20, 30, 30, 20, -10, -30,
   -30, -10, 30, 40, 40, 30, -10, -30,
   -30, -10, 30, 40, 40, 30, -10, -30,
   -30, -10, 20, 30, 30, 20, -10, -30,
   -30, -20, -10, 0, 0, -10, -20, -30,
   -50, -40, -30, -20, -20, -30, -40, -50]

/-- `eval::pst_value`: index from White's view, vertically mirrored
(`sq ^ 56`) for Black. -/
def pst_value (table : List Int) (sq : Nat) (color : Color) : Int :=
  let index := if color = Color.White then sq else sq ^^^ 56
  table.getD index 0

/-- One piece-kind pass of `evaluate_side`: material value plus PST for each
piece of that kind. -/
def evalKind (p : Position) (color : Color) (pt : PieceType) (value : Int)
    (table : List Int) : Int :=
  (bitList (p.pieces color pt)).foldl (fun s sq => s + value + pst_value table sq color) 0

/-- `eval::count_material`: total non-king material of both sides. -/
def count_material (p : Position) : Int :=
  ((bitList (p.pieces Color.White PieceType.Pawn)).length * 100 +
   (bitList (p.pieces Color.White PieceType.Knight)).length * 320 +
   (bitList (p.pieces Color.White PieceType.Bishop)).length * 330 +
   (bitList (p.pieces Color.White PieceType.Rook)).length * 500 +
   (bitList (p.pieces Color.White PieceType.Queen)).length * 900 +
   (bitList (p.pieces Color.Black PieceType.Pawn)).length * 100 +
   (bitList (p.pieces Color.Black PieceType.Knight)).length * 320 +
   (bitList (p.pieces Color.Black PieceType.Bishop)).length * 330 +
   (bitList (p.pieces Color.Black PieceType.Rook)).length * 500 +
   (bitList (p.pieces Color.Black PieceType.Queen)).length * 900 : Nat)

/-- `eval::evaluate_king`: king PST, switching to the endgame table when the
total non-king material is below 2000 centipawns. -/
def evaluate_king (p : Position) (color : Color) : Int :=
  match bbLsb (p.pieces color PieceType.King) with
  | some sq =>
    pst_value (if count_material p < 2000 then KING_PST_EG else KING_PST_MG) sq color
  | none => 0

/-- `eval::evaluate_side`: pawns, knights, bishops (plus the bishop-pair
bonus of 30 when a side has at least two), rooks, queens, king. -/
def evaluate_side (p : Position) (color : Color) : Int :=
  evalKind p color PieceType.Pawn 100 PAWN_PST +
  evalKind p color PieceType.Knight 320 KNIGHT_PST +
  (evalKind p color PieceType.Bishop 330 BISHOP_PST +
    (if (bitList (p.pieces color PieceType.Bishop)).length ≥ 2 then 30 else 0)) +
  evalKind p color PieceType.Rook 500 ROOK_PST +
  evalKind p color PieceType.Queen 900 QUEEN_PST +
  evaluate_king p color

/-- `eval::evaluate`: White minus Black, negated for Black to move. -/
def evaluate (p : Position) : Int :=
  let score := evaluate_side p Color.White - evaluate_side p Color.Black
  if p.side_to_move = Color.White then score else -score

-- ===========================================================================
-- tt.rs — transposition table
-- ===========================================================================

/-- `TTFlag` from tt.rs. -/
inductive TTFlag where
  | Exact
  | LowerBound
  | UpperBound
deriving DecidableEq, Repr

/-- `TTEntry` from tt.rs.  `score` is a Rust `i32`, embedded as `Int`;
`best_move` is the 16-bit packed move. -/
structure TTEntry where
  hash : Nat
  depth : Nat
  score : Int
  flag : TTFlag
  best_move : Option Nat
deriving DecidableEq, Repr

/-- `TTEntry::default()`: the empty-slot sentinel, hash 0. -/
def TTEntry.default : TTEntry :=
  { hash := 0, depth := 0, score := 0, flag := TTFlag.Exact, best_move := none }

/-- `TranspositionTable` from tt.rs.  The hit/miss/store/collision counters
are statistics only and do not influence any result, so they are omitted. -/
structure TranspositionTable where
  entries : List TTEntry
  capacity : Nat
deriving DecidableEq, Repr

/-- `TranspositionTable::new(size_power)`. -/
def TranspositionTable.new (sizePower : Nat) : TranspositionTable :=
  { entries := List.replicate (2 ^ sizePower) TTEntry.default
    capacity := 2 ^ sizePower }

/-- `TranspositionTable::probe`: the slot is returned iff its stored hash
equals the probe hash and is non-zero. -/
def TranspositionTable.probe (tt : TranspositionTable) (hash : Nat) : Option TTEntry :=
  let idx := hash &&& (tt.capacity - 1)
  let entry := tt.entries.getD idx TTEntry.default
  if entry.hash = hash ∧ entry.hash ≠ 0 then some entry else none

/-- `TranspositionTable::store`: depth-preferred replacement.  Keeps the
existing entry only on a collision (different non-zero hash) with strictly
greater depth; otherwise writes the new entry into the slot. -/
def TranspositionTable.store (tt : TranspositionTable) (hash : Nat) (depth : Nat)
    (score : Int) (flag : TTFlag) (bestMove : Option Nat) : TranspositionTable :=
  let idx := hash &&& (tt.capacity - 1)
  let existing := tt.entries.getD idx TTEntry.default
  let newEntry : TTEntry :=
    { hash := hash, depth := depth, score := score, flag := flag,
      best_move := bestMove }
  if existing.hash ≠ 0 ∧ existing.hash ≠ hash ∧ existing.depth > depth then
    tt
  else
    { tt with entries := tt.entries.set idx newEntry }

/-- Two's-complement wrap of an `i32` result: release-mode Rust semantics
for overflowing `i32` arithmetic. -/
def wrap32 (x : Int) : Int := (x + 2147483648) % 4294967296 - 2147483648

/-- `tt::score_to_tt`: make mate scores root-relative when storing.
`Score` is `i32` and `ply` is `u8` (`ply as Score` is exact); the additions
are `i32` additions and wrap on overflow. -/
def score_to_tt (score : Int) (ply : Nat) : Int :=
  if score > 29000 then wrap32 (score + ply)
  else if score < -29000 then wrap32 (score - ply)
  else score

/-- `tt::score_from_tt`: reverse the adjustment when probing.  The same
wrapping `i32` arithmetic as `score_to_tt`. -/
def score_from_tt (score : Int) (ply : Nat) : Int :=
  if score > 29000 then wrap32 (score - ply)
  else if score < -29000 then wrap32 (score + ply)
  else score

-- ===========================================================================
-- search.rs — killers, move ordering, quiescence, alpha-beta
--
-- The search statistics (`SearchStats`) are counters and timing only; they
-- influence no returned score or move and are omitted.  The `&mut` threading
-- of the transposition table and killer table is embedded by returning the
-- updated tables.
-- ===========================================================================

/-- `Killers`: two killer-move slots per ply, `MAX_DEPTH = 64` plies. -/
structure Killers where
  table : List (Option Nat × Option Nat)
deriving DecidableEq, Repr

/-- `Killers::new()`. -/
def Killers.new : Killers := ⟨List.replicate 64 (none, none)⟩

/-- `Killers::store`: ignore out-of-range plies and duplicates of slot 0،
otherwise shift slot 0 down and install the new killer. -/
def Killers.store (k : Killers) (ply : Nat) (mv : Nat) : Killers :=
  if ply ≥ 64 then k
  else
    let slot := k.table.getD ply (none, none)
    if slot.1 = some mv then k
    else { table := k.table.set ply (some mv, slot.1) }

/-- `Killers::is_killer`. -/
def Killers.is_killer (k : Killers) (ply : Nat) (mv : Nat) : Bool :=
  if ply ≥ 64 then false
  else
    let slot := k.table.getD ply (none, none)
    slot.1 = some mv ∨ slot.2 = some mv

/-- `search::is_capture`. -/
def isCapture (p : Position) (m : Nat) : Bool :=
  Move.isEnPassant m || (p.piece_on (Move.toSq m)).isSome

/-- The ordering score of `order_moves_full`: TT move 100000, captures
10000 plus MVV-LVA, promotions 9000, quiet killers 5000. -/
def moveScore (p : Position) (ttMove : Option Nat) (killers : Killers) (ply : Nat)
    (mv : Nat) : Int :=
  let s : Int := 0
  let s := if ttMove = some mv then s + 100000 else s
  let s :=
    if isCapture p mv then
      let s := s + 10000
      let s := match p.piece_on (Move.toSq mv) with
        | some ct => s + piece_value ct.2 * 10
        | none => s
      match p.piece_on (Move.fromSq mv) with
      | some ct => s - piece_value ct.2
      | none => s
    else s
  let s := if Move.isPromotion mv then s + 9000 else s
  if ¬ isCapture p mv ∧ killers.is_killer ply mv then s + 5000 else s

/-- `order_moves_full`: stable sort by descending score (`sort_by` with
`b.1.cmp(&a.1)`). -/
def order_moves_full (moves : List Nat) (p : Position) (ttMove : Option Nat)
    (killers : Killers) (ply : Nat) : List Nat :=
  ((moves.map (fun mv => (mv, moveScore p ttMove killers ply mv))).mergeSort
    (fun a b => b.2 ≤ a.2)).map (fun x => x.1)

/-- The capture loop of `quiescence`; `recur` is the recursive quiescence
call at one less fuel. -/
def qLoop (recur : Position → Int → Int → Int) (p : Position) (beta : Int) :
    List Nat → Int → Int
  | [], alpha => alpha
  | mv :: rest, alpha =>
    if ¬ isCapture p mv then qLoop recur p beta rest alpha
    else
      match (p.make_move mv).2 with
      | none => qLoop recur p beta rest alpha
      | some _ =>
        let s := - recur (p.make_move mv).1 (-beta) (-alpha)
        if s ≥ beta then beta
        else if s > alpha then qLoop recur p beta rest s
        else qLoop recur p beta rest alpha

/-- `search::quiescence`.  The Rust recursion terminates because every
recursive call follows a capture, which strictly decreases the number of
pieces on the board; the fuel argument (always instantiated above that
piece count) makes the same recursion structural. -/
def quiescence : Nat → Position → Int → Int → Int
  | 0, p, _, _ => evaluate p
  | fuel + 1, p, alpha0, beta =>
    let standPat := evaluate p
    if standPat ≥ beta then beta
    else
      let alpha := if standPat > alpha0 then standPat else alpha0
      let moves := generate_legal_moves p
      if moves.isEmpty then
        if p.is_in_check p.side_to_move then -MATE_SCORE else DRAW_SCORE
      else
        qLoop (fun q a b => quiescence fuel q a b) p beta moves alpha

/-- The quiescence fuel used at the depth-0 boundary: one more than the
number of occupied squares, an upper bound on the capture-recursion depth. -/
def qFuel (p : Position) : Nat := (bitList p.occupied_all).length + 1

/-- The move loop of `alpha_beta`; `recur` is the recursive search at one
less depth and one more ply.  Returns the final alpha, best move, and the
threaded transposition and killer tables; a beta cutoff stores a quiet
killer and breaks. -/
def abLoop
    (recur : Position → Int → Int → TranspositionTable → Killers →
      (Int × Option Nat × TranspositionTable × Killers))
    (p : Position) (beta : Int) (ply : Nat) :
    List Nat → Int → Option Nat → TranspositionTable → Killers →
      (Int × Option Nat × TranspositionTable × Killers)
  | [], alpha, best, tt, killers => (alpha, best, tt, killers)
  | mv :: rest, alpha, best, tt, killers =>
    match (p.make_move mv).2 with
    | none => abLoop recur p beta ply rest alpha best tt killers
    | some _ =>
      let r := recur (p.make_move mv).1 (-beta) (-alpha) tt killers
      let score := - r.1
      let tt1 := r.2.2.1
      let killers1 := r.2.2.2
      if score > alpha then
        if score ≥ beta then
          let killers2 := if ¬ isCapture p mv then killers1.store ply mv else killers1
          (score, some mv, tt1, killers2)
        else abLoop recur p beta ply rest score (some mv) tt1 killers1
      else abLoop recur p beta ply rest alpha best tt1 killers1

/-- The part of `alpha_beta` after the depth-0 test and the TT probe:
generate legal moves, return the mate/stalemate score on an empty list,
otherwise order the moves, run the loop, classify the node and store it in
the TT.  `alphaStart` is the alpha after any TT lower-bound raise (the
source's `original_alpha`). -/
def alphaBetaMain
    (recur : Position → Int → Int → TranspositionTable → Killers →
      (Int × Option Nat × TranspositionTable × Killers))
    (p : Position) (depth ply : Nat) (alphaStart beta : Int)
    (tt : TranspositionTable) (killers : Killers) (ttMove : Option Nat) :
    Int × Option Nat × TranspositionTable × Killers :=
  let moves := generate_legal_moves p
  if moves.isEmpty then
    (if p.is_in_check p.side_to_move then -MATE_SCORE + ply else DRAW_SCORE,
     none, tt, killers)
  else
    let ordered := order_moves_full moves p ttMove killers ply
    let r := abLoop recur p beta ply ordered alphaStart none tt killers
    let alpha := r.1
    let best := r.2.1
    let tt1 := r.2.2.1
    let killers1 := r.2.2.2
    let flag :=
      if alpha ≥ beta then TTFlag.LowerBound
      else if alpha > alphaStart then TTFlag.Exact
      else TTFlag.UpperBound
    let tt2 := tt1.store p.hash depth (score_to_tt alpha ply) flag best
    (alpha, best, tt2, killers1)

/-- `search::alpha_beta`: quiescence at depth 0; otherwise probe the TT
(early-returning on a sufficient-depth Exact hit, a LowerBound at or above
beta, or an UpperBound at or below alpha, and raising alpha on a
non-cutting LowerBound), then search the legal moves. -/
def alpha_beta : Nat → Position → Nat → Int → Int → TranspositionTable → Killers →
    (Int × Option Nat × TranspositionTable × Killers)
  | 0, p, _, alpha, beta, tt, killers => (quiescence (qFuel p) p alpha beta, none, tt, killers)
  | depth + 1, p, ply, alpha, beta, tt, killers =>
    let recur := fun q a b tt1 k1 => alpha_beta depth q (ply + 1) a b tt1 k1
    match tt.probe p.hash with
    | some entry =>
      if entry.depth ≥ depth + 1 then
        let ttScore := score_from_tt entry.score ply
        match entry.flag with
        | TTFlag.Exact => (ttScore, entry.best_move, tt, killers)
        | TTFlag.LowerBound =>
          if ttScore ≥ beta then (ttScore, entry.best_move, tt, killers)
          else
            let alpha1 := if ttScore > alpha then ttScore else alpha
            alphaBetaMain recur p (depth + 1) ply alpha1 beta tt killers entry.best_move
        | TTFlag.UpperBound =>
          if ttScore ≤ alpha then (ttScore, entry.best_move, tt, killers)
          else alphaBetaMain recur p (depth + 1) ply alpha beta tt killers entry.best_move
      else alphaBetaMain recur p (depth + 1) ply alpha beta tt killers entry.best_move
    | none => alphaBetaMain recur p (depth + 1) ply alpha beta tt killers none

-- ===========================================================================
-- lib.rs — GameState: position plus history stacks
--
-- `Vec` push/pop at the back is embedded as a list used as a stack with the
-- newest element at the head.
-- ===========================================================================

/-- `GameState` from lib.rs. -/
structure GameState where
  position : Position
  hash_history : List Nat
  move_history : List (Nat × UndoInfo)
  uci_history : List String
deriving DecidableEq, Repr

/-- `GameState::new()`: starting position, hash stack seeded with its hash. -/
def GameState.new : GameState :=
  { position := Position.starting_position
    hash_history := [Position.starting_position.hash]
    move_history := []
    uci_history := [] }

/-- `GameState::from_fen`. -/
def GameState.from_fen (fen : String) : Except String GameState :=
  match Position.from_fen fen with
  | Except.error e => Except.error e
  | Except.ok pos =>
    Except.ok { position := pos, hash_history := [pos.hash],
                move_history := [], uci_history := [] }

/-- `GameState::parse_promo` (defaulting to Queen). -/
def parse_promo (ch : Char) : PieceType :=
  if ch = 'q' ∨ ch = 'Q' then PieceType.Queen
  else if ch = 'r' ∨ ch = 'R' then PieceType.Rook
  else if ch = 'b' ∨ ch = 'B' then PieceType.Bishop
  else if ch = 'n' ∨ ch = 'N' then PieceType.Knight
  else PieceType.Queen

/-- The move-resolution of `GameState::make_move_uci`: a pawn targeting the
EP square becomes en passant, a fifth character on a pawn move a promotion,
a king moving two files castling. -/
def resolveUciMove (p : Position) (uci : String) (f t : Nat) (pieceType : PieceType) : Nat :=
  let cs := uci.toList
  if pieceType = PieceType.Pawn then
    match p.en_passant with
    | some epSq =>
      if t = epSq then Move.mkEnPassant f t
      else if uci.length ≥ 5 then Move.mkPromotion f t (parse_promo (cs.getD 4 'q'))
      else Move.mkNormal f t
    | none =>
      if uci.length ≥ 5 then Move.mkPromotion f t (parse_promo (cs.getD 4 'q'))
      else Move.mkNormal f t
  else if pieceType = PieceType.King then
    if ((sqFile t : Int) - (sqFile f : Int)).natAbs = 2 then Move.mkCastling f t
    else Move.mkNormal f t
  else Move.mkNormal f t

/-- `GameState::make_move_uci`: parse the squares, resolve the move against
the position, call `make_move`, and on success push the new hash, the
`(Move, UndoInfo)` pair, and the UCI string.  The boolean result is the
source's return value; the returned `GameState` carries whatever state
`make_move` left behind (also on failure, mirroring `&mut self`). -/
def GameState.make_move_uci (g : GameState) (uci : String) : GameState × Bool :=
  if uci.length < 4 then (g, false)
  else
    let cs := uci.toList
    match fromAlgebraic (String.mk (cs.take 2)) with
    | none => (g, false)
    | some f =>
      match fromAlgebraic (String.mk ((cs.drop 2).take 2)) with
      | none => (g, false)
      | some t =>
        match g.position.piece_on f with
        | none => (g, false)
        | some cp =>
          let m := resolveUciMove g.position uci f t cp.2
          let res := g.position.make_move m
          match res.2 with
          | some undo =>
            ({ position := res.1
               hash_history := res.1.hash :: g.hash_history
               move_history := (m, undo) :: g.move_history
               uci_history := uci :: g.uci_history }, true)
          | none => ({ g with position := res.1 }, false)

/-- `GameState::undo`: pop the move, unmake it, pop the hash, and return the
popped UCI string (empty when there is nothing to undo). -/
def GameState.undo (g : GameState) : GameState × String :=
  match g.move_history with
  | (m, u) :: rest =>
    ({ position := g.position.unmake_move m u
       hash_history := g.hash_history.tail
       move_history := rest
       uci_history := g.uci_history.tail },
     g.uci_history.headD "")
  | [] => (g, "")

/-- `GameState::is_threefold_repetition`: the current hash occurs at least
three times in the hash stack. -/
def GameState.is_threefold_repetition (g : GameState) : Bool :=
  3 ≤ (g.hash_history.filter (fun h => h = g.position.hash)).length

-- ===========================================================================
-- Specification predicates
-- ===========================================================================

/-- The `Position` state invariants named by the spec: the per-color
occupancy caches are the unions of that color's piece bitboards,
`occupied_all` is the union of both, bitboards of distinct (color, piece)
pairs are disjoint, every bitboard is a 64-bit value, the castling byte uses
only its four low bits, the en-passant square (if any) is a board square,
and the stored hash equals the from-scratch Zobrist recomputation. -/
def Consistent (p : Position) : Prop :=
  p.occupied_white = p.white.pawn ||| p.white.knight ||| p.white.bishop |||
    p.white.rook ||| p.white.queen ||| p.white.king ∧
  p.occupied_black = p.black.pawn ||| p.black.knight ||| p.black.bishop |||
    p.black.rook ||| p.black.queen ||| p.black.king ∧
  p.occupied_all = p.occupied_white ||| p.occupied_black ∧
  (∀ c1 pt1 c2 pt2 : _, (c1, pt1) ≠ (c2, pt2) →
    p.pieces c1 pt1 &&& p.pieces c2 pt2 = 0) ∧
  (∀ c pt, p.pieces c pt < U64) ∧
  p.castling < 16 ∧
  p.en_passant.getD 0 < 64 ∧
  p.hash = p.compute_hash

instance (p : Position) : Decidable (Consistent p) := by
  unfold Consistent
  infer_instance

/-- The piece of the side to move sitting on the move's source square, if
any (the piece `make_move` identifies as the mover). -/
def moverOf (p : Position) (m : Nat) : Option PieceType :=
  match p.piece_on (Move.fromSq m) with
  | some cp => if cp.1 = p.side_to_move then some cp.2 else none
  | none => none

/-- Flag-consistency of an encoded move with the position it is played in:
exactly the guarantees that hold for every move emitted by the move
generator.  The source and destination differ; the side to move has a piece
on the source; the destination is not occupied by an own piece; a promotion
flag implies the mover is a pawn; an en-passant flag implies the destination
is the current EP square, the mover is a pawn, the destination is empty and
the EP victim square holds an opposing pawn; a castling flag implies the
king's source square, a recognized target, an own rook on the rook source,
an empty rook destination, and an empty king destination.  `make_move`
accepts some encodings outside these conditions, and on those it can break
the rollback, round-trip and hash invariants (see the corrected claims). -/
def SaneMove (p : Position) (m : Nat) : Prop :=
  Move.fromSq m ≠ Move.toSq m ∧
  (moverOf p m).isSome = true ∧
  p.occupied_by p.side_to_move &&& sqBB (Move.toSq m) = 0 ∧
  (Move.isPromotion m = true → moverOf p m = some PieceType.Pawn) ∧
  (Move.isEnPassant m = true →
    p.en_passant = some (Move.toSq m) ∧
    moverOf p m = some PieceType.Pawn ∧
    p.piece_on (Move.toSq m) = none ∧
    p.piece_on (epCapSq p.side_to_move (Move.toSq m)) =
      some (p.side_to_move.flip, PieceType.Pawn)) ∧
  (Move.isCastling m = true →
    Move.fromSq m = (if Move.toSq m < 8 then 4 else 60) ∧
    (castleRookSquares (Move.toSq m)).isSome = true ∧
    p.piece_on ((castleRookSquares (Move.toSq m)).getD (0, 0)).1 =
      some (p.side_to_move, PieceType.Rook) ∧
    p.occupied_all &&& sqBB ((castleRookSquares (Move.toSq m)).getD (0, 0)).2 = 0 ∧
    p.piece_on (Move.toSq m) = none)

instance (p : Position) (m : Nat) : Decidable (SaneMove p m) := by
  unfold SaneMove
  infer_instance

-- ===========================================================================
-- Concrete positions used by witnesses and counterexamples
-- ===========================================================================

/-- A bare-kings-and-one-pawn position, `4k3/8/8/3P4/8/8/8/4K3 w - - 0 1`
(White pawn on d5, no en-passant square). -/
def pawnD5Example : Position :=
  (Position.from_fen "4k3/8/8/3P4/8/8/8/4K3 w - - 0 1").toOption.getD Position.emptyPos

/-- A checkmated position, `k7/1Q6/1K6/8/8/8/8/8 b - - 0 1` (Black king a8
mated by queen b7 guarded by king b6). -/
def mateExample : Position :=
  (Position.from_fen "k7/1Q6/1K6/8/8/8/8/8 b - - 0 1").toOption.getD Position.emptyPos

/-- The en-passant position of the spec's scenario 7,
`4k3/8/8/3Pp3/8/8/8/4K3 w - e6 0 1`. -/
def epExample : Position :=
  (Position.from_fen "4k3/8/8/3Pp3/8/8/8/4K3 w - e6 0 1").toOption.getD Position.emptyPos

/-- The crafted en-passant-flagged move d5e6 (from 35 to 44):
pseudo-legal in `epExample` but flag-inconsistent in `pawnD5Example`,
where no pawn sits on e5. -/
def phantomEpMove : Nat := Move.mkEnPassant 35 44

/-- A pinned-knight position, `4r3/8/8/8/8/8/4N3/4K3 w - - 0 1`: the White
knight on e2 is pinned against the king on e1 by the rook on e8, so every
knight move is rejected by the king-safety test. -/
def pinExample : Position :=
  (Position.from_fen "4r3/8/8/8/8/8/4N3/4K3 w - - 0 1").toOption.getD Position.emptyPos

/-- The game state after 1. e4 from the starting position. -/
def gsAfterE4 : GameState := (GameState.new.make_move_uci "e2e4").1

/-- A small concrete transposition table used by witnesses: capacity 4, with
one entry of hash 5 and depth 5 sitting in slot `5 &&& 3 = 1`. -/
def ttExample : TranspositionTable :=
  TranspositionTable.store (TranspositionTable.new 2) 5 5 0 TTFlag.Exact none

def BoardsOK (p : Position) : Prop :=
  (∀ c, p.occupied_by c =
    p.pieces c .Pawn ||| p.pieces c .Knight ||| p.pieces c .Bishop |||
    p.pieces c .Rook ||| p.pieces c .Queen ||| p.pieces c .King) ∧
  p.occupied_all = p.occupied_by .White ||| p.occupied_by .Black ∧
  (∀ c1 pt1 c2 pt2 : _, (c1, pt1) ≠ (c2, pt2) →
    p.pieces c1 pt1 &&& p.pieces c2 pt2 = 0) ∧
  (∀ c pt, p.pieces c pt < U64)

instance (p : Position) : Decidable (BoardsOK p) := by
  unfold BoardsOK
  infer_instance

def crUpdate (c0 f t : Nat) : Nat :=
  let c := c0
  let c := if f = 4 then crRemove c (WHITE_KINGSIDE ||| WHITE_QUEENSIDE) else c
  let c := if f = 60 then crRemove c (BLACK_KINGSIDE ||| BLACK_QUEENSIDE) else c
  let c := if f = 0 ∨ t = 0 then crRemove c WHITE_QUEENSIDE else c
  let c := if f = 7 ∨ t = 7 then crRemove c WHITE_KINGSIDE else c
  let c := if f = 56 ∨ t = 56 then crRemove c BLACK_QUEENSIDE else c
  let c := if f = 63 ∨ t = 63 then crRemove c BLACK_KINGSIDE else c
  c

/-- Proof-internal spelling of the decimal digit list of a natural number
(most significant first), mirroring `Nat.toDigits 10`. -/
def decDigits (n : Nat) : List Char :=
  if h : n < 10 then [Nat.digitChar n]
  else decDigits (n / 10) ++ [Nat.digitChar (n % 10)]
decreasing_by exact Nat.div_lt_self (by omega) (by omega)

/-- The optional leading `+` strip of `parseUInt`, as a named function. -/
def stripPlus : List Char → List Char
  | '+' :: rest => rest
  | other => other

/-- Proof helper: the square-by-square reconstruction performed by the
placement parser, driven by the reference position's `piece_on`. -/
def addSq (p q : Position) (sq : Nat) : Position :=
  match p.piece_on sq with
  | some cp => q.add_piece cp.1 cp.2 sq
  | none => q

/-- Proof helper: the character stream `rankFen` emits for the given
remaining files, with `k` pending empty squares. -/
def rankTailChars (p : Position) (rank : Nat) : List Nat → Nat → List Char
  | [], k => if 0 < k then (toString k).data else []
  | f :: fs, k =>
    match p.piece_on (fromFileRank f rank) with
    | some cp => (if 0 < k then (toString k).data else []) ++
        pieceFenChar cp.1 cp.2 :: rankTailChars p rank fs 0
    | none => rankTailChars p rank fs (k + 1)

/-- Proof helper: the character stream of the placement field for ranks
`r` down to `0`. -/
def ranksChars (p : Position) : Nat → List Char
  | 0 => rankTailChars p 0 (List.range 8) 0
  | r + 1 => rankTailChars p (r + 1) (List.range 8) 0 ++ '/' :: ranksChars p r

/-- Proof helper: the squares of ranks `r` down to `0` in the parser's
visiting order. -/
def ranksSqs : Nat → List Nat
  | 0 => List.range' 0 8
  | r + 1 => List.range' ((r + 1) * 8) 8 ++ ranksSqs r

-- ===========================================================================
-- Theorems
-- ===========================================================================

-- Bitwise toolkit ----------------------------------------------------------

theorem U64_eq : U64 = 2 ^ 64 := rfl

theorem sqBB_eq_pow {s : Nat} (hs : s < 64) : sqBB s = 2 ^ s := by
  have h1 : (1 : Nat) <<< s = 2 ^ s := by rw [Nat.shiftLeft_eq, one_mul]
  unfold sqBB shl64
  rw [h1, U64_eq]
  exact Nat.mod_eq_of_lt (Nat.pow_lt_pow_right (by norm_num) hs)

theorem sqBB_lt (s : Nat) : sqBB s < U64 :=
  Nat.mod_lt _ (by rw [U64_eq]; positivity)

theorem testBit_sqBB {s : Nat} (hs : s < 64) (i : Nat) :
    (sqBB s).testBit i = decide (s = i) := by
  rw [sqBB_eq_pow hs, Nat.testBit_two_pow]

theorem mask64_testBit (i : Nat) : mask64.testBit i = decide (i < 64) := by
  have h : mask64 = 2 ^ 64 - 1 := rfl
  rw [h, Nat.testBit_two_pow_sub_one]

theorem testBit_bbNot (b i : Nat) :
    (bbNot b).testBit i = (decide (i < 64) ^^ b.testBit i) := by
  unfold bbNot
  rw [Nat.testBit_xor, mask64_testBit]

theorem testBit_ge_64 {x : Nat} (hx : x < U64) {i : Nat} (hi : 64 ≤ i) :
    x.testBit i = false := by
  refine Nat.testBit_lt_two_pow (lt_of_lt_of_le (U64_eq ▸ hx) ?_)
  exact Nat.pow_le_pow_right (by norm_num) hi

theorem land_sqBB_ne_zero {x s : Nat} (hs : s < 64) :
    (x &&& sqBB s ≠ 0) ↔ x.testBit s = true := by
  rw [sqBB_eq_pow hs, Nat.and_two_pow]
  cases h : x.testBit s <;> simp [h]

theorem or_sqBB_lt {x : Nat} (s : Nat) (hx : x < U64) : x ||| sqBB s < U64 := by
  rw [U64_eq] at *
  exact Nat.or_lt_two_pow hx (U64_eq ▸ sqBB_lt s)

theorem and_lt_U64 {x : Nat} (y : Nat) (hx : x < U64) : x &&& y < U64 :=
  lt_of_le_of_lt Nat.and_le_left hx

theorem testBit_set {x s : Nat} (hs : s < 64) (i : Nat) :
    (x ||| sqBB s).testBit i = (x.testBit i || decide (s = i)) := by
  rw [Nat.testBit_or, testBit_sqBB hs]

theorem testBit_clear {x s : Nat} (hx : x < U64) (hs : s < 64) (i : Nat) :
    (x &&& bbNot (sqBB s)).testBit i = (x.testBit i && !decide (s = i)) := by
  rw [Nat.testBit_and, testBit_bbNot, testBit_sqBB hs]
  rcases Nat.lt_or_ge i 64 with hi | hi
  · simp [hi]
  · rw [testBit_ge_64 hx hi]
    simp [Nat.not_lt.mpr hi, show s ≠ i by omega]

/-- Removal then re-addition of a present bit is the identity. -/
theorem clear_then_set {x s : Nat} (hx : x < U64) (hs : s < 64)
    (h : x.testBit s = true) : (x &&& bbNot (sqBB s)) ||| sqBB s = x := by
  apply Nat.eq_of_testBit_eq
  intro i
  rw [testBit_set hs, testBit_clear hx hs]
  by_cases hi : s = i
  · subst hi
    simp [h]
  · simp [hi]

/-- Addition then removal of an absent bit is the identity. -/
theorem set_then_clear {x s : Nat} (hx : x < U64) (hs : s < 64)
    (h : x.testBit s = false) : (x ||| sqBB s) &&& bbNot (sqBB s) = x := by
  apply Nat.eq_of_testBit_eq
  intro i
  rw [testBit_clear (or_sqBB_lt s hx) hs, testBit_set hs]
  by_cases hi : s = i
  · subst hi
    simp [h]
  · simp [hi]

/-- A piece moved from `f` to `t` and back: remove `f`, add `t`, remove `t`,
add `f` is the identity when `f` is present and `t` absent. -/
theorem move_then_back {x f t : Nat} (hx : x < U64) (hf : f < 64) (ht : t < 64)
    (hft : f ≠ t) (hbf : x.testBit f = true) (hbt : x.testBit t = false) :
    ((((x &&& bbNot (sqBB f)) ||| sqBB t) &&& bbNot (sqBB t)) ||| sqBB f) = x := by
  apply Nat.eq_of_testBit_eq
  intro i
  rw [testBit_set hf, testBit_clear (or_sqBB_lt t (and_lt_U64 _ hx)) ht,
    testBit_set ht, testBit_clear hx hf]
  by_cases hif : f = i
  · subst hif
    simp [hbf, show ¬ t = f by omega]
  · by_cases hit : t = i
    · subst hit
      simp [hbt, show ¬ f = t from hft, hif]
    · simp [hif, hit]

/-- The `occupied_all` cycle of a capturing move: remove the captured bit at
`t`, remove the mover at `f`, add it at `t`; unmake removes `t`, adds `f`,
restores the captured bit at `t`. -/
theorem capture_cycle {x f t : Nat} (hx : x < U64) (hf : f < 64) (ht : t < 64)
    (hft : f ≠ t) (hbf : x.testBit f = true) (hbt : x.testBit t = true) :
    ((((((x &&& bbNot (sqBB t)) &&& bbNot (sqBB f)) ||| sqBB t) &&& bbNot (sqBB t))
      ||| sqBB f) ||| sqBB t) = x := by
  apply Nat.eq_of_testBit_eq
  intro i
  have h1 : x &&& bbNot (sqBB t) < U64 := and_lt_U64 _ hx
  have h2 : (x &&& bbNot (sqBB t)) &&& bbNot (sqBB f) < U64 := and_lt_U64 _ h1
  rw [testBit_set ht, testBit_set hf,
    testBit_clear (or_sqBB_lt t h2) ht, testBit_set ht,
    testBit_clear h1 hf, testBit_clear hx ht]
  by_cases hif : f = i
  · subst hif
    simp [hbf, hft]
  · by_cases hit : t = i
    · subst hit
      simp [hbt, hif]
    · simp [hif, hit]

/-- The `occupied_all` cycle of an en-passant move: remove the victim at
`c`, remove the mover at `f`, add it at `t`; unmake removes `t`, adds `f`,
restores the victim at `c`. -/
theorem ep_cycle {x f t c : Nat} (hx : x < U64) (hf : f < 64) (ht : t < 64)
    (hc : c < 64) (hft : f ≠ t) (hfc : f ≠ c) (htc : t ≠ c)
    (hbf : x.testBit f = true) (hbt : x.testBit t = false)
    (hbc : x.testBit c = true) :
    ((((((x &&& bbNot (sqBB c)) &&& bbNot (sqBB f)) ||| sqBB t) &&& bbNot (sqBB t))
      ||| sqBB f) ||| sqBB c) = x := by
  apply Nat.eq_of_testBit_eq
  intro i
  have h1 : x &&& bbNot (sqBB c) < U64 := and_lt_U64 _ hx
  have h2 : (x &&& bbNot (sqBB c)) &&& bbNot (sqBB f) < U64 := and_lt_U64 _ h1
  rw [testBit_set hc, testBit_set hf,
    testBit_clear (or_sqBB_lt t h2) ht, testBit_set ht,
    testBit_clear h1 hf, testBit_clear hx hc]
  by_cases hic : c = i
  · subst hic
    simp [hbc, hfc, htc]
  · by_cases hif : f = i
    · subst hif
      simp [hbf, hft, hic]
    · by_cases hit : t = i
      · subst hit
        simp [hbt, hic, hif]
      · simp [hic, hif, hit]

/-- The castling cycle on a shared bitboard (rook board, own occupancy, or
`occupied_all`): rook `rf → rt`, mover `f → t`; unmake reverses both. -/
theorem castle_cycle {x f t rf rt : Nat} (hx : x < U64) (hf : f < 64)
    (ht : t < 64) (hrf : rf < 64) (hrt : rt < 64)
    (d1 : f ≠ t) (d2 : f ≠ rf) (d3 : f ≠ rt) (d4 : t ≠ rf) (d5 : t ≠ rt)
    (d6 : rf ≠ rt)
    (hbf : x.testBit f = true) (hbrf : x.testBit rf = true)
    (hbt : x.testBit t = false) (hbrt : x.testBit rt = false) :
    ((((((((x &&& bbNot (sqBB rf)) ||| sqBB rt) &&& bbNot (sqBB f)) ||| sqBB t)
      &&& bbNot (sqBB t)) ||| sqBB f) &&& bbNot (sqBB rt)) ||| sqBB rf) = x := by
  apply Nat.eq_of_testBit_eq
  intro i
  have h1 : x &&& bbNot (sqBB rf) < U64 := and_lt_U64 _ hx
  have h2 : (x &&& bbNot (sqBB rf)) ||| sqBB rt < U64 := or_sqBB_lt rt h1
  have h3 : ((x &&& bbNot (sqBB rf)) ||| sqBB rt) &&& bbNot (sqBB f) < U64 :=
    and_lt_U64 _ h2
  have h4 : (((x &&& bbNot (sqBB rf)) ||| sqBB rt) &&& bbNot (sqBB f)) ||| sqBB t <
      U64 := or_sqBB_lt t h3
  have h5 : ((((x &&& bbNot (sqBB rf)) ||| sqBB rt) &&& bbNot (sqBB f)) ||| sqBB t)
      &&& bbNot (sqBB t) < U64 := and_lt_U64 _ h4
  have h6 : (((((x &&& bbNot (sqBB rf)) ||| sqBB rt) &&& bbNot (sqBB f)) ||| sqBB t)
      &&& bbNot (sqBB t)) ||| sqBB f < U64 := or_sqBB_lt f h5
  rw [testBit_set hrf, testBit_clear h6 hrt, testBit_set hf, testBit_clear h4 ht,
    testBit_set ht, testBit_clear h2 hf, testBit_set hrt, testBit_clear hx hrf]
  by_cases hi1 : f = i
  · subst hi1
    simp [hbf, Ne.symm d1, Ne.symm d2, Ne.symm d3]
  · by_cases hi2 : t = i
    · subst hi2
      simp [hbt, Ne.symm d4, Ne.symm d5, hi1]
    · by_cases hi3 : rf = i
      · subst hi3
        simp [hbrf, Ne.symm d6, hi1, hi2]
      · by_cases hi4 : rt = i
        · subst hi4
          simp [hbrt, hi1, hi2, hi3]
        · simp [hi1, hi2, hi3, hi4]

-- PieceSet access lemmas ---------------------------------------------------

theorem PieceSet.get_setPT_same (s : PieceSet) (pt : PieceType) (v : Nat) :
    (s.setPT pt v).get pt = v := by
  cases pt <;> rfl

theorem PieceSet.get_setPT_other (s : PieceSet) {pt pt' : PieceType} (v : Nat)
    (h : pt ≠ pt') : (s.setPT pt v).get pt' = s.get pt' := by
  cases pt <;> cases pt' <;> first
    | exact absurd rfl h
    | rfl

theorem PieceSet.ext_get {s1 s2 : PieceSet}
    (h : ∀ pt, s1.get pt = s2.get pt) : s1 = s2 := by
  cases s1
  cases s2
  simp only [PieceSet.mk.injEq]
  exact ⟨h .Pawn, h .Knight, h .Bishop, h .Rook, h .Queen, h .King⟩

-- piece_on characterization under the state invariants ---------------------

theorem land_sqBB_eq_zero {x s : Nat} (hs : s < 64) :
    (x &&& sqBB s = 0) ↔ x.testBit s = false := by
  rw [sqBB_eq_pow hs, Nat.and_two_pow]
  cases h : x.testBit s <;> simp [h]

theorem occ_testBit {p : Position} (hc : Consistent p) (c : Color) (i : Nat) :
    (p.occupied_by c).testBit i =
      ((p.pieces c PieceType.Pawn).testBit i ||
       (p.pieces c PieceType.Knight).testBit i ||
       (p.pieces c PieceType.Bishop).testBit i ||
       (p.pieces c PieceType.Rook).testBit i ||
       (p.pieces c PieceType.Queen).testBit i ||
       (p.pieces c PieceType.King).testBit i) := by
  obtain ⟨hoW, hoB, -, -, -, -, -, -⟩ := hc
  cases c
  · show p.occupied_white.testBit i = _
    rw [hoW]
    simp only [Nat.testBit_or, Position.pieces, Position.colorPieces, PieceSet.get]
  · show p.occupied_black.testBit i = _
    rw [hoB]
    simp only [Nat.testBit_or, Position.pieces, Position.colorPieces, PieceSet.get]

theorem pieces_le_occ {p : Position} (hc : Consistent p) (c : Color)
    (pt : PieceType) {i : Nat} (h : (p.pieces c pt).testBit i = true) :
    (p.occupied_by c).testBit i = true := by
  rw [occ_testBit hc]
  cases pt <;> simp [h]

theorem findType_some_of_testBit {s : PieceSet} {bb : Nat} :
    (s.pawn &&& bb ≠ 0 ∨ s.knight &&& bb ≠ 0 ∨ s.bishop &&& bb ≠ 0 ∨
     s.rook &&& bb ≠ 0 ∨ s.queen &&& bb ≠ 0 ∨ s.king &&& bb ≠ 0) →
    (s.findType bb).isSome = true := by
  intro h
  simp only [PieceSet.findType]
  split_ifs <;> simp_all

theorem piece_on_isSome {p : Position} (hc : Consistent p) {sq : Nat}
    (hsq : sq < 64) {c : Color} {pt : PieceType}
    (h : (p.pieces c pt).testBit sq = true) :
    (p.piece_on sq).isSome = true := by
  have hocc := pieces_le_occ hc c pt h
  simp only [Position.piece_on]
  cases c
  · have hgW : p.occupied_white &&& sqBB sq ≠ 0 :=
      (land_sqBB_ne_zero hsq).mpr hocc
    rw [if_pos hgW]
    have hf : (p.white.findType (sqBB sq)).isSome = true := by
      apply findType_some_of_testBit
      cases pt <;>
        simp_all [land_sqBB_ne_zero hsq, Position.pieces, Position.colorPieces,
          PieceSet.get]
    cases hft : p.white.findType (sqBB sq)
    · rw [hft] at hf
      exact Bool.noConfusion hf
    · simp [hft]
  · cases hft : (if p.occupied_white &&& sqBB sq ≠ 0 then
        (p.white.findType (sqBB sq)).map (fun t => (Color.White, t)) else none) with
    | some r => simp [hft]
    | none =>
      dsimp only
      have hgB : p.occupied_black &&& sqBB sq ≠ 0 :=
        (land_sqBB_ne_zero hsq).mpr hocc
      rw [if_pos hgB]
      have hf : (p.black.findType (sqBB sq)).isSome = true := by
        apply findType_some_of_testBit
        cases pt <;>
          simp_all [land_sqBB_ne_zero hsq, Position.pieces, Position.colorPieces,
            PieceSet.get]
      cases hfb : p.black.findType (sqBB sq)
      · rw [hfb] at hf
        exact Bool.noConfusion hf
      · simp [hfb]

theorem piece_on_none_testBit {p : Position} (hc : Consistent p) {sq : Nat}
    (hsq : sq < 64) (h : p.piece_on sq = none) (c : Color) (pt : PieceType) :
    (p.pieces c pt).testBit sq = false := by
  by_contra hb
  have := piece_on_isSome hc hsq
    (show (p.pieces c pt).testBit sq = true by simpa using hb)
  rw [h] at this
  exact Bool.noConfusion this

theorem findType_get {s : PieceSet} {bb : Nat} {pt : PieceType}
    (h : s.findType bb = some pt) : s.get pt &&& bb ≠ 0 := by
  simp only [PieceSet.findType] at h
  split_ifs at h with h1 h2 h3 h4 h5 h6 <;>
    first
    | (cases h; simpa [PieceSet.get] using ‹_›)
    | exact Option.noConfusion h

theorem piece_on_black_aux {p : Position} {sq : Nat} {c : Color} {pt : PieceType}
    (h : (if p.occupied_black &&& sqBB sq ≠ 0 then
        (p.black.findType (sqBB sq)).map (fun t => (Color.Black, t)) else none) =
      some (c, pt)) :
    c = Color.Black ∧ p.black.findType (sqBB sq) = some pt := by
  by_cases hg : p.occupied_black &&& sqBB sq ≠ 0
  · rw [if_pos hg] at h
    cases hft : p.black.findType (sqBB sq) with
    | some pt0 =>
      rw [hft] at h
      simp only [Option.map] at h
      cases h
      exact ⟨rfl, rfl⟩
    | none =>
      rw [hft] at h
      simp only [Option.map] at h
      exact Option.noConfusion h
  · rw [if_neg hg] at h
    exact Option.noConfusion h

theorem piece_on_some_testBit {p : Position} {sq : Nat} (hsq : sq < 64)
    {c : Color} {pt : PieceType} (h : p.piece_on sq = some (c, pt)) :
    (p.pieces c pt).testBit sq = true := by
  simp only [Position.piece_on] at h
  by_cases hgW : p.occupied_white &&& sqBB sq ≠ 0
  · rw [if_pos hgW] at h
    cases hft : p.white.findType (sqBB sq) with
    | some pt0 =>
      rw [hft] at h
      simp only [Option.map] at h
      cases h
      exact (land_sqBB_ne_zero hsq).mp (findType_get hft)
    | none =>
      rw [hft] at h
      simp only [Option.map] at h
      obtain ⟨hcB, hfb⟩ := piece_on_black_aux h
      subst hcB
      exact (land_sqBB_ne_zero hsq).mp (findType_get hfb)
  · rw [if_neg hgW] at h
    obtain ⟨hcB, hfb⟩ := piece_on_black_aux h
    subst hcB
    exact (land_sqBB_ne_zero hsq).mp (findType_get hfb)

theorem findType_unique {s : PieceSet} {bb : Nat} {pt : PieceType}
    (h : s.get pt &&& bb ≠ 0) (hothers : ∀ pt1, pt1 ≠ pt → s.get pt1 &&& bb = 0) :
    s.findType bb = some pt := by
  have hP := fun hne => hothers .Pawn hne
  have hN := fun hne => hothers .Knight hne
  have hB := fun hne => hothers .Bishop hne
  have hR := fun hne => hothers .Rook hne
  have hQ := fun hne => hothers .Queen hne
  cases pt <;>
    simp_all [PieceSet.findType, PieceSet.get]

theorem piece_on_eq_white {p : Position} {sq : Nat} {pt : PieceType}
    (hgW : p.occupied_white &&& sqBB sq ≠ 0)
    (hft : p.white.findType (sqBB sq) = some pt) :
    p.piece_on sq = some (Color.White, pt) := by
  simp [Position.piece_on, hgW, hft]

theorem piece_on_eq_black {p : Position} {sq : Nat} {pt : PieceType}
    (hgW : p.occupied_white &&& sqBB sq = 0)
    (hgB : p.occupied_black &&& sqBB sq ≠ 0)
    (hft : p.black.findType (sqBB sq) = some pt) :
    p.piece_on sq = some (Color.Black, pt) := by
  simp [Position.piece_on, hgW, hgB, hft]

theorem piece_on_some_other {p : Position} (hc : Consistent p) {sq : Nat}
    (hsq : sq < 64) {c : Color} {pt : PieceType}
    (h : p.piece_on sq = some (c, pt)) {c1 : Color} {pt1 : PieceType}
    (hne : (c1, pt1) ≠ (c, pt)) : (p.pieces c1 pt1).testBit sq = false := by
  obtain ⟨-, -, -, hdisj, -, -, -, -⟩ := hc
  have h1 := piece_on_some_testBit hsq h
  by_contra hb
  have hb1 : (p.pieces c1 pt1).testBit sq = true := by simpa using hb
  have hz := hdisj c1 pt1 c pt hne
  have : ((p.pieces c1 pt1) &&& (p.pieces c pt)).testBit sq = true := by
    rw [Nat.testBit_and, hb1, h1]
    rfl
  rw [hz] at this
  rw [Nat.zero_testBit] at this
  exact Bool.noConfusion this

-- Move-encoding and color helpers ------------------------------------------

theorem Move.fromSq_lt (m : Nat) : Move.fromSq m < 64 :=
  Nat.mod_lt _ (by norm_num)

theorem Move.toSq_lt (m : Nat) : Move.toSq m < 64 :=
  Nat.mod_lt _ (by norm_num)

theorem Move.ep_flags {m : Nat} (h : Move.isEnPassant m = true) :
    Move.flags m = 2 := by
  simpa [Move.isEnPassant] using h

theorem Move.castle_flags {m : Nat} (h : Move.isCastling m = true) :
    Move.flags m = 3 := by
  simpa [Move.isCastling] using h

theorem Move.isPromotion_eq_false {m : Nat} (h : Move.flags m ≠ 1) :
    Move.isPromotion m = false := by
  simp [Move.isPromotion, h]

theorem Move.isEnPassant_eq_false {m : Nat} (h : Move.flags m ≠ 2) :
    Move.isEnPassant m = false := by
  simp [Move.isEnPassant, h]

theorem Move.isCastling_eq_false {m : Nat} (h : Move.flags m ≠ 3) :
    Move.isCastling m = false := by
  simp [Move.isCastling, h]

theorem Move.promotionPiece_eq_none {m : Nat} (h : Move.isPromotion m = false) :
    Move.promotionPiece m = none := by
  simp [Move.promotionPiece, h]

theorem Move.isPromotion_of_promotionPiece {m : Nat} {pr : PieceType}
    (h : Move.promotionPiece m = some pr) : Move.isPromotion m = true := by
  by_cases hp : Move.isPromotion m
  · exact hp
  · rw [Move.promotionPiece_eq_none (Bool.eq_false_iff.mpr hp)] at h
    exact Option.noConfusion h

theorem Color.flip_flip (c : Color) : c.flip.flip = c := by
  cases c <;> rfl

theorem Color.eq_flip_of_ne {c d : Color} (h : d ≠ c) : d = c.flip := by
  cases c <;> cases d <;> simp_all [Color.flip]

theorem moverOf_piece_on {p : Position} {m : Nat} {mover : PieceType}
    (h : moverOf p m = some mover) :
    p.piece_on (Move.fromSq m) = some (p.side_to_move, mover) := by
  unfold moverOf at h
  cases hpo : p.piece_on (Move.fromSq m) with
  | none =>
    rw [hpo] at h
    exact Option.noConfusion h
  | some cp =>
    rw [hpo] at h
    obtain ⟨c0, pt0⟩ := cp
    dsimp only at h
    by_cases hcc : c0 = p.side_to_move
    · rw [if_pos hcc] at h
      cases h
      rw [hcc]
    · rw [if_neg hcc] at h
      exact Option.noConfusion h

/-- `piece_on` ignores the stored hash. -/
theorem piece_on_set_hash (p : Position) (hh sq : Nat) :
    Position.piece_on { p with hash := hh } sq = p.piece_on sq := rfl

theorem Position.ext_fields {p q : Position}
    (h1 : p.white = q.white) (h2 : p.black = q.black)
    (h3 : p.occupied_white = q.occupied_white)
    (h4 : p.occupied_black = q.occupied_black)
    (h5 : p.occupied_all = q.occupied_all)
    (h6 : p.side_to_move = q.side_to_move) (h7 : p.castling = q.castling)
    (h8 : p.en_passant = q.en_passant)
    (h9 : p.halfmove_clock = q.halfmove_clock)
    (h10 : p.fullmove_number = q.fullmove_number) (h11 : p.hash = q.hash) :
    p = q := by
  cases p
  cases q
  simp_all

-- Occupancy facts derived from the state invariants -------------------------

theorem testBit_true_lt {x i : Nat} (hx : x < U64) (h : x.testBit i = true) :
    i < 64 := by
  by_contra hge
  rw [testBit_ge_64 hx (Nat.le_of_not_lt hge)] at h
  exact Bool.noConfusion h

theorem or_lt_U64 {x y : Nat} (hx : x < U64) (hy : y < U64) : x ||| y < U64 := by
  rw [U64_eq] at hx hy ⊢
  exact Nat.or_lt_two_pow hx hy

theorem pieces_lt {p : Position} (hc : Consistent p) (c : Color)
    (pt : PieceType) : p.pieces c pt < U64 :=
  hc.2.2.2.2.1 c pt

theorem occ_lt {p : Position} (hc : Consistent p) (c : Color) :
    p.occupied_by c < U64 := by
  cases c
  · show p.occupied_white < U64
    rw [hc.1]
    exact or_lt_U64 (or_lt_U64 (or_lt_U64 (or_lt_U64 (or_lt_U64
      (pieces_lt hc .White .Pawn) (pieces_lt hc .White .Knight))
      (pieces_lt hc .White .Bishop)) (pieces_lt hc .White .Rook))
      (pieces_lt hc .White .Queen)) (pieces_lt hc .White .King)
  · show p.occupied_black < U64
    rw [hc.2.1]
    exact or_lt_U64 (or_lt_U64 (or_lt_U64 (or_lt_U64 (or_lt_U64
      (pieces_lt hc .Black .Pawn) (pieces_lt hc .Black .Knight))
      (pieces_lt hc .Black .Bishop)) (pieces_lt hc .Black .Rook))
      (pieces_lt hc .Black .Queen)) (pieces_lt hc .Black .King)

theorem occ_all_lt {p : Position} (hc : Consistent p) : p.occupied_all < U64 := by
  rw [hc.2.2.1]
  exact or_lt_U64 (occ_lt hc .White) (occ_lt hc .Black)

theorem occ_bit_false_pieces {p : Position} (hc : Consistent p) {c : Color}
    {i : Nat} (h : (p.occupied_by c).testBit i = false) (pt : PieceType) :
    (p.pieces c pt).testBit i = false := by
  rw [occ_testBit hc] at h
  simp only [Bool.or_eq_false_iff] at h
  obtain ⟨⟨⟨⟨⟨h1, h2⟩, h3⟩, h4⟩, h5⟩, h6⟩ := h
  cases pt <;> assumption

theorem pieces_bit_false_occ {p : Position} (hc : Consistent p) {c : Color}
    {i : Nat} (h : ∀ pt, (p.pieces c pt).testBit i = false) :
    (p.occupied_by c).testBit i = false := by
  rw [occ_testBit hc, h .Pawn, h .Knight, h .Bishop, h .Rook, h .Queen, h .King]
  rfl

theorem occ_le_all {p : Position} (hc : Consistent p) {c : Color} {i : Nat}
    (h : (p.occupied_by c).testBit i = true) : p.occupied_all.testBit i = true := by
  rw [hc.2.2.1, Nat.testBit_or]
  cases c
  · rw [show p.occupied_by Color.White = p.occupied_white from rfl] at h
    rw [h]
    rfl
  · rw [show p.occupied_by Color.Black = p.occupied_black from rfl] at h
    rw [h]
    simp

theorem occ_all_bit_false {p : Position} (hc : Consistent p) {i : Nat}
    (hW : p.occupied_white.testBit i = false)
    (hB : p.occupied_black.testBit i = false) :
    p.occupied_all.testBit i = false := by
  rw [hc.2.2.1, Nat.testBit_or, hW, hB]
  rfl

theorem occ_all_bit_parts {p : Position} (hc : Consistent p) {i : Nat}
    (h : p.occupied_all.testBit i = false) :
    p.occupied_white.testBit i = false ∧ p.occupied_black.testBit i = false := by
  rw [hc.2.2.1, Nat.testBit_or, Bool.or_eq_false_iff] at h
  exact h

-- Piece-set make/unmake cycles ---------------------------------------------

/-- The moving side's piece set after remove-mover-at-from, add-placed-at-to,
then the unmake's remove-placed-at-to, add-mover-at-from, is unchanged.
Covers promotions (`placed ≠ mover`) and ordinary moves (`placed = mover`). -/
theorem ps_move_cycle {s s1 s2 s3 s4 : PieceSet} {mover placed : PieceType}
    {f t : Nat}
    (hlt : ∀ pt, s.get pt < U64) (hf : f < 64) (ht : t < 64) (hft : f ≠ t)
    (hbf : (s.get mover).testBit f = true)
    (hbt : ∀ pt, (s.get pt).testBit t = false)
    (h1 : s1 = s.setPT mover (s.get mover &&& bbNot (sqBB f)))
    (h2 : s2 = s1.setPT placed (s1.get placed ||| sqBB t))
    (h3 : s3 = s2.setPT placed (s2.get placed &&& bbNot (sqBB t)))
    (h4 : s4 = s3.setPT mover (s3.get mover ||| sqBB f)) :
    s4 = s := by
  subst h1 h2 h3 h4
  apply PieceSet.ext_get
  intro pt
  by_cases hmp : placed = mover
  · subst hmp
    by_cases hp : pt = placed
    · subst hp
      simp only [PieceSet.get_setPT_same]
      exact move_then_back (hlt _) hf ht hft hbf (hbt _)
    · simp only [PieceSet.get_setPT_other _ _ (Ne.symm hp)]
  · by_cases hp : pt = placed
    · subst hp
      simp only [PieceSet.get_setPT_other _ _ (fun hh => hmp hh.symm),
        PieceSet.get_setPT_same]
      exact set_then_clear (hlt _) ht (hbt _)
    · by_cases hm : pt = mover
      · subst hm
        simp only [PieceSet.get_setPT_other _ _ hmp, PieceSet.get_setPT_same]
        exact clear_then_set (hlt _) hf hbf
      · simp only [PieceSet.get_setPT_other _ _ (Ne.symm hm),
          PieceSet.get_setPT_other _ _ (Ne.symm hp)]

/-- The captured side's piece set after remove-at-square then the unmake's
add-back-at-square is unchanged. -/
theorem ps_putback_cycle {s s1 s2 : PieceSet} {cp : PieceType} {t : Nat}
    (hlt : ∀ pt, s.get pt < U64) (ht : t < 64)
    (hbt : (s.get cp).testBit t = true)
    (h1 : s1 = s.setPT cp (s.get cp &&& bbNot (sqBB t)))
    (h2 : s2 = s1.setPT cp (s1.get cp ||| sqBB t)) :
    s2 = s := by
  subst h1 h2
  apply PieceSet.ext_get
  intro pt
  by_cases hp : pt = cp
  · subst hp
    simp only [PieceSet.get_setPT_same]
    exact clear_then_set (hlt _) ht hbt
  · simp only [PieceSet.get_setPT_other _ _ (Ne.symm hp)]

/-- The castling side's piece set after rook `rf → rt`, king-mover `f → t`,
then the unmake's mover `t → f` and rook `rt → rf`, is unchanged. -/
theorem ps_castle_cycle {s s1 s2 s3 s4 s5 s6 s7 s8 : PieceSet}
    {mover : PieceType} {f t rf rt : Nat}
    (hlt : ∀ pt, s.get pt < U64) (hf : f < 64) (ht : t < 64) (hrf : rf < 64)
    (hrt : rt < 64)
    (d1 : f ≠ t) (d2 : f ≠ rf) (d3 : f ≠ rt) (d4 : t ≠ rf) (d5 : t ≠ rt)
    (d6 : rf ≠ rt)
    (hbf : (s.get mover).testBit f = true)
    (hbrf : (s.get PieceType.Rook).testBit rf = true)
    (hbt : ∀ pt, (s.get pt).testBit t = false)
    (hbrt : ∀ pt, (s.get pt).testBit rt = false)
    (h1 : s1 = s.setPT PieceType.Rook (s.get PieceType.Rook &&& bbNot (sqBB rf)))
    (h2 : s2 = s1.setPT PieceType.Rook (s1.get PieceType.Rook ||| sqBB rt))
    (h3 : s3 = s2.setPT mover (s2.get mover &&& bbNot (sqBB f)))
    (h4 : s4 = s3.setPT mover (s3.get mover ||| sqBB t))
    (h5 : s5 = s4.setPT mover (s4.get mover &&& bbNot (sqBB t)))
    (h6 : s6 = s5.setPT mover (s5.get mover ||| sqBB f))
    (h7 : s7 = s6.setPT PieceType.Rook (s6.get PieceType.Rook &&& bbNot (sqBB rt)))
    (h8 : s8 = s7.setPT PieceType.Rook (s7.get PieceType.Rook ||| sqBB rf)) :
    s8 = s := by
  subst h1 h2 h3 h4 h5 h6 h7 h8
  apply PieceSet.ext_get
  intro pt
  by_cases hmr : mover = PieceType.Rook
  · subst hmr
    by_cases hp : pt = PieceType.Rook
    · subst hp
      simp only [PieceSet.get_setPT_same]
      exact castle_cycle (hlt _) hf ht hrf hrt d1 d2 d3 d4 d5 d6 hbf hbrf
        (hbt _) (hbrt _)
    · simp only [PieceSet.get_setPT_other _ _ (Ne.symm hp)]
  · by_cases hp : pt = mover
    · subst hp
      simp only [PieceSet.get_setPT_same,
        PieceSet.get_setPT_other _ _ (fun hh => hmr hh.symm)]
      exact move_then_back (hlt _) hf ht d1 hbf (hbt _)
    · by_cases hr : pt = PieceType.Rook
      · subst hr
        simp only [PieceSet.get_setPT_same,
          PieceSet.get_setPT_other _ _ hmr]
        exact move_then_back (hlt _) hrf hrt d6 hbrf (hbrt _)
      · simp only [PieceSet.get_setPT_other _ _ (Ne.symm hp),
          PieceSet.get_setPT_other _ _ (Ne.symm hr)]


-- make/unmake inverse infrastructure ---------------------------------------

theorem color_WB : (Color.White = Color.Black) = False := by simp

theorem color_BW : (Color.Black = Color.White) = False := by simp

theorem testBit_or_sqBB_self {x t : Nat} (ht : t < 64) :
    (x ||| sqBB t).testBit t = true := by
  rw [testBit_set ht]
  simp

theorem land_or_sqBB_ne {x t : Nat} (ht : t < 64) :
    (x ||| sqBB t) &&& sqBB t ≠ 0 :=
  (land_sqBB_ne_zero ht).mpr (testBit_or_sqBB_self ht)

/-- `piece_on` reads only the board fields. -/
theorem piece_on_boards (p : Position) (s : Color) (cr : Nat) (ep : Option Nat)
    (hm fm hh : Nat) (sq : Nat) :
    Position.piece_on ⟨p.white, p.black, p.occupied_white, p.occupied_black,
      p.occupied_all, s, cr, ep, hm, fm, hh⟩ sq = p.piece_on sq := rfl

/-- make followed by unmake is the identity: ordinary (non-EP, non-castling)
moves of White, including promotions and captures. -/
theorem unmake_make_normal_white {p : Position} (hc : Consistent p) {m : Nat}
    {mover : PieceType}
    (hus : p.side_to_move = Color.White)
    (hEPf : Move.isEnPassant m = false) (hCSf : Move.isCastling m = false)
    (hft : Move.fromSq m ≠ Move.toSq m)
    (hpoF : p.piece_on (Move.fromSq m) = some (Color.White, mover))
    (hW_t : ∀ pt, (p.white.get pt).testBit (Move.toSq m) = false)
    (hprom : Move.isPromotion m = true → mover = PieceType.Pawn) :
    ∃ q u, p.makeMoveAux m = Sum.inr (q, u) ∧ q.unmake_move m u = p := by
  have hf64 := Move.fromSq_lt m
  have ht64 := Move.toSq_lt m
  have hWlt : ∀ pt, p.white.get pt < U64 := fun pt => pieces_lt hc .White pt
  have hBlt : ∀ pt, p.black.get pt < U64 := fun pt => pieces_lt hc .Black pt
  have hOWlt : p.occupied_white < U64 := occ_lt hc .White
  have hOBlt : p.occupied_black < U64 := occ_lt hc .Black
  have hOAlt : p.occupied_all < U64 := occ_all_lt hc
  have hbf : (p.white.get mover).testBit (Move.fromSq m) = true :=
    piece_on_some_testBit hf64 hpoF
  have hOW_f : p.occupied_white.testBit (Move.fromSq m) = true :=
    pieces_le_occ hc .White mover hbf
  have hOW_t : p.occupied_white.testBit (Move.toSq m) = false :=
    pieces_bit_false_occ hc (fun pt =>
      show (p.pieces Color.White pt).testBit (Move.toSq m) = false from hW_t pt)
  have hOA_f : p.occupied_all.testBit (Move.fromSq m) = true :=
    occ_le_all hc
      (show (p.occupied_by Color.White).testBit (Move.fromSq m) = true from hOW_f)
  cases hcapo : p.piece_on (Move.toSq m) with
  | some cap =>
    obtain ⟨c0, capP⟩ := cap
    have hc0 : c0 = Color.Black := by
      by_contra hcb
      have hcw : c0 = Color.White := by cases c0 <;> simp_all
      subst hcw
      have hbad : (p.white.get capP).testBit (Move.toSq m) = true :=
        piece_on_some_testBit ht64 hcapo
      exact Bool.noConfusion ((hW_t capP).symm.trans hbad)
    subst hc0
    have hBcap_t : (p.black.get capP).testBit (Move.toSq m) = true :=
      piece_on_some_testBit ht64 hcapo
    have hOB_t : p.occupied_black.testBit (Move.toSq m) = true :=
      pieces_le_occ hc .Black capP hBcap_t
    have hOA_t : p.occupied_all.testBit (Move.toSq m) = true :=
      occ_le_all hc
        (show (p.occupied_by Color.Black).testBit (Move.toSq m) = true from hOB_t)
    cases hP : Move.isPromotion m with
    | true =>
      have hmovP := hprom hP
      subst hmovP
      obtain ⟨pr, hpr⟩ : ∃ pr, Move.promotionPiece m = some pr := by
        rw [Move.promotionPiece, if_pos hP]
        exact ⟨_, rfl⟩
      simp only [Position.makeMoveAux, hus, Color.flip, hpoF, piece_on_boards,
        hcapo, Position.makeMoveTail, hEPf, hCSf, Position.makeMoveFinish, hpr,
        Position.remove_piece, Position.add_piece, Position.setColorPieces,
        Position.setOccupied, Position.pieces, Position.colorPieces,
        Position.occupied_by, Position.update_castling_rights,
        eq_self_iff_true, if_true, if_false, Bool.false_eq_true,
        color_WB, color_BW]
      refine ⟨_, _, rfl, ?_⟩
      simp only [Position.unmake_move, Color.flip, hpr, hEPf, hCSf, hP,
        Position.remove_piece, Position.add_piece, Position.setColorPieces,
        Position.setOccupied, Position.pieces, Position.colorPieces,
        Position.occupied_by, eq_self_iff_true, if_true, if_false,
        Bool.false_eq_true, color_WB, color_BW]
      exact Position.ext_fields
        (ps_move_cycle hWlt hf64 ht64 hft hbf hW_t rfl rfl rfl rfl)
        (ps_putback_cycle hBlt ht64 hBcap_t rfl rfl)
        (move_then_back hOWlt hf64 ht64 hft hOW_f hOW_t)
        (clear_then_set hOBlt ht64 hOB_t)
        (capture_cycle hOAlt hf64 ht64 hft hOA_f hOA_t)
        hus.symm rfl rfl rfl rfl rfl
    | false =>
      have hpr : Move.promotionPiece m = none := Move.promotionPiece_eq_none hP
      simp only [Position.makeMoveAux, hus, Color.flip, hpoF, piece_on_boards,
        hcapo, Position.makeMoveTail, hEPf, hCSf, Position.makeMoveFinish, hpr,
        Position.remove_piece, Position.add_piece, Position.setColorPieces,
        Position.setOccupied, Position.pieces, Position.colorPieces,
        Position.occupied_by, Position.update_castling_rights,
        eq_self_iff_true, if_true, if_false, Bool.false_eq_true,
        color_WB, color_BW]
      refine ⟨_, _, rfl, ?_⟩
      have hftW : ((p.white.setPT mover
            (p.white.get mover &&& bbNot (sqBB (Move.fromSq m)))).setPT mover
            ((p.white.setPT mover
              (p.white.get mover &&& bbNot (sqBB (Move.fromSq m)))).get mover |||
              sqBB (Move.toSq m))).findType (sqBB (Move.toSq m)) = some mover := by
        apply findType_unique
        · rw [PieceSet.get_setPT_same]
          exact land_or_sqBB_ne ht64
        · intro pt1 hne
          rw [PieceSet.get_setPT_other _ _ (Ne.symm hne),
            PieceSet.get_setPT_other _ _ (Ne.symm hne)]
          exact (land_sqBB_eq_zero ht64).mpr (hW_t pt1)
      have hgW2 : (p.occupied_white &&& bbNot (sqBB (Move.fromSq m)) |||
          sqBB (Move.toSq m)) &&& sqBB (Move.toSq m) ≠ 0 :=
        land_or_sqBB_ne ht64
      simp only [Position.unmake_move, Color.flip, hpr, hEPf, hCSf, hP,
        Position.piece_on, eq_self_iff_true, if_true, if_false,
        Bool.false_eq_true, color_WB, color_BW]
      rw [if_pos hgW2, hftW]
      simp only [Option.map, Position.remove_piece, Position.add_piece,
        Position.setColorPieces, Position.setOccupied, Position.pieces,
        Position.colorPieces, Position.occupied_by, eq_self_iff_true, if_true,
        if_false, Bool.false_eq_true, color_WB, color_BW]
      exact Position.ext_fields
        (ps_move_cycle hWlt hf64 ht64 hft hbf hW_t rfl rfl rfl rfl)
        (ps_putback_cycle hBlt ht64 hBcap_t rfl rfl)
        (move_then_back hOWlt hf64 ht64 hft hOW_f hOW_t)
        (clear_then_set hOBlt ht64 hOB_t)
        (capture_cycle hOAlt hf64 ht64 hft hOA_f hOA_t)
        hus.symm rfl rfl rfl rfl rfl
  | none =>
    have hB_t : ∀ pt, (p.black.get pt).testBit (Move.toSq m) = false :=
      fun pt => piece_on_none_testBit hc ht64 hcapo Color.Black pt
    have hOB_t : p.occupied_black.testBit (Move.toSq m) = false :=
      pieces_bit_false_occ hc (fun pt =>
        show (p.pieces Color.Black pt).testBit (Move.toSq m) = false from hB_t pt)
    have hOA_t : p.occupied_all.testBit (Move.toSq m) = false :=
      occ_all_bit_false hc hOW_t hOB_t
    cases hP : Move.isPromotion m with
    | true =>
      have hmovP := hprom hP
      subst hmovP
      obtain ⟨pr, hpr⟩ : ∃ pr, Move.promotionPiece m = some pr := by
        rw [Move.promotionPiece, if_pos hP]
        exact ⟨_, rfl⟩
      simp only [Position.makeMoveAux, hus, Color.flip, hpoF, piece_on_boards,
        hcapo, Position.makeMoveTail, hEPf, hCSf, Position.makeMoveFinish, hpr,
        Position.remove_piece, Position.add_piece, Position.setColorPieces,
        Position.setOccupied, Position.pieces, Position.colorPieces,
        Position.occupied_by, Position.update_castling_rights,
        eq_self_iff_true, if_true, if_false, Bool.false_eq_true,
        color_WB, color_BW]
      refine ⟨_, _, rfl, ?_⟩
      simp only [Position.unmake_move, Color.flip, hpr, hEPf, hCSf, hP,
        Position.remove_piece, Position.add_piece, Position.setColorPieces,
        Position.setOccupied, Position.pieces, Position.colorPieces,
        Position.occupied_by, eq_self_iff_true, if_true, if_false,
        Bool.false_eq_true, color_WB, color_BW]
      exact Position.ext_fields
        (ps_move_cycle hWlt hf64 ht64 hft hbf hW_t rfl rfl rfl rfl)
        rfl
        (move_then_back hOWlt hf64 ht64 hft hOW_f hOW_t)
        rfl
        (move_then_back hOAlt hf64 ht64 hft hOA_f hOA_t)
        hus.symm rfl rfl rfl rfl rfl
    | false =>
      have hpr : Move.promotionPiece m = none := Move.promotionPiece_eq_none hP
      simp only [Position.makeMoveAux, hus, Color.flip, hpoF, piece_on_boards,
        hcapo, Position.makeMoveTail, hEPf, hCSf, Position.makeMoveFinish, hpr,
        Position.remove_piece, Position.add_piece, Position.setColorPieces,
        Position.setOccupied, Position.pieces, Position.colorPieces,
        Position.occupied_by, Position.update_castling_rights,
        eq_self_iff_true, if_true, if_false, Bool.false_eq_true,
        color_WB, color_BW]
      refine ⟨_, _, rfl, ?_⟩
      have hftW : ((p.white.setPT mover
            (p.white.get mover &&& bbNot (sqBB (Move.fromSq m)))).setPT mover
            ((p.white.setPT mover
              (p.white.get mover &&& bbNot (sqBB (Move.fromSq m)))).get mover |||
              sqBB (Move.toSq m))).findType (sqBB (Move.toSq m)) = some mover := by
        apply findType_unique
        · rw [PieceSet.get_setPT_same]
          exact land_or_sqBB_ne ht64
        · intro pt1 hne
          rw [PieceSet.get_setPT_other _ _ (Ne.symm hne),
            PieceSet.get_setPT_other _ _ (Ne.symm hne)]
          exact (land_sqBB_eq_zero ht64).mpr (hW_t pt1)
      have hgW2 : (p.occupied_white &&& bbNot (sqBB (Move.fromSq m)) |||
          sqBB (Move.toSq m)) &&& sqBB (Move.toSq m) ≠ 0 :=
        land_or_sqBB_ne ht64
      simp only [Position.unmake_move, Color.flip, hpr, hEPf, hCSf, hP,
        Position.piece_on, eq_self_iff_true, if_true, if_false,
        Bool.false_eq_true, color_WB, color_BW]
      rw [if_pos hgW2, hftW]
      simp only [Option.map, Position.remove_piece, Position.add_piece,
        Position.setColorPieces, Position.setOccupied, Position.pieces,
        Position.colorPieces, Position.occupied_by, eq_self_iff_true, if_true,
        if_false, Bool.false_eq_true, color_WB, color_BW]
      exact Position.ext_fields
        (ps_move_cycle hWlt hf64 ht64 hft hbf hW_t rfl rfl rfl rfl)
        rfl
        (move_then_back hOWlt hf64 ht64 hft hOW_f hOW_t)
        rfl
        (move_then_back hOAlt hf64 ht64 hft hOA_f hOA_t)
        hus.symm rfl rfl rfl rfl rfl

theorem land_clear_sqBB_self {x t : Nat} (hx : x < U64) (ht : t < 64) :
    (x &&& bbNot (sqBB t)) &&& sqBB t = 0 :=
  (land_sqBB_eq_zero ht).mpr (by rw [testBit_clear hx ht]; simp)

theorem sqBB_eq_zero_of_ge {s : Nat} (h : 64 ≤ s) : sqBB s = 0 := by
  have hd : (2 : Nat) ^ 64 ∣ 2 ^ s := pow_dvd_pow 2 h
  show (1 <<< s) % U64 = 0
  rw [Nat.shiftLeft_eq, one_mul, U64_eq]
  obtain ⟨k, hk⟩ := hd
  rw [hk, Nat.mul_mod_right]

theorem piece_on_ge64 {p : Position} {sq : Nat} (h : 64 ≤ sq) :
    p.piece_on sq = none := by
  simp [Position.piece_on, sqBB_eq_zero_of_ge h]

/-- make followed by unmake is the identity: ordinary (non-EP, non-castling)
moves of Black, including promotions and captures. -/
theorem unmake_make_normal_black {p : Position} (hc : Consistent p) {m : Nat}
    {mover : PieceType}
    (hus : p.side_to_move = Color.Black)
    (hEPf : Move.isEnPassant m = false) (hCSf : Move.isCastling m = false)
    (hft : Move.fromSq m ≠ Move.toSq m)
    (hpoF : p.piece_on (Move.fromSq m) = some (Color.Black, mover))
    (hB_t : ∀ pt, (p.black.get pt).testBit (Move.toSq m) = false)
    (hprom : Move.isPromotion m = true → mover = PieceType.Pawn) :
    ∃ q u, p.makeMoveAux m = Sum.inr (q, u) ∧ q.unmake_move m u = p := by
  have hf64 := Move.fromSq_lt m
  have ht64 := Move.toSq_lt m
  have hWlt : ∀ pt, p.white.get pt < U64 := fun pt => pieces_lt hc .White pt
  have hBlt : ∀ pt, p.black.get pt < U64 := fun pt => pieces_lt hc .Black pt
  have hOWlt : p.occupied_white < U64 := occ_lt hc .White
  have hOBlt : p.occupied_black < U64 := occ_lt hc .Black
  have hOAlt : p.occupied_all < U64 := occ_all_lt hc
  have hbf : (p.black.get mover).testBit (Move.fromSq m) = true :=
    piece_on_some_testBit hf64 hpoF
  have hOB_f : p.occupied_black.testBit (Move.fromSq m) = true :=
    pieces_le_occ hc .Black mover hbf
  have hOB_t : p.occupied_black.testBit (Move.toSq m) = false :=
    pieces_bit_false_occ hc (fun pt =>
      show (p.pieces Color.Black pt).testBit (Move.toSq m) = false from hB_t pt)
  have hOA_f : p.occupied_all.testBit (Move.fromSq m) = true :=
    occ_le_all hc
      (show (p.occupied_by Color.Black).testBit (Move.fromSq m) = true from hOB_f)
  cases hcapo : p.piece_on (Move.toSq m) with
  | some cap =>
    obtain ⟨c0, capP⟩ := cap
    have hc0 : c0 = Color.White := by
      by_contra hcb
      have hcw : c0 = Color.Black := by cases c0 <;> simp_all
      subst hcw
      have hbad : (p.black.get capP).testBit (Move.toSq m) = true :=
        piece_on_some_testBit ht64 hcapo
      exact Bool.noConfusion ((hB_t capP).symm.trans hbad)
    subst hc0
    have hWcap_t : (p.white.get capP).testBit (Move.toSq m) = true :=
      piece_on_some_testBit ht64 hcapo
    have hOW_t : p.occupied_white.testBit (Move.toSq m) = true :=
      pieces_le_occ hc .White capP hWcap_t
    have hOA_t : p.occupied_all.testBit (Move.toSq m) = true :=
      occ_le_all hc
        (show (p.occupied_by Color.White).testBit (Move.toSq m) = true from hOW_t)
    have hgW0 : (p.occupied_white &&& bbNot (sqBB (Move.toSq m))) &&&
        sqBB (Move.toSq m) = 0 := land_clear_sqBB_self hOWlt ht64
    have hgB2 : (p.occupied_black &&& bbNot (sqBB (Move.fromSq m)) |||
        sqBB (Move.toSq m)) &&& sqBB (Move.toSq m) ≠ 0 :=
      land_or_sqBB_ne ht64
    cases hP : Move.isPromotion m with
    | true =>
      have hmovP := hprom hP
      subst hmovP
      obtain ⟨pr, hpr⟩ : ∃ pr, Move.promotionPiece m = some pr := by
        rw [Move.promotionPiece, if_pos hP]
        exact ⟨_, rfl⟩
      simp only [Position.makeMoveAux, hus, Color.flip, hpoF, piece_on_boards,
        hcapo, Position.makeMoveTail, hEPf, hCSf, Position.makeMoveFinish, hpr,
        Position.remove_piece, Position.add_piece, Position.setColorPieces,
        Position.setOccupied, Position.pieces, Position.colorPieces,
        Position.occupied_by, Position.update_castling_rights,
        eq_self_iff_true, if_true, if_false, Bool.false_eq_true,
        color_WB, color_BW]
      refine ⟨_, _, rfl, ?_⟩
      simp only [Position.unmake_move, Color.flip, hpr, hEPf, hCSf, hP,
        Position.remove_piece, Position.add_piece, Position.setColorPieces,
        Position.setOccupied, Position.pieces, Position.colorPieces,
        Position.occupied_by, eq_self_iff_true, if_true, if_false,
        Bool.false_eq_true, color_WB, color_BW]
      exact Position.ext_fields
        (ps_putback_cycle hWlt ht64 hWcap_t rfl rfl)
        (ps_move_cycle hBlt hf64 ht64 hft hbf hB_t rfl rfl rfl rfl)
        (clear_then_set hOWlt ht64 hOW_t)
        (move_then_back hOBlt hf64 ht64 hft hOB_f hOB_t)
        (capture_cycle hOAlt hf64 ht64 hft hOA_f hOA_t)
        hus.symm rfl rfl rfl rfl rfl
    | false =>
      have hpr : Move.promotionPiece m = none := Move.promotionPiece_eq_none hP
      simp only [Position.makeMoveAux, hus, Color.flip, hpoF, piece_on_boards,
        hcapo, Position.makeMoveTail, hEPf, hCSf, Position.makeMoveFinish, hpr,
        Position.remove_piece, Position.add_piece, Position.setColorPieces,
        Position.setOccupied, Position.pieces, Position.colorPieces,
        Position.occupied_by, Position.update_castling_rights,
        eq_self_iff_true, if_true, if_false, Bool.false_eq_true,
        color_WB, color_BW]
      refine ⟨_, _, rfl, ?_⟩
      have hftB : ((p.black.setPT mover
            (p.black.get mover &&& bbNot (sqBB (Move.fromSq m)))).setPT mover
            ((p.black.setPT mover
              (p.black.get mover &&& bbNot (sqBB (Move.fromSq m)))).get mover |||
              sqBB (Move.toSq m))).findType (sqBB (Move.toSq m)) = some mover := by
        apply findType_unique
        · rw [PieceSet.get_setPT_same]
          exact land_or_sqBB_ne ht64
        · intro pt1 hne
          rw [PieceSet.get_setPT_other _ _ (Ne.symm hne),
            PieceSet.get_setPT_other _ _ (Ne.symm hne)]
          exact (land_sqBB_eq_zero ht64).mpr (hB_t pt1)
      simp only [Position.unmake_move, Color.flip, hpr, hEPf, hCSf, hP,
        Position.piece_on, eq_self_iff_true, if_true, if_false,
        Bool.false_eq_true, color_WB, color_BW]
      rw [if_neg (fun hn => hn hgW0), if_pos hgB2, hftB]
      simp only [Option.map, Position.remove_piece, Position.add_piece,
        Position.setColorPieces, Position.setOccupied, Position.pieces,
        Position.colorPieces, Position.occupied_by, eq_self_iff_true, if_true,
        if_false, Bool.false_eq_true, color_WB, color_BW]
      exact Position.ext_fields
        (ps_putback_cycle hWlt ht64 hWcap_t rfl rfl)
        (ps_move_cycle hBlt hf64 ht64 hft hbf hB_t rfl rfl rfl rfl)
        (clear_then_set hOWlt ht64 hOW_t)
        (move_then_back hOBlt hf64 ht64 hft hOB_f hOB_t)
        (capture_cycle hOAlt hf64 ht64 hft hOA_f hOA_t)
        hus.symm rfl rfl rfl rfl rfl
  | none =>
    have hW_t : ∀ pt, (p.white.get pt).testBit (Move.toSq m) = false :=
      fun pt => piece_on_none_testBit hc ht64 hcapo Color.White pt
    have hOW_t : p.occupied_white.testBit (Move.toSq m) = false :=
      pieces_bit_false_occ hc (fun pt =>
        show (p.pieces Color.White pt).testBit (Move.toSq m) = false from hW_t pt)
    have hOA_t : p.occupied_all.testBit (Move.toSq m) = false :=
      occ_all_bit_false hc hOW_t hOB_t
    have hgW0 : p.occupied_white &&& sqBB (Move.toSq m) = 0 :=
      (land_sqBB_eq_zero ht64).mpr hOW_t
    have hgB2 : (p.occupied_black &&& bbNot (sqBB (Move.fromSq m)) |||
        sqBB (Move.toSq m)) &&& sqBB (Move.toSq m) ≠ 0 :=
      land_or_sqBB_ne ht64
    cases hP : Move.isPromotion m with
    | true =>
      have hmovP := hprom hP
      subst hmovP
      obtain ⟨pr, hpr⟩ : ∃ pr, Move.promotionPiece m = some pr := by
        rw [Move.promotionPiece, if_pos hP]
        exact ⟨_, rfl⟩
      simp only [Position.makeMoveAux, hus, Color.flip, hpoF, piece_on_boards,
        hcapo, Position.makeMoveTail, hEPf, hCSf, Position.makeMoveFinish, hpr,
        Position.remove_piece, Position.add_piece, Position.setColorPieces,
        Position.setOccupied, Position.pieces, Position.colorPieces,
        Position.occupied_by, Position.update_castling_rights,
        eq_self_iff_true, if_true, if_false, Bool.false_eq_true,
        color_WB, color_BW]
      refine ⟨_, _, rfl, ?_⟩
      simp only [Position.unmake_move, Color.flip, hpr, hEPf, hCSf, hP,
        Position.remove_piece, Position.add_piece, Position.setColorPieces,
        Position.setOccupied, Position.pieces, Position.colorPieces,
        Position.occupied_by, eq_self_iff_true, if_true, if_false,
        Bool.false_eq_true, color_WB, color_BW]
      exact Position.ext_fields
        rfl
        (ps_move_cycle hBlt hf64 ht64 hft hbf hB_t rfl rfl rfl rfl)
        rfl
        (move_then_back hOBlt hf64 ht64 hft hOB_f hOB_t)
        (move_then_back hOAlt hf64 ht64 hft hOA_f hOA_t)
        hus.symm rfl rfl rfl rfl rfl
    | false =>
      have hpr : Move.promotionPiece m = none := Move.promotionPiece_eq_none hP
      simp only [Position.makeMoveAux, hus, Color.flip, hpoF, piece_on_boards,
        hcapo, Position.makeMoveTail, hEPf, hCSf, Position.makeMoveFinish, hpr,
        Position.remove_piece, Position.add_piece, Position.setColorPieces,
        Position.setOccupied, Position.pieces, Position.colorPieces,
        Position.occupied_by, Position.update_castling_rights,
        eq_self_iff_true, if_true, if_false, Bool.false_eq_true,
        color_WB, color_BW]
      refine ⟨_, _, rfl, ?_⟩
      have hftB : ((p.black.setPT mover
            (p.black.get mover &&& bbNot (sqBB (Move.fromSq m)))).setPT mover
            ((p.black.setPT mover
              (p.black.get mover &&& bbNot (sqBB (Move.fromSq m)))).get mover |||
              sqBB (Move.toSq m))).findType (sqBB (Move.toSq m)) = some mover := by
        apply findType_unique
        · rw [PieceSet.get_setPT_same]
          exact land_or_sqBB_ne ht64
        · intro pt1 hne
          rw [PieceSet.get_setPT_other _ _ (Ne.symm hne),
            PieceSet.get_setPT_other _ _ (Ne.symm hne)]
          exact (land_sqBB_eq_zero ht64).mpr (hB_t pt1)
      simp only [Position.unmake_move, Color.flip, hpr, hEPf, hCSf, hP,
        Position.piece_on, eq_self_iff_true, if_true, if_false,
        Bool.false_eq_true, color_WB, color_BW]
      rw [if_neg (fun hn => hn hgW0), if_pos hgB2, hftB]
      simp only [Option.map, Position.remove_piece, Position.add_piece,
        Position.setColorPieces, Position.setOccupied, Position.pieces,
        Position.colorPieces, Position.occupied_by, eq_self_iff_true, if_true,
        if_false, Bool.false_eq_true, color_WB, color_BW]
      exact Position.ext_fields
        rfl
        (ps_move_cycle hBlt hf64 ht64 hft hbf hB_t rfl rfl rfl rfl)
        rfl
        (move_then_back hOBlt hf64 ht64 hft hOB_f hOB_t)
        (move_then_back hOAlt hf64 ht64 hft hOA_f hOA_t)
        hus.symm rfl rfl rfl rfl rfl

/-- make followed by unmake is the identity: en-passant captures by White. -/
theorem unmake_make_ep_white {p : Position} (hc : Consistent p) {m : Nat}
    (hus : p.side_to_move = Color.White)
    (hEP : Move.isEnPassant m = true)
    (hft : Move.fromSq m ≠ Move.toSq m)
    (hpoF : p.piece_on (Move.fromSq m) = some (Color.White, PieceType.Pawn))
    (hpoT : p.piece_on (Move.toSq m) = none)
    (hpoC : p.piece_on (epCapSq Color.White (Move.toSq m)) =
      some (Color.Black, PieceType.Pawn)) :
    ∃ q u, p.makeMoveAux m = Sum.inr (q, u) ∧ q.unmake_move m u = p := by
  have hf64 := Move.fromSq_lt m
  have ht64 := Move.toSq_lt m
  have hc64 : epCapSq Color.White (Move.toSq m) < 64 := by
    by_contra hge
    rw [piece_on_ge64 (Nat.le_of_not_lt hge)] at hpoC
    exact Option.noConfusion hpoC
  have hfl := Move.ep_flags hEP
  have hPf : Move.isPromotion m = false := Move.isPromotion_eq_false (by omega)
  have hCSf : Move.isCastling m = false := Move.isCastling_eq_false (by omega)
  have hpr : Move.promotionPiece m = none := Move.promotionPiece_eq_none hPf
  have hfc : Move.fromSq m ≠ epCapSq Color.White (Move.toSq m) := by
    intro he
    rw [he, hpoC] at hpoF
    simp at hpoF
  have htc : Move.toSq m ≠ epCapSq Color.White (Move.toSq m) := by
    intro he
    rw [he, hpoC] at hpoT
    exact Option.noConfusion hpoT
  have hWlt : ∀ pt, p.white.get pt < U64 := fun pt => pieces_lt hc .White pt
  have hBlt : ∀ pt, p.black.get pt < U64 := fun pt => pieces_lt hc .Black pt
  have hOWlt : p.occupied_white < U64 := occ_lt hc .White
  have hOBlt : p.occupied_black < U64 := occ_lt hc .Black
  have hOAlt : p.occupied_all < U64 := occ_all_lt hc
  have hbf : (p.white.get PieceType.Pawn).testBit (Move.fromSq m) = true :=
    piece_on_some_testBit hf64 hpoF
  have hOW_f : p.occupied_white.testBit (Move.fromSq m) = true :=
    pieces_le_occ hc .White PieceType.Pawn hbf
  have hW_t : ∀ pt, (p.white.get pt).testBit (Move.toSq m) = false :=
    fun pt => piece_on_none_testBit hc ht64 hpoT Color.White pt
  have hB_t : ∀ pt, (p.black.get pt).testBit (Move.toSq m) = false :=
    fun pt => piece_on_none_testBit hc ht64 hpoT Color.Black pt
  have hOW_t : p.occupied_white.testBit (Move.toSq m) = false :=
    pieces_bit_false_occ hc (fun pt =>
      show (p.pieces Color.White pt).testBit (Move.toSq m) = false from hW_t pt)
  have hOB_t : p.occupied_black.testBit (Move.toSq m) = false :=
    pieces_bit_false_occ hc (fun pt =>
      show (p.pieces Color.Black pt).testBit (Move.toSq m) = false from hB_t pt)
  have hOA_f : p.occupied_all.testBit (Move.fromSq m) = true :=
    occ_le_all hc
      (show (p.occupied_by Color.White).testBit (Move.fromSq m) = true from hOW_f)
  have hOA_t : p.occupied_all.testBit (Move.toSq m) = false :=
    occ_all_bit_false hc hOW_t hOB_t
  have hBp_c0 := piece_on_some_testBit hc64 hpoC
  have hBp_c : (p.black.get PieceType.Pawn).testBit
      (epCapSq Color.White (Move.toSq m)) = true := hBp_c0
  have hOB_c : p.occupied_black.testBit (epCapSq Color.White (Move.toSq m)) = true :=
    pieces_le_occ hc .Black PieceType.Pawn hBp_c
  have hOA_c : p.occupied_all.testBit (epCapSq Color.White (Move.toSq m)) = true :=
    occ_le_all hc
      (show (p.occupied_by Color.Black).testBit
        (epCapSq Color.White (Move.toSq m)) = true from hOB_c)
  simp only [Position.makeMoveAux, hus, Color.flip, hpoF, piece_on_boards,
    hpoT, Position.makeMoveTail, hEP, hCSf, Position.makeMoveFinish, hpr,
    Position.remove_piece, Position.add_piece, Position.setColorPieces,
    Position.setOccupied, Position.pieces, Position.colorPieces,
    Position.occupied_by, Position.update_castling_rights,
    eq_self_iff_true, if_true, if_false, Bool.false_eq_true,
    color_WB, color_BW]
  refine ⟨_, _, rfl, ?_⟩
  have hftW : ((p.white.setPT PieceType.Pawn
        (p.white.get PieceType.Pawn &&& bbNot (sqBB (Move.fromSq m)))).setPT
        PieceType.Pawn
        ((p.white.setPT PieceType.Pawn
          (p.white.get PieceType.Pawn &&& bbNot (sqBB (Move.fromSq m)))).get
          PieceType.Pawn |||
          sqBB (Move.toSq m))).findType (sqBB (Move.toSq m)) =
      some PieceType.Pawn := by
    apply findType_unique
    · rw [PieceSet.get_setPT_same]
      exact land_or_sqBB_ne ht64
    · intro pt1 hne
      rw [PieceSet.get_setPT_other _ _ (Ne.symm hne),
        PieceSet.get_setPT_other _ _ (Ne.symm hne)]
      exact (land_sqBB_eq_zero ht64).mpr (hW_t pt1)
  have hgW2 : (p.occupied_white &&& bbNot (sqBB (Move.fromSq m)) |||
      sqBB (Move.toSq m)) &&& sqBB (Move.toSq m) ≠ 0 :=
    land_or_sqBB_ne ht64
  simp only [Position.unmake_move, Color.flip, hpr, hEP, hCSf, hPf,
    Position.piece_on, eq_self_iff_true, if_true, if_false,
    Bool.false_eq_true, color_WB, color_BW]
  rw [if_pos hgW2, hftW]
  simp only [Option.map, Position.remove_piece, Position.add_piece,
    Position.setColorPieces, Position.setOccupied, Position.pieces,
    Position.colorPieces, Position.occupied_by, eq_self_iff_true, if_true,
    if_false, Bool.false_eq_true, color_WB, color_BW]
  exact Position.ext_fields
    (ps_move_cycle hWlt hf64 ht64 hft hbf hW_t rfl rfl rfl rfl)
    (ps_putback_cycle hBlt hc64 hBp_c rfl rfl)
    (move_then_back hOWlt hf64 ht64 hft hOW_f hOW_t)
    (clear_then_set hOBlt hc64 hOB_c)
    (ep_cycle hOAlt hf64 ht64 hc64 hft hfc htc hOA_f hOA_t hOA_c)
    hus.symm rfl rfl rfl rfl rfl

/-- make followed by unmake is the identity: en-passant captures by Black. -/
theorem unmake_make_ep_black {p : Position} (hc : Consistent p) {m : Nat}
    (hus : p.side_to_move = Color.Black)
    (hEP : Move.isEnPassant m = true)
    (hft : Move.fromSq m ≠ Move.toSq m)
    (hpoF : p.piece_on (Move.fromSq m) = some (Color.Black, PieceType.Pawn))
    (hpoT : p.piece_on (Move.toSq m) = none)
    (hpoC : p.piece_on (epCapSq Color.Black (Move.toSq m)) =
      some (Color.White, PieceType.Pawn)) :
    ∃ q u, p.makeMoveAux m = Sum.inr (q, u) ∧ q.unmake_move m u = p := by
  have hf64 := Move.fromSq_lt m
  have ht64 := Move.toSq_lt m
  have hc64 : epCapSq Color.Black (Move.toSq m) < 64 := by
    by_contra hge
    rw [piece_on_ge64 (Nat.le_of_not_lt hge)] at hpoC
    exact Option.noConfusion hpoC
  have hfl := Move.ep_flags hEP
  have hPf : Move.isPromotion m = false := Move.isPromotion_eq_false (by omega)
  have hCSf : Move.isCastling m = false := Move.isCastling_eq_false (by omega)
  have hpr : Move.promotionPiece m = none := Move.promotionPiece_eq_none hPf
  have hfc : Move.fromSq m ≠ epCapSq Color.Black (Move.toSq m) := by
    intro he
    rw [he, hpoC] at hpoF
    simp at hpoF
  have htc : Move.toSq m ≠ epCapSq Color.Black (Move.toSq m) := by
    intro he
    rw [he, hpoC] at hpoT
    exact Option.noConfusion hpoT
  have hWlt : ∀ pt, p.white.get pt < U64 := fun pt => pieces_lt hc .White pt
  have hBlt : ∀ pt, p.black.get pt < U64 := fun pt => pieces_lt hc .Black pt
  have hOWlt : p.occupied_white < U64 := occ_lt hc .White
  have hOBlt : p.occupied_black < U64 := occ_lt hc .Black
  have hOAlt : p.occupied_all < U64 := occ_all_lt hc
  have hbf : (p.black.get PieceType.Pawn).testBit (Move.fromSq m) = true :=
    piece_on_some_testBit hf64 hpoF
  have hOB_f : p.occupied_black.testBit (Move.fromSq m) = true :=
    pieces_le_occ hc .Black PieceType.Pawn hbf
  have hW_t : ∀ pt, (p.white.get pt).testBit (Move.toSq m) = false :=
    fun pt => piece_on_none_testBit hc ht64 hpoT Color.White pt
  have hB_t : ∀ pt, (p.black.get pt).testBit (Move.toSq m) = false :=
    fun pt => piece_on_none_testBit hc ht64 hpoT Color.Black pt
  have hOW_t : p.occupied_white.testBit (Move.toSq m) = false :=
    pieces_bit_false_occ hc (fun pt =>
      show (p.pieces Color.White pt).testBit (Move.toSq m) = false from hW_t pt)
  have hOB_t : p.occupied_black.testBit (Move.toSq m) = false :=
    pieces_bit_false_occ hc (fun pt =>
      show (p.pieces Color.Black pt).testBit (Move.toSq m) = false from hB_t pt)
  have hOA_f : p.occupied_all.testBit (Move.fromSq m) = true :=
    occ_le_all hc
      (show (p.occupied_by Color.Black).testBit (Move.fromSq m) = true from hOB_f)
  have hOA_t : p.occupied_all.testBit (Move.toSq m) = false :=
    occ_all_bit_false hc hOW_t hOB_t
  have hWp_c0 := piece_on_some_testBit hc64 hpoC
  have hWp_c : (p.white.get PieceType.Pawn).testBit
      (epCapSq Color.Black (Move.toSq m)) = true := hWp_c0
  have hOW_c : p.occupied_white.testBit (epCapSq Color.Black (Move.toSq m)) = true :=
    pieces_le_occ hc .White PieceType.Pawn hWp_c
  have hOA_c : p.occupied_all.testBit (epCapSq Color.Black (Move.toSq m)) = true :=
    occ_le_all hc
      (show (p.occupied_by Color.White).testBit
        (epCapSq Color.Black (Move.toSq m)) = true from hOW_c)
  have htcW : p.occupied_white.testBit (Move.toSq m) = false := hOW_t
  simp only [Position.makeMoveAux, hus, Color.flip, hpoF, piece_on_boards,
    hpoT, Position.makeMoveTail, hEP, hCSf, Position.makeMoveFinish, hpr,
    Position.remove_piece, Position.add_piece, Position.setColorPieces,
    Position.setOccupied, Position.pieces, Position.colorPieces,
    Position.occupied_by, Position.update_castling_rights,
    eq_self_iff_true, if_true, if_false, Bool.false_eq_true,
    color_WB, color_BW]
  refine ⟨_, _, rfl, ?_⟩
  have hftB : ((p.black.setPT PieceType.Pawn
        (p.black.get PieceType.Pawn &&& bbNot (sqBB (Move.fromSq m)))).setPT
        PieceType.Pawn
        ((p.black.setPT PieceType.Pawn
          (p.black.get PieceType.Pawn &&& bbNot (sqBB (Move.fromSq m)))).get
          PieceType.Pawn |||
          sqBB (Move.toSq m))).findType (sqBB (Move.toSq m)) =
      some PieceType.Pawn := by
    apply findType_unique
    · rw [PieceSet.get_setPT_same]
      exact land_or_sqBB_ne ht64
    · intro pt1 hne
      rw [PieceSet.get_setPT_other _ _ (Ne.symm hne),
        PieceSet.get_setPT_other _ _ (Ne.symm hne)]
      exact (land_sqBB_eq_zero ht64).mpr (hB_t pt1)
  have hgW0 : (p.occupied_white &&& bbNot (sqBB (epCapSq Color.Black (Move.toSq m)))) &&&
      sqBB (Move.toSq m) = 0 := by
    apply (land_sqBB_eq_zero ht64).mpr
    rw [testBit_clear hOWlt hc64]
    rw [hOW_t]
    rfl
  have hgB2 : (p.occupied_black &&& bbNot (sqBB (Move.fromSq m)) |||
      sqBB (Move.toSq m)) &&& sqBB (Move.toSq m) ≠ 0 :=
    land_or_sqBB_ne ht64
  simp only [Position.unmake_move, Color.flip, hpr, hEP, hCSf, hPf,
    Position.piece_on, eq_self_iff_true, if_true, if_false,
    Bool.false_eq_true, color_WB, color_BW]
  rw [if_neg (fun hn => hn hgW0), if_pos hgB2, hftB]
  simp only [Option.map, Position.remove_piece, Position.add_piece,
    Position.setColorPieces, Position.setOccupied, Position.pieces,
    Position.colorPieces, Position.occupied_by, eq_self_iff_true, if_true,
    if_false, Bool.false_eq_true, color_WB, color_BW]
  exact Position.ext_fields
    (ps_putback_cycle hWlt hc64 hWp_c rfl rfl)
    (ps_move_cycle hBlt hf64 ht64 hft hbf hB_t rfl rfl rfl rfl)
    (clear_then_set hOWlt hc64 hOW_c)
    (move_then_back hOBlt hf64 ht64 hft hOB_f hOB_t)
    (ep_cycle hOAlt hf64 ht64 hc64 hft hfc htc hOA_f hOA_t hOA_c)
    hus.symm rfl rfl rfl rfl rfl

/-- make followed by unmake is the identity: castling moves of White. -/
theorem unmake_make_castle_white {p : Position} (hc : Consistent p) {m : Nat}
    {mover : PieceType} {rf rt : Nat}
    (hus : p.side_to_move = Color.White)
    (hCS : Move.isCastling m = true)
    (hrk : castleRookSquares (Move.toSq m) = some (rf, rt))
    (hrf64 : rf < 64) (hrt64 : rt < 64)
    (d1 : Move.fromSq m ≠ Move.toSq m) (d2 : Move.fromSq m ≠ rf)
    (d3 : Move.fromSq m ≠ rt) (d4 : Move.toSq m ≠ rf) (d5 : Move.toSq m ≠ rt)
    (d6 : rf ≠ rt)
    (hpoF : p.piece_on (Move.fromSq m) = some (Color.White, mover))
    (hpoT : p.piece_on (Move.toSq m) = none)
    (hpoR : p.piece_on rf = some (Color.White, PieceType.Rook))
    (hrtE : p.occupied_all.testBit rt = false) :
    ∃ q u, p.makeMoveAux m = Sum.inr (q, u) ∧ q.unmake_move m u = p := by
  have hf64 := Move.fromSq_lt m
  have ht64 := Move.toSq_lt m
  have hfl := Move.castle_flags hCS
  have hPf : Move.isPromotion m = false := Move.isPromotion_eq_false (by omega)
  have hEPf : Move.isEnPassant m = false := Move.isEnPassant_eq_false (by omega)
  have hpr : Move.promotionPiece m = none := Move.promotionPiece_eq_none hPf
  have hWlt : ∀ pt, p.white.get pt < U64 := fun pt => pieces_lt hc .White pt
  have hBlt : ∀ pt, p.black.get pt < U64 := fun pt => pieces_lt hc .Black pt
  have hOWlt : p.occupied_white < U64 := occ_lt hc .White
  have hOBlt : p.occupied_black < U64 := occ_lt hc .Black
  have hOAlt : p.occupied_all < U64 := occ_all_lt hc
  have hbf : (p.white.get mover).testBit (Move.fromSq m) = true :=
    piece_on_some_testBit hf64 hpoF
  have hbrf0 := piece_on_some_testBit hrf64 hpoR
  have hbrf : (p.white.get PieceType.Rook).testBit rf = true := hbrf0
  have hOW_f : p.occupied_white.testBit (Move.fromSq m) = true :=
    pieces_le_occ hc .White mover hbf
  have hOW_rf : p.occupied_white.testBit rf = true :=
    pieces_le_occ hc .White PieceType.Rook hbrf
  have hW_t : ∀ pt, (p.white.get pt).testBit (Move.toSq m) = false :=
    fun pt => piece_on_none_testBit hc ht64 hpoT Color.White pt
  have hB_t : ∀ pt, (p.black.get pt).testBit (Move.toSq m) = false :=
    fun pt => piece_on_none_testBit hc ht64 hpoT Color.Black pt
  have hOW_t : p.occupied_white.testBit (Move.toSq m) = false :=
    pieces_bit_false_occ hc (fun pt =>
      show (p.pieces Color.White pt).testBit (Move.toSq m) = false from hW_t pt)
  have hOB_t : p.occupied_black.testBit (Move.toSq m) = false :=
    pieces_bit_false_occ hc (fun pt =>
      show (p.pieces Color.Black pt).testBit (Move.toSq m) = false from hB_t pt)
  have hOA_t : p.occupied_all.testBit (Move.toSq m) = false :=
    occ_all_bit_false hc hOW_t hOB_t
  have hOA_f : p.occupied_all.testBit (Move.fromSq m) = true :=
    occ_le_all hc
      (show (p.occupied_by Color.White).testBit (Move.fromSq m) = true from hOW_f)
  have hOA_rf : p.occupied_all.testBit rf = true :=
    occ_le_all hc
      (show (p.occupied_by Color.White).testBit rf = true from hOW_rf)
  have hOW_rt : p.occupied_white.testBit rt = false := (occ_all_bit_parts hc hrtE).1
  have hW_rt : ∀ pt, (p.white.get pt).testBit rt = false := fun pt =>
    occ_bit_false_pieces hc
      (show (p.occupied_by Color.White).testBit rt = false from hOW_rt) pt
  simp only [Position.makeMoveAux, hus, Color.flip, hpoF, piece_on_boards,
    hpoT, Position.makeMoveTail, hEPf, hCS, hrk, Position.move_piece,
    Position.makeMoveFinish, hpr,
    Position.remove_piece, Position.add_piece, Position.setColorPieces,
    Position.setOccupied, Position.pieces, Position.colorPieces,
    Position.occupied_by, Position.update_castling_rights,
    eq_self_iff_true, if_true, if_false, Bool.false_eq_true,
    color_WB, color_BW]
  refine ⟨_, _, rfl, ?_⟩
  have hftW : ((((p.white.setPT PieceType.Rook
        (p.white.get PieceType.Rook &&& bbNot (sqBB rf))).setPT PieceType.Rook
        ((p.white.setPT PieceType.Rook
          (p.white.get PieceType.Rook &&& bbNot (sqBB rf))).get PieceType.Rook |||
          sqBB rt)).setPT mover
        (((p.white.setPT PieceType.Rook
          (p.white.get PieceType.Rook &&& bbNot (sqBB rf))).setPT PieceType.Rook
          ((p.white.setPT PieceType.Rook
            (p.white.get PieceType.Rook &&& bbNot (sqBB rf))).get PieceType.Rook |||
            sqBB rt)).get mover &&& bbNot (sqBB (Move.fromSq m)))).setPT mover
        ((((p.white.setPT PieceType.Rook
          (p.white.get PieceType.Rook &&& bbNot (sqBB rf))).setPT PieceType.Rook
          ((p.white.setPT PieceType.Rook
            (p.white.get PieceType.Rook &&& bbNot (sqBB rf))).get PieceType.Rook |||
            sqBB rt)).setPT mover
          (((p.white.setPT PieceType.Rook
            (p.white.get PieceType.Rook &&& bbNot (sqBB rf))).setPT PieceType.Rook
            ((p.white.setPT PieceType.Rook
              (p.white.get PieceType.Rook &&& bbNot (sqBB rf))).get PieceType.Rook |||
              sqBB rt)).get mover &&& bbNot (sqBB (Move.fromSq m)))).get mover |||
          sqBB (Move.toSq m))).findType (sqBB (Move.toSq m)) = some mover := by
    apply findType_unique
    · rw [PieceSet.get_setPT_same]
      exact land_or_sqBB_ne ht64
    · intro pt1 hne
      rw [PieceSet.get_setPT_other _ _ (Ne.symm hne),
        PieceSet.get_setPT_other _ _ (Ne.symm hne)]
      by_cases hr1 : pt1 = PieceType.Rook
      · subst hr1
        rw [PieceSet.get_setPT_same, PieceSet.get_setPT_same]
        apply (land_sqBB_eq_zero ht64).mpr
        rw [testBit_set hrt64, testBit_clear (hWlt PieceType.Rook) hrf64,
          hW_t PieceType.Rook]
        simp [Ne.symm d5]
      · rw [PieceSet.get_setPT_other _ _ (fun hh => hr1 hh.symm),
          PieceSet.get_setPT_other _ _ (fun hh => hr1 hh.symm)]
        exact (land_sqBB_eq_zero ht64).mpr (hW_t pt1)
  have hgW2 : (((p.occupied_white &&& bbNot (sqBB rf) ||| sqBB rt) &&&
      bbNot (sqBB (Move.fromSq m))) ||| sqBB (Move.toSq m)) &&&
      sqBB (Move.toSq m) ≠ 0 :=
    land_or_sqBB_ne ht64
  simp only [Position.unmake_move, Color.flip, hpr, hEPf, hCS, hPf, hrk,
    Position.move_piece, Position.piece_on, eq_self_iff_true, if_true, if_false,
    Bool.false_eq_true, color_WB, color_BW]
  rw [if_pos hgW2, hftW]
  simp only [Option.map, Position.remove_piece, Position.add_piece,
    Position.setColorPieces, Position.setOccupied, Position.pieces,
    Position.colorPieces, Position.occupied_by, eq_self_iff_true, if_true,
    if_false, Bool.false_eq_true, color_WB, color_BW]
  exact Position.ext_fields
    (ps_castle_cycle hWlt hf64 ht64 hrf64 hrt64 d1 d2 d3 d4 d5 d6 hbf hbrf
      hW_t hW_rt rfl rfl rfl rfl rfl rfl rfl rfl)
    rfl
    (castle_cycle hOWlt hf64 ht64 hrf64 hrt64 d1 d2 d3 d4 d5 d6 hOW_f hOW_rf
      hOW_t hOW_rt)
    rfl
    (castle_cycle hOAlt hf64 ht64 hrf64 hrt64 d1 d2 d3 d4 d5 d6 hOA_f hOA_rf
      hOA_t hrtE)
    hus.symm rfl rfl rfl rfl rfl

/-- make followed by unmake is the identity: castling moves of Black. -/
theorem unmake_make_castle_black {p : Position} (hc : Consistent p) {m : Nat}
    {mover : PieceType} {rf rt : Nat}
    (hus : p.side_to_move = Color.Black)
    (hCS : Move.isCastling m = true)
    (hrk : castleRookSquares (Move.toSq m) = some (rf, rt))
    (hrf64 : rf < 64) (hrt64 : rt < 64)
    (d1 : Move.fromSq m ≠ Move.toSq m) (d2 : Move.fromSq m ≠ rf)
    (d3 : Move.fromSq m ≠ rt) (d4 : Move.toSq m ≠ rf) (d5 : Move.toSq m ≠ rt)
    (d6 : rf ≠ rt)
    (hpoF : p.piece_on (Move.fromSq m) = some (Color.Black, mover))
    (hpoT : p.piece_on (Move.toSq m) = none)
    (hpoR : p.piece_on rf = some (Color.Black, PieceType.Rook))
    (hrtE : p.occupied_all.testBit rt = false) :
    ∃ q u, p.makeMoveAux m = Sum.inr (q, u) ∧ q.unmake_move m u = p := by
  have hf64 := Move.fromSq_lt m
  have ht64 := Move.toSq_lt m
  have hfl := Move.castle_flags hCS
  have hPf : Move.isPromotion m = false := Move.isPromotion_eq_false (by omega)
  have hEPf : Move.isEnPassant m = false := Move.isEnPassant_eq_false (by omega)
  have hpr : Move.promotionPiece m = none := Move.promotionPiece_eq_none hPf
  have hWlt : ∀ pt, p.white.get pt < U64 := fun pt => pieces_lt hc .White pt
  have hBlt : ∀ pt, p.black.get pt < U64 := fun pt => pieces_lt hc .Black pt
  have hOWlt : p.occupied_white < U64 := occ_lt hc .White
  have hOBlt : p.occupied_black < U64 := occ_lt hc .Black
  have hOAlt : p.occupied_all < U64 := occ_all_lt hc
  have hbf : (p.black.get mover).testBit (Move.fromSq m) = true :=
    piece_on_some_testBit hf64 hpoF
  have hbrf0 := piece_on_some_testBit hrf64 hpoR
  have hbrf : (p.black.get PieceType.Rook).testBit rf = true := hbrf0
  have hOB_f : p.occupied_black.testBit (Move.fromSq m) = true :=
    pieces_le_occ hc .Black mover hbf
  have hOB_rf : p.occupied_black.testBit rf = true :=
    pieces_le_occ hc .Black PieceType.Rook hbrf
  have hW_t : ∀ pt, (p.white.get pt).testBit (Move.toSq m) = false :=
    fun pt => piece_on_none_testBit hc ht64 hpoT Color.White pt
  have hB_t : ∀ pt, (p.black.get pt).testBit (Move.toSq m) = false :=
    fun pt => piece_on_none_testBit hc ht64 hpoT Color.Black pt
  have hOW_t : p.occupied_white.testBit (Move.toSq m) = false :=
    pieces_bit_false_occ hc (fun pt =>
      show (p.pieces Color.White pt).testBit (Move.toSq m) = false from hW_t pt)
  have hOB_t : p.occupied_black.testBit (Move.toSq m) = false :=
    pieces_bit_false_occ hc (fun pt =>
      show (p.pieces Color.Black pt).testBit (Move.toSq m) = false from hB_t pt)
  have hOA_t : p.occupied_all.testBit (Move.toSq m) = false :=
    occ_all_bit_false hc hOW_t hOB_t
  have hOA_f : p.occupied_all.testBit (Move.fromSq m) = true :=
    occ_le_all hc
      (show (p.occupied_by Color.Black).testBit (Move.fromSq m) = true from hOB_f)
  have hOA_rf : p.occupied_all.testBit rf = true :=
    occ_le_all hc
      (show (p.occupied_by Color.Black).testBit rf = true from hOB_rf)
  have hOB_rt : p.occupied_black.testBit rt = false := (occ_all_bit_parts hc hrtE).2
  have hB_rt : ∀ pt, (p.black.get pt).testBit rt = false := fun pt =>
    occ_bit_false_pieces hc
      (show (p.occupied_by Color.Black).testBit rt = false from hOB_rt) pt
  simp only [Position.makeMoveAux, hus, Color.flip, hpoF, piece_on_boards,
    hpoT, Position.makeMoveTail, hEPf, hCS, hrk, Position.move_piece,
    Position.makeMoveFinish, hpr,
    Position.remove_piece, Position.add_piece, Position.setColorPieces,
    Position.setOccupied, Position.pieces, Position.colorPieces,
    Position.occupied_by, Position.update_castling_rights,
    eq_self_iff_true, if_true, if_false, Bool.false_eq_true,
    color_WB, color_BW]
  refine ⟨_, _, rfl, ?_⟩
  have hftB : ((((p.black.setPT PieceType.Rook
        (p.black.get PieceType.Rook &&& bbNot (sqBB rf))).setPT PieceType.Rook
        ((p.black.setPT PieceType.Rook
          (p.black.get PieceType.Rook &&& bbNot (sqBB rf))).get PieceType.Rook |||
          sqBB rt)).setPT mover
        (((p.black.setPT PieceType.Rook
          (p.black.get PieceType.Rook &&& bbNot (sqBB rf))).setPT PieceType.Rook
          ((p.black.setPT PieceType.Rook
            (p.black.get PieceType.Rook &&& bbNot (sqBB rf))).get PieceType.Rook |||
            sqBB rt)).get mover &&& bbNot (sqBB (Move.fromSq m)))).setPT mover
        ((((p.black.setPT PieceType.Rook
          (p.black.get PieceType.Rook &&& bbNot (sqBB rf))).setPT PieceType.Rook
          ((p.black.setPT PieceType.Rook
            (p.black.get PieceType.Rook &&& bbNot (sqBB rf))).get PieceType.Rook |||
            sqBB rt)).setPT mover
          (((p.black.setPT PieceType.Rook
            (p.black.get PieceType.Rook &&& bbNot (sqBB rf))).setPT PieceType.Rook
            ((p.black.setPT PieceType.Rook
              (p.black.get PieceType.Rook &&& bbNot (sqBB rf))).get PieceType.Rook |||
              sqBB rt)).get mover &&& bbNot (sqBB (Move.fromSq m)))).get mover |||
          sqBB (Move.toSq m))).findType (sqBB (Move.toSq m)) = some mover := by
    apply findType_unique
    · rw [PieceSet.get_setPT_same]
      exact land_or_sqBB_ne ht64
    · intro pt1 hne
      rw [PieceSet.get_setPT_other _ _ (Ne.symm hne),
        PieceSet.get_setPT_other _ _ (Ne.symm hne)]
      by_cases hr1 : pt1 = PieceType.Rook
      · subst hr1
        rw [PieceSet.get_setPT_same, PieceSet.get_setPT_same]
        apply (land_sqBB_eq_zero ht64).mpr
        rw [testBit_set hrt64, testBit_clear (hBlt PieceType.Rook) hrf64,
          hB_t PieceType.Rook]
        simp [Ne.symm d5]
      · rw [PieceSet.get_setPT_other _ _ (fun hh => hr1 hh.symm),
          PieceSet.get_setPT_other _ _ (fun hh => hr1 hh.symm)]
        exact (land_sqBB_eq_zero ht64).mpr (hB_t pt1)
  have hgW0 : p.occupied_white &&& sqBB (Move.toSq m) = 0 :=
    (land_sqBB_eq_zero ht64).mpr hOW_t
  have hgB2 : (((p.occupied_black &&& bbNot (sqBB rf) ||| sqBB rt) &&&
      bbNot (sqBB (Move.fromSq m))) ||| sqBB (Move.toSq m)) &&&
      sqBB (Move.toSq m) ≠ 0 :=
    land_or_sqBB_ne ht64
  simp only [Position.unmake_move, Color.flip, hpr, hEPf, hCS, hPf, hrk,
    Position.move_piece, Position.piece_on, eq_self_iff_true, if_true, if_false,
    Bool.false_eq_true, color_WB, color_BW]
  rw [if_neg (fun hn => hn hgW0), if_pos hgB2, hftB]
  simp only [Option.map, Position.remove_piece, Position.add_piece,
    Position.setColorPieces, Position.setOccupied, Position.pieces,
    Position.colorPieces, Position.occupied_by, eq_self_iff_true, if_true,
    if_false, Bool.false_eq_true, color_WB, color_BW]
  exact Position.ext_fields
    rfl
    (ps_castle_cycle hBlt hf64 ht64 hrf64 hrt64 d1 d2 d3 d4 d5 d6 hbf hbrf
      hB_t hB_rt rfl rfl rfl rfl rfl rfl rfl rfl)
    rfl
    (castle_cycle hOBlt hf64 ht64 hrf64 hrt64 d1 d2 d3 d4 d5 d6 hOB_f hOB_rf
      hOB_t hOB_rt)
    (castle_cycle hOAlt hf64 ht64 hrf64 hrt64 d1 d2 d3 d4 d5 d6 hOA_f hOA_rf
      hOA_t hrtE)
    hus.symm rfl rfl rfl rfl rfl

/-- Under the state invariants, `make_move` on a flag-consistent move always
reaches the final king-safety test (no dirty early return), and
`unmake_move` with the returned `UndoInfo` restores the position exactly. -/
theorem makeMoveAux_sane_spec {p : Position} (hc : Consistent p) {m : Nat}
    (hs : SaneMove p m) :
    ∃ q u, p.makeMoveAux m = Sum.inr (q, u) ∧ q.unmake_move m u = p := by
  obtain ⟨hft, hmovS, hdest, hpromS, hepS, hcsS⟩ := hs
  obtain ⟨mover, hmov⟩ := Option.isSome_iff_exists.mp hmovS
  have hpoF := moverOf_piece_on hmov
  have ht64 := Move.toSq_lt m
  have hOus_t : (p.occupied_by p.side_to_move).testBit (Move.toSq m) = false :=
    (land_sqBB_eq_zero ht64).mp hdest
  have hUs_t : ∀ pt, (p.pieces p.side_to_move pt).testBit (Move.toSq m) = false :=
    occ_bit_false_pieces hc hOus_t
  by_cases hEP : Move.isEnPassant m = true
  · obtain ⟨hepSq, hmovP, hpoT, hpoC⟩ := hepS hEP
    have hmovPawn : mover = PieceType.Pawn := by
      rw [hmov] at hmovP
      exact Option.some.inj hmovP
    subst hmovPawn
    cases hus : p.side_to_move with
    | White =>
      rw [hus] at hpoF hpoC
      simp only [Color.flip] at hpoC
      exact unmake_make_ep_white hc hus hEP hft hpoF hpoT hpoC
    | Black =>
      rw [hus] at hpoF hpoC
      simp only [Color.flip] at hpoC
      exact unmake_make_ep_black hc hus hEP hft hpoF hpoT hpoC
  · by_cases hCS : Move.isCastling m = true
    · obtain ⟨hf4, hrkS, hpoR, hrtE, hpoT⟩ := hcsS hCS
      obtain ⟨rfrt, hrk⟩ := Option.isSome_iff_exists.mp hrkS
      obtain ⟨rf, rt⟩ := rfrt
      have hpoR1 : p.piece_on rf = some (p.side_to_move, PieceType.Rook) := by
        rw [hrk] at hpoR
        simpa using hpoR
      have hrtE1 : p.occupied_all.testBit rt = false := by
        rw [hrk] at hrtE
        simp only [Option.getD_some] at hrtE
        have h2 : rt < 64 ∨ 64 ≤ rt := Nat.lt_or_ge rt 64
        rcases h2 with h2 | h2
        · exact (land_sqBB_eq_zero h2).mp hrtE
        · exact testBit_ge_64 (occ_all_lt hc) h2
      have htv : Move.toSq m = 6 ∨ Move.toSq m = 2 ∨ Move.toSq m = 62 ∨
          Move.toSq m = 58 := by
        by_contra hno
        push_neg at hno
        obtain ⟨h6, h2, h62, h58⟩ := hno
        rw [castleRookSquares, if_neg h6, if_neg h2, if_neg h62, if_neg h58] at hrk
        exact Option.noConfusion hrk
      have hnum : rf < 64 ∧ rt < 64 ∧ Move.fromSq m ≠ Move.toSq m ∧
          Move.fromSq m ≠ rf ∧ Move.fromSq m ≠ rt ∧ Move.toSq m ≠ rf ∧
          Move.toSq m ≠ rt ∧ rf ≠ rt := by
        rcases htv with h | h | h | h <;>
          rw [h] at hrk hf4 <;>
          simp only [castleRookSquares] at hrk <;>
          norm_num at hrk hf4 <;>
          omega
      obtain ⟨n1, n2, n3, n4, n5, n6, n7, n8⟩ := hnum
      cases hus : p.side_to_move with
      | White =>
        rw [hus] at hpoF hpoR1
        exact unmake_make_castle_white hc hus hCS hrk n1 n2 n3 n4 n5 n6 n7 n8
          hpoF hpoT hpoR1 hrtE1
      | Black =>
        rw [hus] at hpoF hpoR1
        exact unmake_make_castle_black hc hus hCS hrk n1 n2 n3 n4 n5 n6 n7 n8
          hpoF hpoT hpoR1 hrtE1
    · have hEPf : Move.isEnPassant m = false := Bool.eq_false_iff.mpr hEP
      have hCSf : Move.isCastling m = false := Bool.eq_false_iff.mpr hCS
      have hprom : Move.isPromotion m = true → mover = PieceType.Pawn := by
        intro hP
        have hmp := hpromS hP
        rw [hmov] at hmp
        exact Option.some.inj hmp
      cases hus : p.side_to_move with
      | White =>
        rw [hus] at hpoF hUs_t
        have hWt : ∀ pt, (p.white.get pt).testBit (Move.toSq m) = false :=
          fun pt => hUs_t pt
        exact unmake_make_normal_white hc hus hEPf hCSf hft hpoF hWt hprom
      | Black =>
        rw [hus] at hpoF hUs_t
        have hBt : ∀ pt, (p.black.get pt).testBit (Move.toSq m) = false :=
          fun pt => hUs_t pt
        exact unmake_make_normal_black hc hus hEPf hCSf hft hpoF hBt hprom

/-- C7 counterexample: at `s = i32::MAX` and `ply = 1` the `i32` addition in
`score_to_tt` wraps, and the round-trip returns `-2147483647` instead of
`s`. -/
theorem score_tt_not_roundtrip :
    score_from_tt (score_to_tt 2147483647 1) 1 = -2147483647 ∧
      (2147483647 : Int) ≠ -2147483647 := by
  constructor
  · decide
  · decide

/-- C7 (amended): the transposition-table mate-score adjustment round-trips,
`score_from_tt (score_to_tt s p) p = s`, for every ply `p` and every `i32`
score `s` whose adjusted value still fits in an `i32` — in particular for
every score the search produces, which lies within `±(MATE_SCORE + ply)`. -/
theorem score_tt_roundtrip (s : Int) (ply : Nat)
    (h1 : s ≤ 2147483647 - ply) (h2 : -2147483648 + ply ≤ s) :
    score_from_tt (score_to_tt s ply) ply = s := by
  simp only [score_to_tt, score_from_tt, wrap32]
  split_ifs <;> omega

/-- C7 witness: the round-trip at the concrete mate score 30000, ply 3. -/
theorem score_tt_roundtrip_witness :
    (30000 : Int) ≤ 2147483647 - (3 : Nat) ∧
      (-2147483648 : Int) + (3 : Nat) ≤ 30000 ∧
      score_from_tt (score_to_tt 30000 3) 3 = 30000 :=
  ⟨by decide, by decide, score_tt_roundtrip 30000 3 (by decide) (by decide)⟩

/-- C4: `TranspositionTable::store` is depth-preferred.  On a collision
(the slot holds a different non-zero hash) the table is left unchanged
exactly when the existing depth is strictly greater than the incoming depth,
and the slot is overwritten otherwise; a store whose hash equals the stored
hash always overwrites the slot. -/
theorem tt_store_depth_preferred (tt : TranspositionTable) (h d : Nat) (sc : Int)
    (fl : TTFlag) (bm : Option Nat) :
    ((tt.entries.getD (h &&& (tt.capacity - 1)) TTEntry.default).hash ≠ 0 →
     (tt.entries.getD (h &&& (tt.capacity - 1)) TTEntry.default).hash ≠ h →
       tt.store h d sc fl bm =
         if d < (tt.entries.getD (h &&& (tt.capacity - 1)) TTEntry.default).depth
         then tt
         else { tt with entries := tt.entries.set (h &&& (tt.capacity - 1)) ⟨h, d, sc, fl, bm⟩ }) ∧
    ((tt.entries.getD (h &&& (tt.capacity - 1)) TTEntry.default).hash = h →
       tt.store h d sc fl bm =
         { tt with entries := tt.entries.set (h &&& (tt.capacity - 1)) ⟨h, d, sc, fl, bm⟩ }) := by
  constructor
  · intro h0 hne
    rcases Nat.lt_or_ge d (tt.entries.getD (h &&& (tt.capacity - 1)) TTEntry.default).depth
      with hlt | hge
    · rw [if_pos hlt]
      simp only [TranspositionTable.store]
      rw [if_pos ⟨h0, hne, hlt⟩]
    · rw [if_neg (Nat.not_lt.mpr hge)]
      simp only [TranspositionTable.store]
      rw [if_neg (by push_neg; intro _ _; omega)]
  · intro heq
    simp only [TranspositionTable.store]
    rw [if_neg (by push_neg; intro _ hne; exact absurd heq hne)]

/-- C4 witness: in the concrete table `ttExample` the slot of hash 21 holds
the colliding entry of hash 5 at depth 5, so a depth-2 store is dropped. -/
theorem tt_store_depth_preferred_witness :
    TranspositionTable.store ttExample 21 2 0 TTFlag.Exact none = ttExample := by
  have hx := (tt_store_depth_preferred ttExample 21 2 0 TTFlag.Exact none).1
    (by decide) (by decide)
  exact hx.trans (by decide)

/-- C10: `TranspositionTable::probe` returns `none` whenever the probe hash is
0 or the stored hash in the indexed slot differs from it, and every entry it
does return has a non-zero hash — so an entry stored under hash 0 (the
empty-slot sentinel) can never be retrieved by any probe. -/
theorem tt_probe_sentinel (tt : TranspositionTable) (h : Nat) :
    (h = 0 → tt.probe h = none) ∧
    ((tt.entries.getD (h &&& (tt.capacity - 1)) TTEntry.default).hash ≠ h →
       tt.probe h = none) ∧
    (∀ e, tt.probe h = some e → e.hash ≠ 0) := by
  refine ⟨?_, ?_, ?_⟩
  · intro h0
    subst h0
    simp only [TranspositionTable.probe]
    split_ifs with hc
    · exact absurd hc.1 (by simpa using hc.2)
    · rfl
  · intro hne
    simp only [TranspositionTable.probe]
    rw [if_neg (by intro hc; exact hne hc.1)]
  · intro e he
    simp only [TranspositionTable.probe] at he
    split_ifs at he with hc
    · cases he
      exact hc.2

/-- C10 witness: probing a fresh table with hash 0 misses. -/
theorem tt_probe_sentinel_witness :
    TranspositionTable.probe (TranspositionTable.new 1) 0 = none :=
  (tt_probe_sentinel (TranspositionTable.new 1) 0).1 rfl

/-- C8 counterexample: `from_fen` accepts a FEN with only four of the six
fields, so it does not fail on "too few fields" in the six-field sense; only
fewer than four fields are rejected. -/
theorem from_fen_four_fields_ok :
    (Position.from_fen "4k3/8/8/8/8/8/8/4K3 w - -").toOption.isSome = true := by
  decide

/-- C8 (amended): `from_fen` fails exactly on fewer than four
whitespace-separated fields, a malformed piece character in the placement,
or an invalid side-to-move code (halfmove and fullmove are optional,
defaulting to 0 and 1); on failure it produces an error value, never a
Position. -/
theorem from_fen_failure_modes (fen : String) :
    ((fenFields fen).length < 4 →
      Position.from_fen fen = Except.error "FEN must have at least 4 parts") ∧
    (∀ e, 4 ≤ (fenFields fen).length →
      parsePlacement ((fenFields fen).getD 0 "").toList 7 0 Position.emptyPos =
        Except.error e →
      Position.from_fen fen = Except.error e) ∧
    (∀ pos0, 4 ≤ (fenFields fen).length →
      parsePlacement ((fenFields fen).getD 0 "").toList 7 0 Position.emptyPos =
        Except.ok pos0 →
      (fenFields fen).getD 1 "" ≠ "w" → (fenFields fen).getD 1 "" ≠ "b" →
      Position.from_fen fen = Except.error "Invalid side to move") ∧
    (∀ ch cs rank file pos, ch ≠ '/' → ¬('1' ≤ ch ∧ ch ≤ '8') → file < 8 →
      charPiece ch = none →
      parsePlacement (ch :: cs) rank file pos =
        Except.error "Invalid piece character in FEN") ∧
    (∀ e p, Position.from_fen fen = Except.error e →
      Position.from_fen fen ≠ Except.ok p) := by
  refine ⟨?_, ?_, ?_, ?_, ?_⟩
  · intro h
    simp only [Position.from_fen]
    rw [if_pos h]
  · intro e hlen hplace
    simp only [Position.from_fen]
    rw [if_neg (Nat.not_lt.mpr hlen), hplace]
  · intro pos0 hlen hplace hw hb
    simp only [Position.from_fen]
    rw [if_neg (Nat.not_lt.mpr hlen), hplace]
    simp only [hw, hb, or_self, if_false]
  · intro ch cs rank file pos hsl hdig hfile hch
    simp only [parsePlacement]
    rw [if_neg hsl, if_neg hdig, if_neg (by omega), hch]
  · intro e p he hok
    rw [he] at hok
    exact Except.noConfusion hok

/-- C8 amended-claim witness: a one-field string is rejected with the
too-few-fields error. -/
theorem from_fen_failure_modes_witness :
    Position.from_fen "kings" = Except.error "FEN must have at least 4 parts" :=
  (from_fen_failure_modes "kings").1 (by decide)

/-- C5: in the recursive alpha-beta routine at depth ≥ 1, when the
transposition-table probe did not already return a value and the generated
legal move list is empty, the routine returns −MATE_SCORE + ply when the
side to move is in check and DRAW_SCORE otherwise (with no best move and
the transposition and killer tables untouched) — so shallower mates score
better than deeper ones. -/
theorem alpha_beta_terminal (depth ply : Nat) (p : Position) (alpha beta : Int)
    (tt : TranspositionTable) (k : Killers)
    (hprobe : ∀ e, tt.probe p.hash = some e → depth + 1 ≤ e.depth →
      e.flag ≠ TTFlag.Exact ∧
      (e.flag = TTFlag.LowerBound → score_from_tt e.score ply < beta) ∧
      (e.flag = TTFlag.UpperBound → alpha < score_from_tt e.score ply))
    (hmoves : generate_legal_moves p = []) :
    alpha_beta (depth + 1) p ply alpha beta tt k =
      ((if p.is_in_check p.side_to_move then -MATE_SCORE + ply else DRAW_SCORE),
       none, tt, k) := by
  have hmain : ∀ a tm,
      alphaBetaMain (fun q a1 b1 tt1 k1 => alpha_beta depth q (ply + 1) a1 b1 tt1 k1)
        p (depth + 1) ply a beta tt k tm =
      ((if p.is_in_check p.side_to_move then -MATE_SCORE + ply else DRAW_SCORE),
       none, tt, k) := by
    intro a tm
    simp [alphaBetaMain, hmoves]
  simp only [alpha_beta]
  cases hpr : tt.probe p.hash with
  | none =>
    dsimp only
    exact hmain alpha none
  | some e =>
    dsimp only
    rcases Nat.lt_or_ge e.depth (depth + 1) with hd | hd
    · rw [if_neg (by omega : ¬ e.depth ≥ depth + 1)]
      exact hmain alpha e.best_move
    · rw [if_pos (hd : e.depth ≥ depth + 1)]
      obtain ⟨hex, hlo, hup⟩ := hprobe e hpr hd
      cases hfl : e.flag with
      | Exact => exact absurd hfl hex
      | LowerBound =>
        dsimp only
        rw [if_neg (not_le.mpr (hlo hfl))]
        exact hmain _ e.best_move
      | UpperBound =>
        dsimp only
        rw [if_neg (not_le.mpr (hup hfl))]
        exact hmain alpha e.best_move

/-- C5 witness: the checkmate position `k7/1Q6/1K6/8/8/8/8/8 b` has no
legal moves and Black in check, so a depth-1 search on a fresh one-slot
table scores it −MATE_SCORE + ply at ply 0. -/
theorem alpha_beta_terminal_witness :
    alpha_beta 1 mateExample 0 (-30001) 30001 (TranspositionTable.new 0) Killers.new =
      (-MATE_SCORE, none, TranspositionTable.new 0, Killers.new) := by
  have hp : (TranspositionTable.new 0).probe mateExample.hash = none := by decide
  have h := alpha_beta_terminal 0 0 mateExample (-30001) 30001
    (TranspositionTable.new 0) Killers.new
    (by intro e he _; rw [hp] at he; exact Option.noConfusion he) (by decide)
  exact h.trans (by decide)

/-- C6: `GameState::is_threefold_repetition` is true iff the current
position's hash occurs at least three times in the hash-history stack; that
stack is seeded with the initial position's hash (by `new` and `from_fen`),
has the new hash pushed by every successful `make_move_uci` (and is left
unchanged by a failed one), and has one entry popped by every undo (doing
nothing when there is no move to undo). -/
theorem gamestate_threefold_spec (g : GameState) (uci : String) :
    (g.is_threefold_repetition = true ↔
      3 ≤ (g.hash_history.filter (fun h => h = g.position.hash)).length) ∧
    GameState.new.hash_history = [Position.starting_position.hash] ∧
    (∀ fen g0, GameState.from_fen fen = Except.ok g0 →
      g0.hash_history = [g0.position.hash]) ∧
    (∀ g1, g.make_move_uci uci = (g1, true) →
      g1.hash_history = g1.position.hash :: g.hash_history) ∧
    (∀ g1, g.make_move_uci uci = (g1, false) → g1.hash_history = g.hash_history) ∧
    (g.move_history ≠ [] → (GameState.undo g).1.hash_history = g.hash_history.tail) ∧
    (g.move_history = [] → (GameState.undo g).1.hash_history = g.hash_history) := by
  refine ⟨?_, rfl, ?_, ?_, ?_, ?_, ?_⟩
  · simp [GameState.is_threefold_repetition]
  · intro fen g0 h
    simp only [GameState.from_fen] at h
    split at h
    · exact Except.noConfusion h
    · cases h
      rfl
  · intro g1 h
    simp only [GameState.make_move_uci] at h
    split at h
    · simp at h
    · split at h
      · simp at h
      · split at h
        · simp at h
        · split at h
          · simp at h
          · split at h
            · cases h
              rfl
            · simp at h
  · intro g1 h
    simp only [GameState.make_move_uci] at h
    split at h
    · cases h
      rfl
    · split at h
      · cases h
        rfl
      · split at h
        · cases h
          rfl
        · split at h
          · cases h
            rfl
          · split at h
            · simp at h
            · cases h
              rfl
  · intro h
    cases hm : g.move_history with
    | nil => exact absurd hm h
    | cons mu rest =>
      simp only [GameState.undo, hm]
  · intro h
    simp only [GameState.undo, h]

/-- C6 witness: after 1. e4 from the starting position the hash stack is the
new hash pushed on the seeded stack. -/
theorem gamestate_threefold_spec_witness :
    gsAfterE4.hash_history = gsAfterE4.position.hash :: GameState.new.hash_history :=
  (gamestate_threefold_spec GameState.new "e2e4").2.2.2.1 gsAfterE4 (by decide)

theorem nat_xor_left_comm (a b c : Nat) : a ^^^ (b ^^^ c) = b ^^^ (a ^^^ c) := by
  rw [← Nat.xor_assoc, Nat.xor_comm a b, Nat.xor_assoc]

theorem xor_cancel_right (a b c : Nat) : a ^^^ b ^^^ c ^^^ b = a ^^^ c := by
  rw [Nat.xor_assoc a b c, Nat.xor_comm b c, ← Nat.xor_assoc a c b,
    Nat.xor_assoc, Nat.xor_self, Nat.xor_zero]

theorem nat_xor_cancel_left (a b : Nat) : a ^^^ (a ^^^ b) = b := by
  rw [← Nat.xor_assoc, Nat.xor_self, Nat.zero_xor]

/-- Pull the initial accumulator out of the `xorKeys` fold. -/
theorem xorKeys_foldl_init (bb : Nat) (f : Nat → Nat) (l : List Nat) (a : Nat) :
    l.foldl (fun h sq => if bb.testBit sq then h ^^^ f sq else h) a =
      a ^^^ l.foldl (fun h sq => if bb.testBit sq then h ^^^ f sq else h) 0 := by
  induction l generalizing a with
  | nil => simp
  | cons x xs ih =>
    simp only [List.foldl_cons]
    rw [ih, ih (if bb.testBit x then 0 ^^^ f x else 0)]
    by_cases hx : bb.testBit x
    · simp [hx, Nat.xor_assoc]
    · simp [hx]

/-- The `xorKeys` fold only depends on the tested bits. -/
theorem xorKeys_foldl_congr {bb bb' : Nat} (f : Nat → Nat) (l : List Nat)
    (h : ∀ i ∈ l, bb'.testBit i = bb.testBit i) (a : Nat) :
    l.foldl (fun h sq => if bb'.testBit sq then h ^^^ f sq else h) a =
      l.foldl (fun h sq => if bb.testBit sq then h ^^^ f sq else h) a := by
  induction l generalizing a with
  | nil => rfl
  | cons x xs ih =>
    simp only [List.foldl_cons]
    rw [h x (List.mem_cons_self x xs)]
    exact ih (fun i hi => h i (List.mem_cons_of_mem x hi)) _

/-- Flipping one tested bit XORs that square's key into the fold. -/
theorem xorKeys_foldl_flip {bb bb' : Nat} (f : Nat → Nat) {s : Nat}
    (l : List Nat) (hnd : l.Nodup) (hmem : s ∈ l)
    (hagree : ∀ j ∈ l, j ≠ s → bb'.testBit j = bb.testBit j)
    (hflip : bb'.testBit s = !bb.testBit s) (a : Nat) :
    l.foldl (fun h sq => if bb'.testBit sq then h ^^^ f sq else h) a =
      l.foldl (fun h sq => if bb.testBit sq then h ^^^ f sq else h) a ^^^ f s := by
  induction l generalizing a with
  | nil => exact absurd hmem (List.not_mem_nil s)
  | cons x xs ih =>
    simp only [List.foldl_cons]
    rcases List.mem_cons.mp hmem with hx | hx
    · subst hx
      have hnotin : s ∉ xs := (List.nodup_cons.mp hnd).1
      have hagree' : ∀ i ∈ xs, bb'.testBit i = bb.testBit i := fun i hi =>
        hagree i (List.mem_cons_of_mem s hi) (fun he => hnotin (he ▸ hi))
      rw [xorKeys_foldl_congr f xs hagree', hflip]
      by_cases hb : bb.testBit s
      · rw [if_neg (by simp [hb]), if_pos (by simp [hb])]
        rw [xorKeys_foldl_init bb f xs a, xorKeys_foldl_init bb f xs (a ^^^ f s)]
        rw [xor_cancel_right]
      · rw [if_pos (by simp [hb]), if_neg (by simp [hb])]
        rw [xorKeys_foldl_init bb f xs (a ^^^ f s), xorKeys_foldl_init bb f xs a]
        simp [Nat.xor_assoc, Nat.xor_comm, nat_xor_left_comm]
    · have hxs : x ≠ s := fun he => (List.nodup_cons.mp hnd).1 (he ▸ hx)
      rw [hagree x (List.mem_cons_self x xs) hxs]
      exact ih (List.nodup_cons.mp hnd).2 hx
        (fun j hj hjs => hagree j (List.mem_cons_of_mem x hj) hjs) _

/-- Clearing a set bit XORs that square's key out of `xorKeys`. -/
theorem xorKeys_clear {bb s : Nat} (hs : s < 64) (hlt : bb < U64)
    (hbit : bb.testBit s = true) (f : Nat → Nat) :
    xorKeys (bb &&& bbNot (sqBB s)) f = xorKeys bb f ^^^ f s := by
  unfold xorKeys
  exact xorKeys_foldl_flip f (List.range 64) (List.nodup_range 64)
    (List.mem_range.mpr hs)
    (fun j _ hjs => by
      rw [testBit_clear hlt hs]
      simp [Ne.symm hjs])
    (by rw [testBit_clear hlt hs, hbit]; simp) 0

/-- Setting a clear bit XORs that square's key into `xorKeys`. -/
theorem xorKeys_set {bb s : Nat} (hs : s < 64)
    (hbit : bb.testBit s = false) (f : Nat → Nat) :
    xorKeys (bb ||| sqBB s) f = xorKeys bb f ^^^ f s := by
  unfold xorKeys
  exact xorKeys_foldl_flip f (List.range 64) (List.nodup_range 64)
    (List.mem_range.mpr hs)
    (fun j _ hjs => by
      rw [testBit_set hs]
      simp [Ne.symm hjs])
    (by rw [testBit_set hs, hbit]; simp) 0

/-- `pieceHash` reads only the board fields. -/
theorem pieceHash_boards (p : Position) (ow ob oa : Nat) (s : Color) (cr : Nat)
    (ep : Option Nat) (hm fm hh : Nat) :
    Position.pieceHash ⟨p.white, p.black, ow, ob, oa, s, cr, ep, hm, fm, hh⟩ =
      p.pieceHash := rfl

/-- Removing a present piece XORs its key out of `pieceHash`. -/
theorem pieceHash_remove {p : Position} (c : Color) (pt : PieceType) {sq : Nat}
    (hsq : sq < 64) (hlt : p.pieces c pt < U64)
    (hbit : (p.pieces c pt).testBit sq = true) :
    (p.remove_piece c pt sq).pieceHash = p.pieceHash ^^^ piece_key c pt sq := by
  cases c <;> cases pt <;>
    (simp only [Position.pieces, Position.colorPieces, PieceSet.get] at hlt hbit
     simp only [Position.remove_piece, Position.setColorPieces,
       Position.setOccupied, Position.pieces, Position.colorPieces,
       Position.occupied_by, PieceSet.get, PieceSet.setPT, Position.pieceHash]
     rw [xorKeys_clear hsq hlt hbit]
     simp only [Nat.xor_assoc, Nat.xor_comm, nat_xor_left_comm])

/-- Adding a piece to an empty square XORs its key into `pieceHash`. -/
theorem pieceHash_add {p : Position} (c : Color) (pt : PieceType) {sq : Nat}
    (hsq : sq < 64) (hbit : (p.pieces c pt).testBit sq = false) :
    (p.add_piece c pt sq).pieceHash = p.pieceHash ^^^ piece_key c pt sq := by
  cases c <;> cases pt <;>
    (simp only [Position.pieces, Position.colorPieces, PieceSet.get] at hbit
     simp only [Position.add_piece, Position.setColorPieces,
       Position.setOccupied, Position.pieces, Position.colorPieces,
       Position.occupied_by, PieceSet.get, PieceSet.setPT, Position.pieceHash]
     rw [xorKeys_set hsq hbit]
     simp only [Nat.xor_assoc, Nat.xor_comm, nat_xor_left_comm])

theorem PieceSet.get_setPT (s : PieceSet) (pt pt' : PieceType) (v : Nat) :
    (s.setPT pt v).get pt' = if pt' = pt then v else s.get pt' := by
  by_cases h : pt' = pt
  · subst h
    simp [PieceSet.get_setPT_same]
  · simp [PieceSet.get_setPT_other _ _ (Ne.symm h), h]

theorem pieces_remove (p : Position) (c : Color) (pt : PieceType) (sq : Nat)
    (c' : Color) (pt' : PieceType) :
    (p.remove_piece c pt sq).pieces c' pt' =
      if c' = c ∧ pt' = pt then p.pieces c pt &&& bbNot (sqBB sq)
      else p.pieces c' pt' := by
  cases c <;> cases c' <;>
    simp [Position.remove_piece, Position.setColorPieces, Position.setOccupied,
      Position.pieces, Position.colorPieces, Position.occupied_by,
      PieceSet.get_setPT]

theorem pieces_add (p : Position) (c : Color) (pt : PieceType) (sq : Nat)
    (c' : Color) (pt' : PieceType) :
    (p.add_piece c pt sq).pieces c' pt' =
      if c' = c ∧ pt' = pt then p.pieces c pt ||| sqBB sq
      else p.pieces c' pt' := by
  cases c <;> cases c' <;>
    simp [Position.add_piece, Position.setColorPieces, Position.setOccupied,
      Position.pieces, Position.colorPieces, Position.occupied_by,
      PieceSet.get_setPT]

theorem occupied_by_remove (p : Position) (c : Color) (pt : PieceType)
    (sq : Nat) (c' : Color) :
    (p.remove_piece c pt sq).occupied_by c' =
      if c' = c then p.occupied_by c &&& bbNot (sqBB sq)
      else p.occupied_by c' := by
  cases c <;> cases c' <;>
    simp [Position.remove_piece, Position.setColorPieces, Position.setOccupied,
      Position.pieces, Position.colorPieces, Position.occupied_by]

theorem occupied_by_add (p : Position) (c : Color) (pt : PieceType)
    (sq : Nat) (c' : Color) :
    (p.add_piece c pt sq).occupied_by c' =
      if c' = c then p.occupied_by c ||| sqBB sq
      else p.occupied_by c' := by
  cases c <;> cases c' <;>
    simp [Position.add_piece, Position.setColorPieces, Position.setOccupied,
      Position.pieces, Position.colorPieces, Position.occupied_by]

theorem occupied_all_remove (p : Position) (c : Color) (pt : PieceType)
    (sq : Nat) :
    (p.remove_piece c pt sq).occupied_all =
      p.occupied_all &&& bbNot (sqBB sq) := by
  cases c <;> rfl

theorem occupied_all_add (p : Position) (c : Color) (pt : PieceType)
    (sq : Nat) :
    (p.add_piece c pt sq).occupied_all = p.occupied_all ||| sqBB sq := by
  cases c <;> rfl

theorem remove_piece_side (p : Position) (c : Color) (pt : PieceType) (sq : Nat) :
    (p.remove_piece c pt sq).side_to_move = p.side_to_move := by cases c <;> rfl

theorem remove_piece_castling (p : Position) (c : Color) (pt : PieceType) (sq : Nat) :
    (p.remove_piece c pt sq).castling = p.castling := by cases c <;> rfl

theorem remove_piece_ep (p : Position) (c : Color) (pt : PieceType) (sq : Nat) :
    (p.remove_piece c pt sq).en_passant = p.en_passant := by cases c <;> rfl

theorem remove_piece_halfmove (p : Position) (c : Color) (pt : PieceType) (sq : Nat) :
    (p.remove_piece c pt sq).halfmove_clock = p.halfmove_clock := by cases c <;> rfl

theorem remove_piece_fullmove (p : Position) (c : Color) (pt : PieceType) (sq : Nat) :
    (p.remove_piece c pt sq).fullmove_number = p.fullmove_number := by cases c <;> rfl

theorem remove_piece_hash (p : Position) (c : Color) (pt : PieceType) (sq : Nat) :
    (p.remove_piece c pt sq).hash = p.hash := by cases c <;> rfl

theorem add_piece_side (p : Position) (c : Color) (pt : PieceType) (sq : Nat) :
    (p.add_piece c pt sq).side_to_move = p.side_to_move := by cases c <;> rfl

theorem add_piece_castling (p : Position) (c : Color) (pt : PieceType) (sq : Nat) :
    (p.add_piece c pt sq).castling = p.castling := by cases c <;> rfl

theorem add_piece_ep (p : Position) (c : Color) (pt : PieceType) (sq : Nat) :
    (p.add_piece c pt sq).en_passant = p.en_passant := by cases c <;> rfl

theorem add_piece_halfmove (p : Position) (c : Color) (pt : PieceType) (sq : Nat) :
    (p.add_piece c pt sq).halfmove_clock = p.halfmove_clock := by cases c <;> rfl

theorem add_piece_fullmove (p : Position) (c : Color) (pt : PieceType) (sq : Nat) :
    (p.add_piece c pt sq).fullmove_number = p.fullmove_number := by cases c <;> rfl

theorem add_piece_hash (p : Position) (c : Color) (pt : PieceType) (sq : Nat) :
    (p.add_piece c pt sq).hash = p.hash := by cases c <;> rfl

theorem land_lor_distrib (a b c : Nat) : (a ||| b) &&& c = a &&& c ||| b &&& c := by
  apply Nat.eq_of_testBit_eq
  intro i
  rw [Nat.testBit_and, Nat.testBit_or, Nat.testBit_or, Nat.testBit_and,
    Nat.testBit_and]
  cases a.testBit i <;> cases b.testBit i <;> cases c.testBit i <;> rfl

theorem land_bbNot_keep {x : Nat} (hx : x < U64) {s : Nat} (hs : s < 64)
    (h : x.testBit s = false) : x &&& bbNot (sqBB s) = x := by
  apply Nat.eq_of_testBit_eq
  intro i
  rw [testBit_clear hx hs]
  by_cases hi : s = i
  · subst hi
    simp [h]
  · simp [hi]

theorem land_mask_zero_left {a b : Nat} (h : a &&& b = 0) (m : Nat) :
    (a &&& m) &&& b = 0 := by
  apply Nat.eq_of_testBit_eq
  intro i
  have hi : (a &&& b).testBit i = false := by
    rw [h]
    exact Nat.zero_testBit i
  rw [Nat.testBit_and] at hi
  rw [Nat.testBit_and, Nat.testBit_and, Nat.zero_testBit]
  cases ha : a.testBit i <;> cases hbb : b.testBit i <;> simp_all

theorem land_mask_zero_right {a b : Nat} (h : a &&& b = 0) (m : Nat) :
    a &&& (b &&& m) = 0 := by
  apply Nat.eq_of_testBit_eq
  intro i
  have hi : (a &&& b).testBit i = false := by
    rw [h]
    exact Nat.zero_testBit i
  rw [Nat.testBit_and] at hi
  rw [Nat.testBit_and, Nat.testBit_and, Nat.zero_testBit]
  cases ha : a.testBit i <;> cases hbb : b.testBit i <;> simp_all

theorem sqBB_land_zero {x : Nat} {s : Nat} (hs : s < 64)
    (h : x.testBit s = false) : sqBB s &&& x = 0 := by
  rw [Nat.and_comm]
  exact (land_sqBB_eq_zero hs).mpr h

/-- The board-level state invariants (phrased through `pieces` and
`occupied_by`): occupancy caches are unions of the piece bitboards,
`occupied_all` is the union of both colors, distinct piece bitboards are
disjoint, and every board is a 64-bit value. -/

theorem boardsOK_of_consistent {p : Position} (hc : Consistent p) : BoardsOK p := by
  obtain ⟨h1, h2, h3, h4, h5, -, -, -⟩ := hc
  refine ⟨?_, h3, h4, h5⟩
  intro c
  cases c
  · exact h1
  · exact h2

theorem consistent_mk {p : Position} (hb : BoardsOK p) (h6 : p.castling < 16)
    (h7 : p.en_passant.getD 0 < 64) (h8 : p.hash = p.compute_hash) :
    Consistent p :=
  ⟨hb.1 .White, hb.1 .Black, hb.2.1, hb.2.2.1, hb.2.2.2, h6, h7, h8⟩

theorem occupied_by_boards (p : Position) (s : Color) (cr : Nat)
    (ep : Option Nat) (hm fm hh : Nat) (c : Color) :
    Position.occupied_by ⟨p.white, p.black, p.occupied_white, p.occupied_black,
      p.occupied_all, s, cr, ep, hm, fm, hh⟩ c = p.occupied_by c := by
  cases c <;> rfl

theorem pieces_boards (p : Position) (ow ob oa : Nat) (s : Color) (cr : Nat)
    (ep : Option Nat) (hm fm hh : Nat) (c : Color) (pt : PieceType) :
    Position.pieces ⟨p.white, p.black, ow, ob, oa, s, cr, ep, hm, fm, hh⟩ c pt =
      p.pieces c pt := by
  cases c <;> rfl

theorem boardsOK_boards (p : Position) (s : Color) (cr : Nat)
    (ep : Option Nat) (hm fm hh : Nat) :
    BoardsOK ⟨p.white, p.black, p.occupied_white, p.occupied_black,
      p.occupied_all, s, cr, ep, hm, fm, hh⟩ ↔ BoardsOK p := by
  unfold BoardsOK
  simp only [occupied_by_boards, pieces_boards]

theorem boards_occ_lt {p : Position} (hb : BoardsOK p) (c : Color) :
    p.occupied_by c < U64 := by
  rw [hb.1 c]
  exact or_lt_U64 (or_lt_U64 (or_lt_U64 (or_lt_U64 (or_lt_U64
    (hb.2.2.2 c .Pawn) (hb.2.2.2 c .Knight)) (hb.2.2.2 c .Bishop))
    (hb.2.2.2 c .Rook)) (hb.2.2.2 c .Queen)) (hb.2.2.2 c .King)

theorem boards_all_lt {p : Position} (hb : BoardsOK p) : p.occupied_all < U64 := by
  rw [hb.2.1]
  exact or_lt_U64 (boards_occ_lt hb .White) (boards_occ_lt hb .Black)

theorem boards_bit_unique {p : Position} (hb : BoardsOK p) {c : Color}
    {pt : PieceType} {sq : Nat} (hbit : (p.pieces c pt).testBit sq = true) :
    ∀ c' pt', (c', pt') ≠ (c, pt) → (p.pieces c' pt').testBit sq = false := by
  intro c' pt' hne
  by_contra hx
  have hx' : (p.pieces c' pt').testBit sq = true := by simpa using hx
  have h0 := hb.2.2.1 c' pt' c pt hne
  have hboth : ((p.pieces c' pt') &&& (p.pieces c pt)).testBit sq = true := by
    rw [Nat.testBit_and, hx', hbit]
    rfl
  rw [h0, Nat.zero_testBit] at hboth
  exact Bool.noConfusion hboth

theorem boards_pieces_le_occ {p : Position} (hb : BoardsOK p) (c : Color)
    (pt : PieceType) {i : Nat} (h : (p.pieces c pt).testBit i = true) :
    (p.occupied_by c).testBit i = true := by
  rw [hb.1 c]
  simp only [Nat.testBit_or]
  cases pt <;> simp [h]

theorem boards_pieces_le_all {p : Position} (hb : BoardsOK p) (c : Color)
    (pt : PieceType) {i : Nat} (h : (p.pieces c pt).testBit i = true) :
    p.occupied_all.testBit i = true := by
  rw [hb.2.1]
  rw [Nat.testBit_or]
  cases c
  · rw [boards_pieces_le_occ hb .White pt h]
    rfl
  · rw [boards_pieces_le_occ hb .Black pt h]
    simp

theorem boards_all_bit_false {p : Position} (hb : BoardsOK p) {sq : Nat}
    (h : p.occupied_all.testBit sq = false) (c : Color) (pt : PieceType) :
    (p.pieces c pt).testBit sq = false := by
  by_contra hx
  have hx' : (p.pieces c pt).testBit sq = true := by simpa using hx
  rw [boards_pieces_le_all hb c pt hx'] at h
  exact Bool.noConfusion h

theorem boards_occ_bit_false {p : Position} (hb : BoardsOK p) {sq : Nat}
    {c : Color} (h : ∀ pt, (p.pieces c pt).testBit sq = false) :
    (p.occupied_by c).testBit sq = false := by
  rw [hb.1 c]
  simp only [Nat.testBit_or, h .Pawn, h .Knight, h .Bishop, h .Rook, h .Queen,
    h .King]
  rfl

theorem nat_or_left_comm (a b c : Nat) : a ||| (b ||| c) = b ||| (a ||| c) := by
  rw [← Nat.or_assoc, Nat.or_comm a b, Nat.or_assoc]

theorem Color.ne_flip (c : Color) : c ≠ c.flip := by
  cases c <;> simp [Color.flip]

/-- Removing a present piece preserves the board invariants. -/
theorem boardsOK_remove {p : Position} {c : Color} {pt : PieceType} {sq : Nat}
    (hb : BoardsOK p) (hsq : sq < 64)
    (hbit : (p.pieces c pt).testBit sq = true) :
    BoardsOK (p.remove_piece c pt sq) := by
  have hoth := boards_bit_unique hb hbit
  obtain ⟨h1, h2, h4, h5⟩ := hb
  have hkeep : ∀ c' pt', (c', pt') ≠ (c, pt) →
      p.pieces c' pt' &&& bbNot (sqBB sq) = p.pieces c' pt' := fun c' pt' h =>
    land_bbNot_keep (h5 c' pt') hsq (hoth c' pt' h)
  refine ⟨?_, ?_, ?_, ?_⟩
  · intro c'
    rw [occupied_by_remove, pieces_remove, pieces_remove, pieces_remove,
      pieces_remove, pieces_remove, pieces_remove]
    by_cases hcc : c' = c
    · subst hcc
      rw [if_pos rfl]
      rw [h1 c', land_lor_distrib, land_lor_distrib, land_lor_distrib,
        land_lor_distrib, land_lor_distrib]
      cases pt <;>
        simp [hkeep c' PieceType.Pawn, hkeep c' PieceType.Knight,
          hkeep c' PieceType.Bishop, hkeep c' PieceType.Rook,
          hkeep c' PieceType.Queen, hkeep c' PieceType.King]
    · rw [if_neg hcc]
      simp only [hcc, false_and, if_false]
      exact h1 c'
  · rw [occupied_all_remove, occupied_by_remove, occupied_by_remove, h2,
      land_lor_distrib]
    have hb' : BoardsOK p := ⟨h1, h2, h4, h5⟩
    cases c
    · rw [if_pos rfl, if_neg (by simp)]
      rw [land_bbNot_keep (boards_occ_lt hb' .Black) hsq
        (boards_occ_bit_false hb' (fun pt' => hoth Color.Black pt' (by simp)))]
    · rw [if_neg (by simp), if_pos rfl]
      rw [land_bbNot_keep (boards_occ_lt hb' .White) hsq
        (boards_occ_bit_false hb' (fun pt' => hoth Color.White pt' (by simp)))]
  · intro c1 pt1 c2 pt2 hne
    rw [pieces_remove, pieces_remove]
    by_cases ha : c1 = c ∧ pt1 = pt
    · by_cases hb2 : c2 = c ∧ pt2 = pt
      · obtain ⟨e1, e2⟩ := ha
        obtain ⟨e3, e4⟩ := hb2
        rw [e1, e2, e3, e4] at hne
        exact absurd rfl hne
      · rw [if_pos ha, if_neg hb2]
        have hne2 : (c, pt) ≠ (c2, pt2) := by
          intro he
          exact hb2 ⟨(Prod.mk.inj he).1.symm, (Prod.mk.inj he).2.symm⟩
        exact land_mask_zero_left (h4 c pt c2 pt2 hne2) _
    · by_cases hb2 : c2 = c ∧ pt2 = pt
      · rw [if_neg ha, if_pos hb2]
        have hne2 : (c1, pt1) ≠ (c, pt) := by
          intro he
          exact ha ⟨(Prod.mk.inj he).1, (Prod.mk.inj he).2⟩
        exact land_mask_zero_right (h4 c1 pt1 c pt hne2) _
      · rw [if_neg ha, if_neg hb2]
        exact h4 c1 pt1 c2 pt2 hne
  · intro c' pt'
    rw [pieces_remove]
    split_ifs
    · exact and_lt_U64 _ (h5 c pt)
    · exact h5 c' pt'

/-- Adding a piece to an empty square preserves the board invariants. -/
theorem boardsOK_add {p : Position} {c : Color} {pt : PieceType} {sq : Nat}
    (hb : BoardsOK p) (hsq : sq < 64)
    (hemp : p.occupied_all.testBit sq = false) :
    BoardsOK (p.add_piece c pt sq) := by
  have hall := boards_all_bit_false hb hemp
  obtain ⟨h1, h2, h4, h5⟩ := hb
  refine ⟨?_, ?_, ?_, ?_⟩
  · intro c'
    rw [occupied_by_add, pieces_add, pieces_add, pieces_add, pieces_add,
      pieces_add, pieces_add]
    by_cases hcc : c' = c
    · subst hcc
      rw [if_pos rfl]
      rw [h1 c']
      cases pt <;>
        simp [Nat.or_assoc, Nat.or_comm, nat_or_left_comm]
    · rw [if_neg hcc]
      simp only [hcc, false_and, if_false]
      exact h1 c'
  · rw [occupied_all_add, occupied_by_add, occupied_by_add, h2]
    cases c
    · rw [if_pos rfl, if_neg (by simp)]
      simp [Nat.or_assoc, Nat.or_comm, nat_or_left_comm]
    · rw [if_neg (by simp), if_pos rfl]
      simp [Nat.or_assoc, Nat.or_comm, nat_or_left_comm]
  · intro c1 pt1 c2 pt2 hne
    rw [pieces_add, pieces_add]
    by_cases ha : c1 = c ∧ pt1 = pt
    · by_cases hb2 : c2 = c ∧ pt2 = pt
      · obtain ⟨e1, e2⟩ := ha
        obtain ⟨e3, e4⟩ := hb2
        rw [e1, e2, e3, e4] at hne
        exact absurd rfl hne
      · rw [if_pos ha, if_neg hb2]
        have hne2 : (c, pt) ≠ (c2, pt2) := by
          intro he
          exact hb2 ⟨(Prod.mk.inj he).1.symm, (Prod.mk.inj he).2.symm⟩
        rw [land_lor_distrib, h4 c pt c2 pt2 hne2,
          sqBB_land_zero hsq (hall c2 pt2)]
        simp
    · by_cases hb2 : c2 = c ∧ pt2 = pt
      · rw [if_neg ha, if_pos hb2]
        have hne2 : (c1, pt1) ≠ (c, pt) := by
          intro he
          exact ha ⟨(Prod.mk.inj he).1, (Prod.mk.inj he).2⟩
        rw [Nat.and_comm, land_lor_distrib, Nat.and_comm _ (p.pieces c1 pt1),
          h4 c1 pt1 c pt hne2, sqBB_land_zero hsq (hall c1 pt1)]
        simp
      · rw [if_neg ha, if_neg hb2]
        exact h4 c1 pt1 c2 pt2 hne
  · intro c' pt'
    rw [pieces_add]
    split_ifs
    · exact or_sqBB_lt sq (h5 c pt)
    · exact h5 c' pt'

theorem crRemove_lt {r : Nat} (h : r < 16) (b : Nat) : crRemove r b < 16 :=
  lt_of_le_of_lt Nat.and_le_left h

theorem update_castling_lt {p : Position} (h : p.castling < 16) (f t : Nat) :
    (p.update_castling_rights f t).castling < 16 := by
  have step : ∀ (x b : Nat) (cnd : Prop) [Decidable cnd], x < 16 →
      (if cnd then crRemove x b else x) < 16 := by
    intro x b cnd inst hx
    split_ifs
    · exact crRemove_lt hx b
    · exact hx
  simp only [Position.update_castling_rights]
  exact step _ _ _ (step _ _ _ (step _ _ _ (step _ _ _ (step _ _ _
    (step _ _ _ h)))))

theorem update_castling_hash (p : Position) (f t : Nat) :
    (p.update_castling_rights f t).hash = p.hash := rfl

theorem update_castling_castling (p : Position) (f t : Nat) :
    (p.update_castling_rights f t).castling = crUpdate p.castling f t := rfl

theorem update_castling_ep (p : Position) (f t : Nat) :
    (p.update_castling_rights f t).en_passant = p.en_passant := rfl

theorem update_castling_halfmove (p : Position) (f t : Nat) :
    (p.update_castling_rights f t).halfmove_clock = p.halfmove_clock := rfl

theorem update_castling_side (p : Position) (f t : Nat) :
    (p.update_castling_rights f t).side_to_move = p.side_to_move := rfl

theorem pieces_update_castling (p : Position) (f t : Nat) (c : Color)
    (pt : PieceType) :
    (p.update_castling_rights f t).pieces c pt = p.pieces c pt := by
  cases c <;> rfl

theorem occupied_by_update_castling (p : Position) (f t : Nat) (c : Color) :
    (p.update_castling_rights f t).occupied_by c = p.occupied_by c := by
  cases c <;> rfl

theorem occupied_all_update_castling (p : Position) (f t : Nat) :
    (p.update_castling_rights f t).occupied_all = p.occupied_all := rfl

theorem boardsOK_update_castling (p : Position) (f t : Nat) :
    BoardsOK (p.update_castling_rights f t) ↔ BoardsOK p := by
  unfold BoardsOK
  simp only [pieces_update_castling, occupied_by_update_castling,
    occupied_all_update_castling]

theorem pieceHash_update_castling (p : Position) (f t : Nat) :
    (p.update_castling_rights f t).pieceHash = p.pieceHash := rfl

theorem sideHash_flip (c : Color) : sideHash c.flip = sideHash c ^^^ SIDE_KEY := by
  cases c
  · rfl
  · show (0 : Nat) = SIDE_KEY ^^^ SIDE_KEY
    rw [Nat.xor_self]

/-- A Position-level `if` whose branches differ only in the fullmove counter
commutes into the field. -/
theorem fullmove_ite (cnd : Prop) [Decidable cnd] (w b : PieceSet)
    (ow ob oa : Nat) (s : Color) (cr : Nat) (ep : Option Nat)
    (hm hh fm1 fm2 : Nat) :
    (if cnd then (⟨w, b, ow, ob, oa, s, cr, ep, hm, fm1, hh⟩ : Position)
     else ⟨w, b, ow, ob, oa, s, cr, ep, hm, fm2, hh⟩) =
      ⟨w, b, ow, ob, oa, s, cr, ep, hm, if cnd then fm1 else fm2, hh⟩ := by
  split_ifs <;> rfl

/-- `make_null_move` preserves the state invariants. -/
theorem make_null_consistent {p : Position} (hc : Consistent p) :
    Consistent (p.make_null_move).1 := by
  have h8 := hc.2.2.2.2.2.2.2
  cases hep : p.en_passant with
  | none =>
    simp only [Position.make_null_move, hep]
    refine consistent_mk ((boardsOK_boards p _ _ _ _ _ _).mpr
      (boardsOK_of_consistent hc)) hc.2.2.2.2.2.1 (by simp) ?_
    show p.hash ^^^ side_to_move_key = _
    simp only [Position.compute_hash, pieceHash_boards]
    show p.hash ^^^ side_to_move_key =
      p.pieceHash ^^^ sideHash p.side_to_move.flip ^^^
        castling_key p.castling ^^^ epHash none
    rw [h8, Position.compute_hash, sideHash_flip, hep]
    simp only [side_to_move_key]
    simp [Nat.xor_comm, Nat.xor_assoc, nat_xor_left_comm, Nat.xor_self,
      nat_xor_cancel_left, Nat.xor_zero, Nat.zero_xor]
  | some e =>
    simp only [Position.make_null_move, hep]
    refine consistent_mk ((boardsOK_boards p _ _ _ _ _ _).mpr
      (boardsOK_of_consistent hc)) hc.2.2.2.2.2.1 (by simp) ?_
    show p.hash ^^^ en_passant_key (sqFile e) ^^^ side_to_move_key = _
    simp only [Position.compute_hash, pieceHash_boards]
    show _ =
      p.pieceHash ^^^ sideHash p.side_to_move.flip ^^^
        castling_key p.castling ^^^ epHash none
    rw [h8, Position.compute_hash, sideHash_flip, hep]
    simp only [epHash, side_to_move_key]
    simp [Nat.xor_comm, Nat.xor_assoc, nat_xor_left_comm, Nat.xor_self,
      nat_xor_cancel_left, Nat.xor_zero, Nat.zero_xor]

/-- `unmake_null_move` of a `make_null_move` restores the position. -/
theorem null_move_roundtrip (p : Position) :
    ((p.make_null_move).1.unmake_null_move (p.make_null_move).2.1
      (p.make_null_move).2.2) = p := by
  cases hep : p.en_passant with
  | none =>
    simp only [Position.make_null_move, Position.unmake_null_move, hep]
    exact Position.ext_fields rfl rfl rfl rfl rfl (Color.flip_flip _) rfl
      hep.symm rfl rfl rfl
  | some e =>
    simp only [Position.make_null_move, Position.unmake_null_move, hep]
    exact Position.ext_fields rfl rfl rfl rfl rfl (Color.flip_flip _) rfl
      hep.symm rfl rfl rfl

theorem boards_occ_false_pieces {p : Position} (hb : BoardsOK p) {c : Color}
    {i : Nat} (h : (p.occupied_by c).testBit i = false) (pt : PieceType) :
    (p.pieces c pt).testBit i = false := by
  by_contra hx
  have hx' : (p.pieces c pt).testBit i = true := by simpa using hx
  rw [boards_pieces_le_occ hb c pt hx'] at h
  exact Bool.noConfusion h

/-- A move accepted past the early-failure paths of `make_move` (on a
consistent position, with a flag-consistent move) yields a position that
again satisfies the state invariants. -/
theorem makeMoveAux_sane_consistent {p : Position} (hc : Consistent p) {m : Nat}
    (hs : SaneMove p m) {q : Position} {u : UndoInfo}
    (hq : p.makeMoveAux m = Sum.inr (q, u)) : Consistent q := by
  obtain ⟨hft, hmovS, hdest, hpromS, hepS, hcsS⟩ := hs
  obtain ⟨mover, hmov⟩ := Option.isSome_iff_exists.mp hmovS
  have hpoF := moverOf_piece_on hmov
  have hf64 := Move.fromSq_lt m
  have ht64 := Move.toSq_lt m
  have hb0 : BoardsOK p := boardsOK_of_consistent hc
  have h6 := hc.2.2.2.2.2.1
  have h8 := hc.2.2.2.2.2.2.2
  have hOus_t : (p.occupied_by p.side_to_move).testBit (Move.toSq m) = false :=
    (land_sqBB_eq_zero ht64).mp hdest
  have hUs_t : ∀ pt, (p.pieces p.side_to_move pt).testBit (Move.toSq m) = false :=
    boards_occ_false_pieces hb0 hOus_t
  have hbitF : (p.pieces p.side_to_move mover).testBit (Move.fromSq m) = true :=
    piece_on_some_testBit hf64 hpoF
  by_cases hEP : Move.isEnPassant m = true
  · obtain ⟨hepSq, hmovP, hpoT, hpoC⟩ := hepS hEP
    have hmovPawn : mover = PieceType.Pawn := by
      rw [hmov] at hmovP
      exact Option.some.inj hmovP
    subst hmovPawn
    have hc64 : epCapSq p.side_to_move (Move.toSq m) < 64 := by
      by_contra hge
      rw [piece_on_ge64 (Nat.le_of_not_lt hge)] at hpoC
      exact Option.noConfusion hpoC
    have hfl := Move.ep_flags hEP
    have hPf : Move.isPromotion m = false := Move.isPromotion_eq_false (by omega)
    have hCSf : Move.isCastling m = false := Move.isCastling_eq_false (by omega)
    have hpr : Move.promotionPiece m = none := Move.promotionPiece_eq_none hPf
    have hcapT : (p.pieces p.side_to_move.flip PieceType.Pawn).testBit
        (epCapSq p.side_to_move (Move.toSq m)) = true :=
      piece_on_some_testBit hc64 hpoC
    have hAllPt : ∀ c pt, (p.pieces c pt).testBit (Move.toSq m) = false :=
      piece_on_none_testBit hc ht64 hpoT
    have hAll_t : p.occupied_all.testBit (Move.toSq m) = false := by
      rw [hb0.2.1, Nat.testBit_or,
        boards_occ_bit_false hb0 (hAllPt Color.White),
        boards_occ_bit_false hb0 (hAllPt Color.Black)]
      rfl
    simp only [Position.makeMoveAux, hpoF, piece_on_boards, hpoT,
      Position.makeMoveTail, hEP, hCSf, hpr, Position.makeMoveFinish,
      fullmove_ite, eq_self_iff_true, if_true, if_false,
      Bool.false_eq_true] at hq
    rw [Sum.inr.injEq, Prod.mk.injEq] at hq
    obtain ⟨hq1, -⟩ := hq
    subst hq1
    refine consistent_mk ?_ ?_ ?_ ?_
    · refine (boardsOK_boards _ _ _ _ _ _ _).mpr ?_
      refine (boardsOK_update_castling _ _ _).mpr ?_
      refine (boardsOK_boards _ _ _ _ _ _ _).mpr ?_
      refine boardsOK_add ?_ ht64 ?_
      · refine (boardsOK_boards _ _ _ _ _ _ _).mpr ?_
        refine boardsOK_remove ?_ hf64 ?_
        · refine (boardsOK_boards _ _ _ _ _ _ _).mpr ?_
          refine boardsOK_remove ?_ hc64 ?_
          · exact (boardsOK_boards _ _ _ _ _ _ _).mpr hb0
          · rw [pieces_boards]
            exact hcapT
        · rw [pieces_boards, pieces_remove, pieces_boards]
          rw [if_neg]
          · exact hbitF
          · intro he
            exact Color.ne_flip _ he.1
      · simp only [occupied_all_remove]
        rw [testBit_clear (and_lt_U64 _ (boards_all_lt hb0)) hf64,
          testBit_clear (boards_all_lt hb0) hc64, hAll_t]
        rfl
    · show (Position.update_castling_rights _ _ _).castling < 16
      apply update_castling_lt
      simp only [add_piece_castling, remove_piece_castling]
      exact h6
    · dsimp only
      split_ifs
      · simp only [Option.getD_some]
        omega
      · simp
    · simp only [Position.compute_hash, pieceHash_boards,
        pieceHash_update_castling, remove_piece_hash, add_piece_hash,
        update_castling_hash]
      rw [pieceHash_add _ _ ht64 (by
        simp only [pieces_boards, pieces_remove, eq_self_iff_true, true_and,
          Color.ne_flip p.side_to_move, false_and, if_false, if_true]
        rw [testBit_clear (hb0.2.2.2 _ _) hf64, hUs_t PieceType.Pawn]
        rfl)]
      simp only [pieceHash_boards]
      rw [pieceHash_remove _ _ hf64 (by
          simp only [pieces_boards, pieces_remove,
            Color.ne_flip p.side_to_move, false_and, if_false]
          exact hb0.2.2.2 _ _)
        (by
          simp only [pieces_boards, pieces_remove,
            Color.ne_flip p.side_to_move, false_and, if_false]
          exact hbitF)]
      simp only [pieceHash_boards]
      rw [pieceHash_remove _ _ hc64 (by
          simp only [pieces_boards]
          exact hb0.2.2.2 _ _)
        (by
          simp only [pieces_boards]
          exact hcapT)]
      simp only [pieceHash_boards]
      rw [h8]
      simp only [Position.compute_hash]
      rw [sideHash_flip]
      simp only [update_castling_castling, remove_piece_castling,
        add_piece_castling, side_to_move_key]
      simp [Nat.xor_comm, Nat.xor_assoc, nat_xor_left_comm, Nat.xor_self,
        nat_xor_cancel_left, Nat.xor_zero, Nat.zero_xor]
  · by_cases hCS : Move.isCastling m = true
    · obtain ⟨hf4, hrkS, hpoR, hrtE, hpoT⟩ := hcsS hCS
      obtain ⟨rfrt, hrk⟩ := Option.isSome_iff_exists.mp hrkS
      obtain ⟨rf, rt⟩ := rfrt
      have hpoR1 : p.piece_on rf = some (p.side_to_move, PieceType.Rook) := by
        rw [hrk] at hpoR
        simpa using hpoR
      have hrtE1 : p.occupied_all.testBit rt = false := by
        rw [hrk] at hrtE
        simp only [Option.getD_some] at hrtE
        have h2 : rt < 64 ∨ 64 ≤ rt := Nat.lt_or_ge rt 64
        rcases h2 with h2 | h2
        · exact (land_sqBB_eq_zero h2).mp hrtE
        · exact testBit_ge_64 (occ_all_lt hc) h2
      have htv : Move.toSq m = 6 ∨ Move.toSq m = 2 ∨ Move.toSq m = 62 ∨
          Move.toSq m = 58 := by
        by_contra hno
        push_neg at hno
        obtain ⟨h6v, h2v, h62, h58⟩ := hno
        rw [castleRookSquares, if_neg h6v, if_neg h2v, if_neg h62,
          if_neg h58] at hrk
        exact Option.noConfusion hrk
      have hnum : rf < 64 ∧ rt < 64 ∧ Move.fromSq m ≠ Move.toSq m ∧
          Move.fromSq m ≠ rf ∧ Move.fromSq m ≠ rt ∧ Move.toSq m ≠ rf ∧
          Move.toSq m ≠ rt ∧ rf ≠ rt := by
        rcases htv with h | h | h | h <;>
          rw [h] at hrk hf4 <;>
          simp only [castleRookSquares] at hrk <;>
          norm_num at hrk hf4 <;>
          omega
      obtain ⟨n1, n2, n3, n4, n5, n6, n7, n8⟩ := hnum
      have hfl := Move.castle_flags hCS
      have hPf : Move.isPromotion m = false := Move.isPromotion_eq_false (by omega)
      have hpr : Move.promotionPiece m = none := Move.promotionPiece_eq_none hPf
      have hEPf : Move.isEnPassant m = false := Bool.eq_false_iff.mpr hEP
      have hrfT : (p.pieces p.side_to_move PieceType.Rook).testBit rf = true :=
        piece_on_some_testBit n1 hpoR1
      have hrtPt : ∀ c pt, (p.pieces c pt).testBit rt = false :=
        boards_all_bit_false hb0 hrtE1
      have hAllPt : ∀ c pt, (p.pieces c pt).testBit (Move.toSq m) = false :=
        piece_on_none_testBit hc ht64 hpoT
      have hAll_t : p.occupied_all.testBit (Move.toSq m) = false := by
        rw [hb0.2.1, Nat.testBit_or,
          boards_occ_bit_false hb0 (hAllPt Color.White),
          boards_occ_bit_false hb0 (hAllPt Color.Black)]
        rfl
      simp only [Position.makeMoveAux, hpoF, piece_on_boards, hpoT,
        Position.makeMoveTail, hEPf, hCS, hrk, Position.move_piece, hpr,
        Position.makeMoveFinish, fullmove_ite, eq_self_iff_true, if_true,
        if_false, Bool.false_eq_true] at hq
      rw [Sum.inr.injEq, Prod.mk.injEq] at hq
      obtain ⟨hq1, -⟩ := hq
      subst hq1
      refine consistent_mk ?_ ?_ ?_ ?_
      · refine (boardsOK_boards _ _ _ _ _ _ _).mpr ?_
        refine (boardsOK_update_castling _ _ _).mpr ?_
        refine (boardsOK_boards _ _ _ _ _ _ _).mpr ?_
        refine boardsOK_add ?_ ht64 ?_
        · refine (boardsOK_boards _ _ _ _ _ _ _).mpr ?_
          refine boardsOK_remove ?_ hf64 ?_
          · refine (boardsOK_boards _ _ _ _ _ _ _).mpr ?_
            refine boardsOK_add ?_ n2 ?_
            · refine boardsOK_remove ?_ n1 ?_
              · exact (boardsOK_boards _ _ _ _ _ _ _).mpr hb0
              · rw [pieces_boards]
                exact hrfT
            · simp only [occupied_all_remove]
              rw [testBit_clear (boards_all_lt hb0) n1, hrtE1]
              rfl
          · simp only [pieces_boards, pieces_add, pieces_remove,
              eq_self_iff_true, true_and, if_true]
            split_ifs with hmR
            · subst hmR
              rw [Nat.testBit_or, testBit_clear (hb0.2.2.2 _ _) n1, hbitF]
              simp [Ne.symm n4]
            · exact hbitF
        · simp only [occupied_all_remove, occupied_all_add]
          rw [testBit_clear (or_sqBB_lt rt (and_lt_U64 _ (boards_all_lt hb0)))
              hf64,
            Nat.testBit_or, testBit_clear (boards_all_lt hb0) n1,
            testBit_sqBB n2, hAll_t]
          simp [Ne.symm n7]
      · show (Position.update_castling_rights _ _ _).castling < 16
        apply update_castling_lt
        simp only [add_piece_castling, remove_piece_castling]
        exact h6
      · dsimp only
        split_ifs
        · simp only [Option.getD_some]
          omega
        · simp
      · simp only [Position.compute_hash, pieceHash_boards,
          pieceHash_update_castling, remove_piece_hash, add_piece_hash,
          update_castling_hash]
        rw [pieceHash_add _ _ ht64 (by
          simp only [pieces_boards, pieces_remove, pieces_add,
            eq_self_iff_true, true_and, if_true]
          split_ifs with hmR
          · subst hmR
            rw [testBit_clear (or_sqBB_lt rt (and_lt_U64 _ (hb0.2.2.2 _ _)))
                hf64,
              Nat.testBit_or, testBit_clear (hb0.2.2.2 _ _) n1,
              testBit_sqBB n2, hUs_t PieceType.Rook]
            simp [Ne.symm n7]
          · rw [testBit_clear (hb0.2.2.2 _ _) hf64, hUs_t mover]
            rfl)]
        simp only [pieceHash_boards]
        rw [pieceHash_remove _ _ hf64 (by
            simp only [pieces_boards, pieces_add, pieces_remove,
              eq_self_iff_true, true_and, if_true]
            split_ifs with hmR
            · exact or_sqBB_lt rt (and_lt_U64 _ (hb0.2.2.2 _ _))
            · exact hb0.2.2.2 _ _)
          (by
            simp only [pieces_boards, pieces_add, pieces_remove,
              eq_self_iff_true, true_and, if_true]
            split_ifs with hmR
            · subst hmR
              rw [Nat.testBit_or, testBit_clear (hb0.2.2.2 _ _) n1, hbitF]
              simp [Ne.symm n4]
            · exact hbitF)]
        simp only [pieceHash_boards]
        rw [pieceHash_add _ _ n2 (by
            simp only [pieces_boards, pieces_remove, eq_self_iff_true,
              true_and, if_true]
            rw [testBit_clear (hb0.2.2.2 _ _) n1,
              hrtPt p.side_to_move PieceType.Rook]
            rfl)]
        rw [pieceHash_remove _ _ n1 (by
            simp only [pieces_boards]
            exact hb0.2.2.2 _ _)
          (by
            simp only [pieces_boards]
            exact hrfT)]
        simp only [pieceHash_boards]
        rw [h8]
        simp only [Position.compute_hash]
        rw [sideHash_flip]
        simp only [update_castling_castling, remove_piece_castling,
          add_piece_castling, side_to_move_key]
        simp [Nat.xor_comm, Nat.xor_assoc, nat_xor_left_comm, Nat.xor_self,
          nat_xor_cancel_left, Nat.xor_zero, Nat.zero_xor]
    · have hEPf : Move.isEnPassant m = false := Bool.eq_false_iff.mpr hEP
      have hCSf : Move.isCastling m = false := Bool.eq_false_iff.mpr hCS
      cases hcapo : p.piece_on (Move.toSq m) with
      | some cap =>
        obtain ⟨c0, capP⟩ := cap
        have hc0 : c0 = p.side_to_move.flip := by
          apply Color.eq_flip_of_ne
          intro he
          subst he
          have hbad := piece_on_some_testBit ht64 hcapo
          rw [hUs_t capP] at hbad
          exact Bool.noConfusion hbad
        subst hc0
        have hcapT : (p.pieces p.side_to_move.flip capP).testBit (Move.toSq m) =
            true := piece_on_some_testBit ht64 hcapo
        simp only [Position.makeMoveAux, hpoF, piece_on_boards, hcapo,
          Position.makeMoveTail, hEPf, hCSf, Position.makeMoveFinish,
          fullmove_ite, eq_self_iff_true, if_true, if_false,
          Bool.false_eq_true] at hq
        rw [Sum.inr.injEq, Prod.mk.injEq] at hq
        obtain ⟨hq1, -⟩ := hq
        subst hq1
        refine consistent_mk ?_ ?_ ?_ ?_
        · refine (boardsOK_boards _ _ _ _ _ _ _).mpr ?_
          refine (boardsOK_update_castling _ _ _).mpr ?_
          refine (boardsOK_boards _ _ _ _ _ _ _).mpr ?_
          refine boardsOK_add ?_ ht64 ?_
          · refine (boardsOK_boards _ _ _ _ _ _ _).mpr ?_
            refine boardsOK_remove ?_ hf64 ?_
            · refine (boardsOK_boards _ _ _ _ _ _ _).mpr ?_
              refine boardsOK_remove ?_ ht64 ?_
              · exact (boardsOK_boards _ _ _ _ _ _ _).mpr hb0
              · rw [pieces_boards]
                exact hcapT
            · rw [pieces_boards, pieces_remove, pieces_boards]
              rw [if_neg]
              · exact hbitF
              · intro he
                exact Color.ne_flip _ he.1
          · simp only [occupied_all_remove]
            rw [testBit_clear (and_lt_U64 _ (boards_all_lt hb0)) hf64,
              testBit_clear (boards_all_lt hb0) ht64]
            simp
        · show (Position.update_castling_rights _ _ _).castling < 16
          apply update_castling_lt
          simp only [add_piece_castling, remove_piece_castling]
          exact h6
        · dsimp only
          split_ifs
          · simp only [Option.getD_some]
            omega
          · simp
        · simp only [Position.compute_hash, pieceHash_boards,
            pieceHash_update_castling, remove_piece_hash, add_piece_hash,
            update_castling_hash]
          rw [pieceHash_add _ _ ht64 (by
            simp only [pieces_boards, pieces_remove, eq_self_iff_true, true_and,
              Color.ne_flip p.side_to_move, false_and, if_false]
            split_ifs with hpm
            · rw [testBit_clear (hb0.2.2.2 _ _) hf64, hUs_t mover]
              rfl
            · exact hUs_t _)]
          simp only [pieceHash_boards]
          rw [pieceHash_remove _ _ hf64 (by
              simp only [pieces_boards, pieces_remove,
                Color.ne_flip p.side_to_move, false_and, if_false]
              exact hb0.2.2.2 _ _)
            (by
              simp only [pieces_boards, pieces_remove,
                Color.ne_flip p.side_to_move, false_and, if_false]
              exact hbitF)]
          simp only [pieceHash_boards]
          rw [pieceHash_remove _ _ ht64 (by
              simp only [pieces_boards]
              exact hb0.2.2.2 _ _)
            (by
              simp only [pieces_boards]
              exact hcapT)]
          simp only [pieceHash_boards]
          rw [h8]
          simp only [Position.compute_hash]
          rw [sideHash_flip]
          simp only [update_castling_castling, remove_piece_castling,
            add_piece_castling, side_to_move_key]
          simp [Nat.xor_comm, Nat.xor_assoc, nat_xor_left_comm, Nat.xor_self,
            nat_xor_cancel_left, Nat.xor_zero, Nat.zero_xor]
      | none =>
        have hAllPt : ∀ c pt, (p.pieces c pt).testBit (Move.toSq m) = false :=
          piece_on_none_testBit hc ht64 hcapo
        have hAll_t : p.occupied_all.testBit (Move.toSq m) = false := by
          rw [hb0.2.1, Nat.testBit_or,
            boards_occ_bit_false hb0 (hAllPt Color.White),
            boards_occ_bit_false hb0 (hAllPt Color.Black)]
          rfl
        simp only [Position.makeMoveAux, hpoF, piece_on_boards, hcapo,
          Position.makeMoveTail, hEPf, hCSf, Position.makeMoveFinish,
          fullmove_ite, eq_self_iff_true, if_true, if_false,
          Bool.false_eq_true] at hq
        rw [Sum.inr.injEq, Prod.mk.injEq] at hq
        obtain ⟨hq1, -⟩ := hq
        subst hq1
        refine consistent_mk ?_ ?_ ?_ ?_
        · refine (boardsOK_boards _ _ _ _ _ _ _).mpr ?_
          refine (boardsOK_update_castling _ _ _).mpr ?_
          refine (boardsOK_boards _ _ _ _ _ _ _).mpr ?_
          refine boardsOK_add ?_ ht64 ?_
          · refine (boardsOK_boards _ _ _ _ _ _ _).mpr ?_
            refine boardsOK_remove ?_ hf64 ?_
            · exact (boardsOK_boards _ _ _ _ _ _ _).mpr hb0
            · rw [pieces_boards]
              exact hbitF
          · simp only [occupied_all_remove]
            rw [testBit_clear (boards_all_lt hb0) hf64, hAll_t]
            rfl
        · show (Position.update_castling_rights _ _ _).castling < 16
          apply update_castling_lt
          simp only [add_piece_castling, remove_piece_castling]
          exact h6
        · dsimp only
          split_ifs
          · simp only [Option.getD_some]
            omega
          · simp
        · simp only [Position.compute_hash, pieceHash_boards,
            pieceHash_update_castling, remove_piece_hash, add_piece_hash,
            update_castling_hash]
          rw [pieceHash_add _ _ ht64 (by
            simp only [pieces_boards, pieces_remove, eq_self_iff_true, true_and]
            split_ifs with hpm
            · rw [testBit_clear (hb0.2.2.2 _ _) hf64, hUs_t mover]
              rfl
            · exact hUs_t _)]
          simp only [pieceHash_boards]
          rw [pieceHash_remove _ _ hf64 (by
              simp only [pieces_boards]
              exact hb0.2.2.2 _ _)
            (by
              simp only [pieces_boards]
              exact hbitF)]
          simp only [pieceHash_boards]
          rw [h8]
          simp only [Position.compute_hash]
          rw [sideHash_flip]
          simp only [update_castling_castling, remove_piece_castling,
            add_piece_castling, side_to_move_key]
          simp [Nat.xor_comm, Nat.xor_assoc, nat_xor_left_comm, Nat.xor_self,
            nat_xor_cancel_left, Nat.xor_zero, Nat.zero_xor]

theorem or_lt_16 {a b : Nat} (ha : a < 16) (hb : b < 16) : a ||| b < 16 := by
  have h := Nat.or_lt_two_pow (show a < 2 ^ 4 from ha) (show b < 2 ^ 4 from hb)
  simpa using h

theorem parseCastlingField_lt (cs : List Char) : ∀ acc : Nat, acc < 16 →
    ∀ {r : Nat}, parseCastlingField cs acc = Except.ok r → r < 16 := by
  induction cs with
  | nil =>
    intro acc ha r h
    simp only [parseCastlingField] at h
    rw [Except.ok.injEq] at h
    omega
  | cons c rest ih =>
    intro acc ha r h
    simp only [parseCastlingField] at h
    split_ifs at h <;>
      exact ih _ (or_lt_16 ha (by decide)) h

theorem fromAlgebraic_some_lt {s : String} {v : Nat}
    (h : fromAlgebraic s = some v) : v < 64 := by
  unfold fromAlgebraic at h
  cases hcs : s.toList with
  | nil =>
    rw [hcs] at h
    exact Option.noConfusion h
  | cons c1 l1 =>
    cases l1 with
    | nil =>
      rw [hcs] at h
      exact Option.noConfusion h
    | cons c2 l2 =>
      cases l2 with
      | nil =>
        rw [hcs] at h
        have h2 : (if (c1.toNat % 256 + 256 - 97) % 256 < 8 ∧
            (c2.toNat % 256 + 256 - 49) % 256 < 8
            then some (fromFileRank ((c1.toNat % 256 + 256 - 97) % 256)
              ((c2.toNat % 256 + 256 - 49) % 256))
            else none) = some v := h
        split_ifs at h2 with hfr
        rw [Option.some.injEq] at h2
        subst h2
        unfold fromFileRank
        omega
      | cons c3 l3 =>
        rw [hcs] at h
        exact Option.noConfusion h

theorem parsePlacement_boardsOK (cs : List Char) :
    ∀ (rank file : Nat) (pos q : Position), BoardsOK pos → rank ≤ 7 →
    (∀ i, i < 64 → pos.occupied_all.testBit i = true →
        rank < i / 8 ∨ (i / 8 = rank ∧ i % 8 < file)) →
    parsePlacement cs rank file pos = Except.ok q → BoardsOK q := by
  induction cs with
  | nil =>
    intro rank file pos q hb _ _ hp
    simp only [parsePlacement] at hp
    rw [Except.ok.injEq] at hp
    exact hp ▸ hb
  | cons ch rest ih =>
    intro rank file pos q hb hr hconf hp
    simp only [parsePlacement] at hp
    by_cases h1 : ch = '/'
    · rw [if_pos h1] at hp
      by_cases h0 : rank = 0
      · rw [if_pos h0] at hp
        exact Except.noConfusion hp
      · rw [if_neg h0] at hp
        refine ih (rank - 1) 0 pos q hb (by omega) (fun i hi hbit => ?_) hp
        rcases hconf i hi hbit with h | h
        · exact Or.inl (by omega)
        · exact Or.inl (by omega)
    · rw [if_neg h1] at hp
      by_cases h2 : '1' ≤ ch ∧ ch ≤ '8'
      · rw [if_pos h2] at hp
        refine ih rank (file + (ch.toNat - 48)) pos q hb hr
          (fun i hi hbit => ?_) hp
        rcases hconf i hi hbit with h | h
        · exact Or.inl h
        · exact Or.inr ⟨h.1, by omega⟩
      · rw [if_neg h2] at hp
        by_cases h3 : file ≥ 8
        · rw [if_pos h3] at hp
          exact Except.noConfusion hp
        · rw [if_neg h3] at hp
          cases hcp : charPiece ch with
          | none =>
            rw [hcp] at hp
            exact Except.noConfusion hp
          | some piece =>
            rw [hcp] at hp
            have hsq : fromFileRank file rank < 64 := by
              unfold fromFileRank
              omega
            have hemp : pos.occupied_all.testBit (fromFileRank file rank) =
                false := by
              by_contra hx
              have hx2 : pos.occupied_all.testBit (fromFileRank file rank) =
                  true := by simpa using hx
              have hd := hconf _ hsq hx2
              unfold fromFileRank at hd
              rcases hd with h | h <;> omega
            refine ih rank (file + 1) _ q (boardsOK_add hb hsq hemp) hr
              (fun i hi hbit => ?_) hp
            rw [occupied_all_add, Nat.testBit_or, Bool.or_eq_true] at hbit
            rcases hbit with hb1 | hb2
            · rcases hconf i hi hb1 with h | h
              · exact Or.inl h
              · exact Or.inr ⟨h.1, by omega⟩
            · rw [testBit_sqBB hsq] at hb2
              have he : fromFileRank file rank = i := of_decide_eq_true hb2
              unfold fromFileRank at he
              exact Or.inr ⟨by omega, by omega⟩

theorem empty_boardsOK : BoardsOK Position.emptyPos := by decide

theorem from_fen_consistent {fen : String} {p : Position}
    (h : Position.from_fen fen = Except.ok p) : Consistent p := by
  simp only [Position.from_fen] at h
  by_cases hlen : (fenFields fen).length < 4
  · rw [if_pos hlen] at h
    exact Except.noConfusion h
  · rw [if_neg hlen] at h
    cases hpp : parsePlacement ((fenFields fen).getD 0 "").toList 7 0
        Position.emptyPos with
    | error e =>
      rw [hpp] at h
      exact Except.noConfusion h
    | ok pos0 =>
      rw [hpp] at h
      dsimp only at h
      have hb0 : BoardsOK pos0 :=
        parsePlacement_boardsOK _ 7 0 _ _ empty_boardsOK (by omega)
          (fun i _ hbit => by
            rw [show Position.emptyPos.occupied_all = 0 from rfl,
              Nat.zero_testBit] at hbit
            exact Bool.noConfusion hbit) hpp
      by_cases hside : (fenFields fen).getD 1 "" = "w" ∨
          (fenFields fen).getD 1 "" = "b"
      · rw [if_pos hside] at h
        cases hcr : (if (fenFields fen).getD 2 "" = "-" then Except.ok 0
            else parseCastlingField ((fenFields fen).getD 2 "").toList 0) with
        | error e =>
          rw [hcr] at h
          exact Except.noConfusion h
        | ok cr =>
          rw [hcr] at h
          dsimp only at h
          have hcr16 : cr < 16 := by
            by_cases hdash : (fenFields fen).getD 2 "" = "-"
            · rw [if_pos hdash, Except.ok.injEq] at hcr
              omega
            · rw [if_neg hdash] at hcr
              exact parseCastlingField_lt _ 0 (by omega) hcr
          rw [Except.ok.injEq] at h
          subst h
          refine consistent_mk ?_ ?_ ?_ ?_
          · simp only [boardsOK_boards]
            exact hb0
          · exact hcr16
          · show (if (fenFields fen).getD 3 "" = "-" then none
                else fromAlgebraic ((fenFields fen).getD 3 "")).getD 0 < 64
            split_ifs
            · simp
            · cases hfa : fromAlgebraic ((fenFields fen).getD 3 "") with
              | none => simp
              | some v =>
                simp only [Option.getD_some]
                exact fromAlgebraic_some_lt hfa
          · rfl
      · rw [if_neg hside] at h
        exact Except.noConfusion h

theorem make_move_sane_consistent {p : Position} {m : Nat} (hc : Consistent p)
    (hs : SaneMove p m) : Consistent (p.make_move m).1 := by
  obtain ⟨q, u, hmk, hun⟩ := makeMoveAux_sane_spec hc hs
  unfold Position.make_move
  rw [hmk]
  dsimp only
  split_ifs
  · rw [hun]
    exact hc
  · exact makeMoveAux_sane_consistent hc hs hmk

theorem make_move_some_unmake {p : Position} {m : Nat} (hc : Consistent p)
    (hs : SaneMove p m) {u : UndoInfo} (hsome : (p.make_move m).2 = some u) :
    ((p.make_move m).1).unmake_move m u = p := by
  obtain ⟨q, u0, hmk, hun⟩ := makeMoveAux_sane_spec hc hs
  unfold Position.make_move at hsome ⊢
  rw [hmk] at hsome ⊢
  dsimp only at hsome ⊢
  split_ifs at hsome ⊢ with hchk
  have hsome2 : some u0 = some u := hsome
  rw [Option.some.injEq] at hsome2
  subst hsome2
  exact hun

theorem decDigits_lt {n : Nat} (h : n < 10) :
    decDigits n = [Nat.digitChar n] := by
  rw [decDigits, dif_pos h]

theorem decDigits_ge {n : Nat} (h : ¬n < 10) :
    decDigits n = decDigits (n / 10) ++ [Nat.digitChar (n % 10)] := by
  conv =>
    lhs
    rw [decDigits]
  rw [dif_neg h]

theorem digitChar_toNat {m : Nat} (h : m < 10) :
    (Nat.digitChar m).toNat = 48 + m := by
  interval_cases m <;> decide

theorem digitChar_isDigit {m : Nat} (h : m < 10) :
    (Nat.digitChar m).isDigit = true := by
  interval_cases m <;> decide

theorem toDigitsCore_eq :
    ∀ (f n : Nat) (ds : List Char), n < f →
      Nat.toDigitsCore 10 f n ds = decDigits n ++ ds := by
  intro f
  induction f with
  | zero => omega
  | succ f ih =>
    intro n ds hn
    rw [Nat.toDigitsCore]
    by_cases h0 : n / 10 = 0
    · have h10 : n < 10 := by omega
      rw [if_pos h0, decDigits_lt h10]
      have hmod : n % 10 = n := Nat.mod_eq_of_lt h10
      rw [hmod]
      rfl
    · have h10 : ¬n < 10 := by omega
      rw [if_neg h0, ih (n / 10) _ (by omega), decDigits_ge h10]
      simp

theorem toString_nat_data (n : Nat) : (toString n).data = decDigits n := by
  show (Nat.repr n).data = decDigits n
  rw [Nat.repr, Nat.toDigits, toDigitsCore_eq (n + 1) n [] (by omega)]
  simp [List.asString]

theorem decDigits_ne_nil (n : Nat) : decDigits n ≠ [] := by
  by_cases h : n < 10
  · rw [decDigits_lt h]
    simp
  · rw [decDigits_ge h]
    simp

theorem decDigits_isDigit (n : Nat) :
    ∀ c ∈ decDigits n, c.isDigit = true := by
  induction n using Nat.strong_induction_on with
  | _ n ih =>
    by_cases h : n < 10
    · rw [decDigits_lt h]
      intro c hc
      rw [List.mem_singleton] at hc
      subst hc
      exact digitChar_isDigit h
    · rw [decDigits_ge h]
      intro c hc
      rw [List.mem_append] at hc
      rcases hc with hc | hc
      · exact ih (n / 10) (Nat.div_lt_self (by omega) (by omega)) c hc
      · rw [List.mem_singleton] at hc
        subst hc
        exact digitChar_isDigit (Nat.mod_lt _ (by omega))

theorem decDigits_foldl (n : Nat) :
    ∀ a : Nat, (decDigits n).foldl (fun a c => a * 10 + (c.toNat - 48)) a =
      a * 10 ^ (decDigits n).length + n := by
  induction n using Nat.strong_induction_on with
  | _ n ih =>
    intro a
    by_cases h : n < 10
    · rw [decDigits_lt h]
      simp [digitChar_toNat h]
    · rw [decDigits_ge h]
      rw [List.foldl_append, ih (n / 10) (Nat.div_lt_self (by omega) (by omega)) a]
      have hm : n % 10 < 10 := Nat.mod_lt _ (by omega)
      simp only [List.foldl_cons, List.foldl_nil, List.length_append,
        List.length_singleton, digitChar_toNat hm]
      have hd := Nat.div_add_mod n 10
      have hp : 10 ^ ((decDigits (n / 10)).length + 1) =
          10 ^ (decDigits (n / 10)).length * 10 := pow_succ 10 _
      rw [hp]
      ring_nf
      omega

theorem stripPlus_cons {c : Char} (rest : List Char) (h : c ≠ '+') :
    stripPlus (c :: rest) = c :: rest := by
  unfold stripPlus
  split
  · rename_i heq
    rw [List.cons.injEq] at heq
    exact absurd heq.1 h
  · rfl

theorem parseUInt_eq (maxVal : Nat) (s : String) :
    parseUInt maxVal s =
      (let cs := stripPlus s.toList
       if cs.isEmpty then none
       else if cs.all Char.isDigit then
         let v := cs.foldl (fun a c => a * 10 + (c.toNat - 48)) 0
         if v ≤ maxVal then some v else none
       else none) := rfl

theorem parseUInt_toString {maxVal n : Nat} (h : n ≤ maxVal) :
    parseUInt maxVal (toString n) = some n := by
  rw [parseUInt_eq]
  have hdata : (toString n).toList = decDigits n := toString_nat_data n
  rw [hdata]
  dsimp only
  cases hd : decDigits n with
  | nil => exact absurd hd (decDigits_ne_nil n)
  | cons c rest =>
    have hcd : c.isDigit = true := by
      have := decDigits_isDigit n
      rw [hd] at this
      exact this c (by simp)
    have hplus : c ≠ '+' := by
      intro he
      subst he
      exact Bool.noConfusion hcd
    have hall : (c :: rest).all Char.isDigit = true := by
      rw [List.all_eq_true]
      intro x hx
      have := decDigits_isDigit n
      rw [hd] at this
      exact this x hx
    have hval : (c :: rest).foldl (fun a c => a * 10 + (c.toNat - 48)) 0 = n := by
      rw [← hd, decDigits_foldl]
      simp
    rw [stripPlus_cons rest hplus]
    rw [if_neg (by simp), if_pos hall, hval, if_pos h]

-- ===========================================================================
-- Whitespace split of a rendered FEN
-- ===========================================================================

theorem splitWsAux_nonws :
    ∀ (l l2 acc : List Char), (∀ c ∈ l, c.isWhitespace = false) →
      splitWsAux (l ++ l2) acc = splitWsAux l2 (l.reverse ++ acc) := by
  intro l
  induction l with
  | nil =>
    intro l2 acc _
    simp
  | cons c rest ih =>
    intro l2 acc hws
    rw [List.cons_append, splitWsAux, hws c (by simp), ih l2 (c :: acc)
      (fun x hx => hws x (by simp [hx]))]
    simp

theorem splitWsAux_space (l2 : List Char) (acc : List Char) (h : acc ≠ []) :
    splitWsAux (' ' :: l2) acc = String.mk acc.reverse :: splitWsAux l2 [] := by
  rw [splitWsAux]
  rw [show (' '.isWhitespace) = true from rfl]
  rw [if_pos rfl, if_neg (by simpa using h)]

theorem splitWsAux_final (acc : List Char) (h : acc ≠ []) :
    splitWsAux [] acc = [String.mk acc.reverse] := by
  rw [splitWsAux, if_neg (by simpa using h)]

/-- A whitespace-free nonempty chunk followed by a space is split off as one
field. -/
theorem splitWs_field (l l2 : List Char) (hne : l ≠ [])
    (hws : ∀ c ∈ l, c.isWhitespace = false) :
    splitWsAux (l ++ ' ' :: l2) [] = String.mk l :: splitWsAux l2 [] := by
  rw [splitWsAux_nonws l (' ' :: l2) [] hws]
  rw [splitWsAux_space l2 (l.reverse ++ []) (by simpa using hne)]
  simp

/-- The last whitespace-free nonempty chunk. -/
theorem splitWs_last (l : List Char) (hne : l ≠ [])
    (hws : ∀ c ∈ l, c.isWhitespace = false) :
    splitWsAux l [] = [String.mk l] := by
  have h := splitWsAux_nonws l [] [] hws
  rw [List.append_nil] at h
  rw [h, splitWsAux_final (l.reverse ++ []) (by simpa using hne)]
  simp

/-- `fenFields` of six space-joined, whitespace-free, nonempty fields. -/
theorem fenFields_six (f1 f2 f3 f4 f5 f6 : String)
    (h1 : f1.data ≠ [] ∧ ∀ c ∈ f1.data, c.isWhitespace = false)
    (h2 : f2.data ≠ [] ∧ ∀ c ∈ f2.data, c.isWhitespace = false)
    (h3 : f3.data ≠ [] ∧ ∀ c ∈ f3.data, c.isWhitespace = false)
    (h4 : f4.data ≠ [] ∧ ∀ c ∈ f4.data, c.isWhitespace = false)
    (h5 : f5.data ≠ [] ∧ ∀ c ∈ f5.data, c.isWhitespace = false)
    (h6 : f6.data ≠ [] ∧ ∀ c ∈ f6.data, c.isWhitespace = false) :
    fenFields (f1 ++ " " ++ f2 ++ " " ++ f3 ++ " " ++ f4 ++ " " ++ f5 ++ " " ++ f6)
      = [f1, f2, f3, f4, f5, f6] := by
  unfold fenFields
  have hdata : (f1 ++ " " ++ f2 ++ " " ++ f3 ++ " " ++ f4 ++ " " ++ f5 ++ " "
        ++ f6).toList
      = f1.data ++ ' ' :: (f2.data ++ ' ' :: (f3.data ++ ' ' :: (f4.data ++
        ' ' :: (f5.data ++ ' ' :: f6.data)))) := by
    show (f1 ++ " " ++ f2 ++ " " ++ f3 ++ " " ++ f4 ++ " " ++ f5 ++ " "
        ++ f6).data = _
    simp [String.data_append]
  rw [hdata]
  rw [splitWs_field _ _ h1.1 h1.2, splitWs_field _ _ h2.1 h2.2,
    splitWs_field _ _ h3.1 h3.2, splitWs_field _ _ h4.1 h4.2,
    splitWs_field _ _ h5.1 h5.2, splitWs_last _ h6.1 h6.2]

-- ===========================================================================
-- Rank rendering and parsing
-- ===========================================================================

theorem pieceFenChar_facts (c : Color) (pt : PieceType) :
    charPiece (pieceFenChar c pt) = some pt ∧
    (if (pieceFenChar c pt).isUpper = true then Color.White else Color.Black)
      = c ∧
    pieceFenChar c pt ≠ '/' ∧
    ¬('1' ≤ pieceFenChar c pt ∧ pieceFenChar c pt ≤ '8') ∧
    (pieceFenChar c pt).isWhitespace = false := by
  cases c <;> cases pt <;> decide

theorem flush_parse (k rank file : Nat) (pos : Position) (rest : List Char)
    (hk : k ≤ 8) :
    parsePlacement ((if 0 < k then (toString k).data else []) ++ rest)
        rank file pos
      = parsePlacement rest rank (file + k) pos := by
  interval_cases k <;> rfl

theorem rankFen_data_aux (p : Position) (rank : Nat) :
    ∀ (files : List Nat) (s : String) (k : Nat),
      (let sf := files.foldl
        (fun (acc : String × Nat) file =>
          match p.piece_on (fromFileRank file rank) with
          | some cp =>
            (((acc.1.append (if acc.2 > 0 then toString acc.2 else "")).push
                (pieceFenChar cp.1 cp.2)), 0)
          | none => (acc.1, acc.2 + 1)) (s, k)
       (if sf.2 > 0 then sf.1.append (toString sf.2) else sf.1).data)
      = s.data ++ rankTailChars p rank files k := by
  intro files
  induction files with
  | nil =>
    intro s k
    dsimp only [List.foldl_nil]
    by_cases hk : 0 < k
    · rw [if_pos hk]
      rw [rankTailChars, if_pos hk]
      rfl
    · rw [if_neg hk]
      rw [rankTailChars, if_neg hk]
      simp
  | cons f fs ih =>
    intro s k
    rw [List.foldl_cons]
    cases hpo : p.piece_on (fromFileRank f rank) with
    | some cp =>
      dsimp only
      rw [ih]
      rw [rankTailChars]
      rw [hpo]
      by_cases hk : 0 < k
      · rw [if_pos hk, if_pos hk]
        show s.data ++ (toString k).data ++ [pieceFenChar cp.1 cp.2] ++ _ = _
        simp
      · rw [if_neg hk, if_neg hk]
        show s.data ++ "".data ++ [pieceFenChar cp.1 cp.2] ++ _ = _
        simp
    | none =>
      dsimp only
      rw [ih]
      rw [rankTailChars]
      rw [hpo]

theorem rankFen_data (p : Position) (rank : Nat) :
    (rankFen p rank).data = rankTailChars p rank (List.range 8) 0 := by
  have h := rankFen_data_aux p rank (List.range 8) "" 0
  unfold rankFen
  simpa using h

theorem rank_parse (p : Position) :
    ∀ (n : Nat), n ≤ 8 → ∀ (rank k : Nat) (pos : Position) (rest : List Char),
      k ≤ 8 - n →
      parsePlacement (rankTailChars p rank (List.range' (8 - n) n) k ++ rest)
          rank (8 - n - k) pos
        = parsePlacement rest rank 8
            (List.foldl (addSq p) pos (List.range' (rank * 8 + (8 - n)) n)) := by
  intro n
  induction n with
  | zero =>
    intro _ rank k pos rest hk
    show parsePlacement (rankTailChars p rank [] k ++ rest) rank (8 - 0 - k) pos
      = parsePlacement rest rank 8 (List.foldl (addSq p) pos [])
    rw [rankTailChars, List.foldl_nil, flush_parse k rank (8 - 0 - k) pos rest
      (by omega)]
    rw [show 8 - 0 - k + k = 8 from by omega]
  | succ n ih =>
    intro hn rank k pos rest hk
    rw [List.range'_succ, List.range'_succ, List.foldl_cons]
    rw [rankTailChars]
    cases hpo : p.piece_on (fromFileRank (8 - (n + 1)) rank) with
    | some cp =>
      dsimp only
      obtain ⟨hf1, hf2, hf3, hf4, -⟩ := pieceFenChar_facts cp.1 cp.2
      rw [List.append_assoc, List.cons_append]
      rw [flush_parse k rank (8 - (n + 1) - k) pos _ (by omega)]
      rw [show 8 - (n + 1) - k + k = 8 - (n + 1) from by omega]
      rw [parsePlacement, if_neg hf3, if_neg hf4, if_neg (by omega), hf1]
      dsimp only
      rw [hf2]
      rw [show 8 - (n + 1) + 1 = 8 - n from by omega]
      rw [show addSq p pos (rank * 8 + (8 - (n + 1)))
          = pos.add_piece cp.1 cp.2 (fromFileRank (8 - (n + 1)) rank) from by
        unfold addSq
        rw [show fromFileRank (8 - (n + 1)) rank
          = rank * 8 + (8 - (n + 1)) from rfl] at hpo
        rw [hpo]
        rfl]
      rw [show rank * 8 + (8 - (n + 1)) + 1 = rank * 8 + (8 - n) from by omega]
      exact ih (by omega) rank 0 _ rest (by omega)
    | none =>
      dsimp only
      rw [show 8 - (n + 1) - k = 8 - n - (k + 1) from by omega]
      rw [show addSq p pos (rank * 8 + (8 - (n + 1))) = pos from by
        unfold addSq
        rw [show fromFileRank (8 - (n + 1)) rank
          = rank * 8 + (8 - (n + 1)) from rfl] at hpo
        rw [hpo]]
      rw [show rank * 8 + (8 - (n + 1)) + 1 = rank * 8 + (8 - n) from by omega]
      rw [show 8 - (n + 1) + 1 = 8 - n from by omega]
      exact ih (by omega) rank (k + 1) pos rest (by omega)

-- ===========================================================================
-- Whole-placement rendering and parsing
-- ===========================================================================

theorem range_eight : List.range 8 = List.range' (8 - 8) 8 := by
  rw [List.range_eq_range']

theorem rank_parse_full (p : Position) (rank : Nat) (pos : Position)
    (rest : List Char) :
    parsePlacement (rankTailChars p rank (List.range 8) 0 ++ rest) rank 0 pos
      = parsePlacement rest rank 8
          (List.foldl (addSq p) pos (List.range' (rank * 8) 8)) := by
  have h := rank_parse p 8 (by omega) rank 0 pos rest (by omega)
  rw [range_eight]
  simpa using h

theorem ranks_parse (p : Position) :
    ∀ (r : Nat), ∀ (pos : Position) (rest : List Char),
      parsePlacement (ranksChars p r ++ rest) r 0 pos
        = parsePlacement rest 0 8 (List.foldl (addSq p) pos (ranksSqs r)) := by
  intro r
  induction r with
  | zero =>
    intro pos rest
    rw [ranksChars, ranksSqs]
    have h := rank_parse_full p 0 pos rest
    simpa using h
  | succ r ih =>
    intro pos rest
    rw [ranksChars, ranksSqs]
    rw [List.append_assoc, List.cons_append]
    rw [rank_parse_full p (r + 1) pos _]
    rw [parsePlacement, if_pos rfl, if_neg (by omega)]
    rw [show r + 1 - 1 = r from rfl]
    rw [ih]
    rw [List.foldl_append]

/-- The placement field of `to_fen`, character by character. -/
theorem placement_data (p : Position) :
    (String.intercalate "/"
        ((List.range 8).map (fun i => rankFen p (7 - i)))).data
      = ranksChars p 7 := by
  have hmap : (List.range 8).map (fun i => rankFen p (7 - i))
      = [rankFen p 7, rankFen p 6, rankFen p 5, rankFen p 4, rankFen p 3,
         rankFen p 2, rankFen p 1, rankFen p 0] := rfl
  rw [hmap]
  have hint : String.intercalate "/" [rankFen p 7, rankFen p 6, rankFen p 5,
      rankFen p 4, rankFen p 3, rankFen p 2, rankFen p 1, rankFen p 0]
      = rankFen p 7 ++ "/" ++ rankFen p 6 ++ "/" ++ rankFen p 5 ++ "/" ++
        rankFen p 4 ++ "/" ++ rankFen p 3 ++ "/" ++ rankFen p 2 ++ "/" ++
        rankFen p 1 ++ "/" ++ rankFen p 0 := rfl
  rw [hint]
  simp only [String.data_append, rankFen_data]
  simp only [ranksChars]
  simp

-- ===========================================================================
-- Board reconstruction equals the original boards
-- ===========================================================================

/-- On a consistent position a set piece bit determines `piece_on`
exactly. -/
theorem testBit_piece_on {p : Position} (hc : Consistent p) {sq : Nat}
    (hsq : sq < 64) {c : Color} {pt : PieceType}
    (h : (p.pieces c pt).testBit sq = true) :
    p.piece_on sq = some (c, pt) := by
  have hb0 : BoardsOK p := boardsOK_of_consistent hc
  have hothers := boards_bit_unique hb0 h
  cases c with
  | White =>
    have hocc : p.occupied_white &&& sqBB sq ≠ 0 := by
      rw [land_sqBB_ne_zero hsq]
      exact pieces_le_occ hc Color.White pt h
    have hft : p.white.findType (sqBB sq) = some pt := by
      apply findType_unique
      · show p.pieces Color.White pt &&& sqBB sq ≠ 0
        rw [land_sqBB_ne_zero hsq]
        exact h
      · intro pt1 hne
        show p.pieces Color.White pt1 &&& sqBB sq = 0
        rw [land_sqBB_eq_zero hsq]
        exact hothers Color.White pt1 (by simp [hne])
    exact piece_on_eq_white hocc hft
  | Black =>
    have hwf : ∀ pt1, (p.pieces Color.White pt1).testBit sq = false := by
      intro pt1
      exact hothers Color.White pt1 (by simp)
    have hocw : p.occupied_white &&& sqBB sq = 0 := by
      rw [land_sqBB_eq_zero hsq]
      exact boards_occ_bit_false hb0 hwf
    have hocb : p.occupied_black &&& sqBB sq ≠ 0 := by
      rw [land_sqBB_ne_zero hsq]
      exact pieces_le_occ hc Color.Black pt h
    have hft : p.black.findType (sqBB sq) = some pt := by
      apply findType_unique
      · show p.pieces Color.Black pt &&& sqBB sq ≠ 0
        rw [land_sqBB_ne_zero hsq]
        exact h
      · intro pt1 hne
        show p.pieces Color.Black pt1 &&& sqBB sq = 0
        rw [land_sqBB_eq_zero hsq]
        exact hothers Color.Black pt1 (by simp [hne])
    exact piece_on_eq_black hocw hocb hft

/-- The piece bit at `i` after folding `addSq` over a square list. -/
theorem foldl_addSq_pieces (p : Position) :
    ∀ (sqs : List Nat) (q : Position) (c : Color) (pt : PieceType) (i : Nat),
      (∀ s ∈ sqs, s < 64) →
      ((sqs.foldl (addSq p) q).pieces c pt).testBit i =
        ((q.pieces c pt).testBit i ||
          sqs.any (fun s => decide (s = i) &&
            decide (p.piece_on s = some (c, pt)))) := by
  intro sqs
  induction sqs with
  | nil =>
    intro q c pt i _
    simp
  | cons s sqs ih =>
    intro q c pt i hlt
    rw [List.foldl_cons, ih _ c pt i (fun x hx => hlt x (by simp [hx]))]
    rw [List.any_cons]
    have hstep : ((addSq p q s).pieces c pt).testBit i =
        ((q.pieces c pt).testBit i ||
          (decide (s = i) && decide (p.piece_on s = some (c, pt)))) := by
      unfold addSq
      cases hpo : p.piece_on s with
      | none => simp
      | some cp =>
        obtain ⟨c2, pt2⟩ := cp
        rw [pieces_add]
        by_cases hm : c = c2 ∧ pt = pt2
        · obtain ⟨hm1, hm2⟩ := hm
          subst hm1
          subst hm2
          rw [if_pos ⟨rfl, rfl⟩, Nat.testBit_or,
            testBit_sqBB (hlt s (by simp)) i]
          simp [Bool.or_comm, eq_comm]
        · rw [if_neg hm]
          have hd : decide (some (c2, pt2) = some (c, pt)) = false := by
            simp only [decide_eq_false_iff_not]
            intro he
            rw [Option.some.injEq, Prod.mk.injEq] at he
            exact hm ⟨he.1.symm, he.2.symm⟩
          rw [hd]
          simp
    rw [hstep]
    cases hb1 : (q.pieces c pt).testBit i <;>
      cases hb2 : (decide (s = i) && decide (p.piece_on s = some (c, pt))) <;>
      simp

/-- The color occupancy bit at `i` after folding `addSq`. -/
theorem foldl_addSq_occ (p : Position) :
    ∀ (sqs : List Nat) (q : Position) (c : Color) (i : Nat),
      (∀ s ∈ sqs, s < 64) →
      ((sqs.foldl (addSq p) q).occupied_by c).testBit i =
        ((q.occupied_by c).testBit i ||
          sqs.any (fun s => decide (s = i) &&
            decide ((p.piece_on s).map Prod.fst = some c))) := by
  intro sqs
  induction sqs with
  | nil =>
    intro q c i _
    simp
  | cons s sqs ih =>
    intro q c i hlt
    rw [List.foldl_cons, ih _ c i (fun x hx => hlt x (by simp [hx]))]
    rw [List.any_cons]
    have hstep : ((addSq p q s).occupied_by c).testBit i =
        ((q.occupied_by c).testBit i ||
          (decide (s = i) && decide ((p.piece_on s).map Prod.fst = some c))) := by
      unfold addSq
      cases hpo : p.piece_on s with
      | none => simp
      | some cp =>
        obtain ⟨c2, pt2⟩ := cp
        rw [occupied_by_add]
        by_cases hm : c = c2
        · subst hm
          rw [if_pos rfl, Nat.testBit_or, testBit_sqBB (hlt s (by simp)) i]
          simp [Bool.or_comm, eq_comm]
        · rw [if_neg hm]
          have hd : decide ((some (c2, pt2)).map Prod.fst = some c) = false := by
            simp only [decide_eq_false_iff_not]
            intro he
            have he2 : c2 = c := by simpa using he
            exact hm he2.symm
          rw [hd]
          simp
    rw [hstep]
    cases hb1 : (q.occupied_by c).testBit i <;>
      cases hb2 : (decide (s = i) &&
        decide ((p.piece_on s).map Prod.fst = some c)) <;>
      simp

/-- The total occupancy bit at `i` after folding `addSq`. -/
theorem foldl_addSq_all (p : Position) :
    ∀ (sqs : List Nat) (q : Position) (i : Nat),
      (∀ s ∈ sqs, s < 64) →
      ((sqs.foldl (addSq p) q).occupied_all).testBit i =
        ((q.occupied_all).testBit i ||
          sqs.any (fun s => decide (s = i) &&
            decide ((p.piece_on s).isSome = true))) := by
  intro sqs
  induction sqs with
  | nil =>
    intro q i _
    simp
  | cons s sqs ih =>
    intro q i hlt
    rw [List.foldl_cons, ih _ i (fun x hx => hlt x (by simp [hx]))]
    rw [List.any_cons]
    have hstep : ((addSq p q s).occupied_all).testBit i =
        ((q.occupied_all).testBit i ||
          (decide (s = i) && decide ((p.piece_on s).isSome = true))) := by
      unfold addSq
      cases hpo : p.piece_on s with
      | none => simp
      | some cp =>
        rw [occupied_all_add, Nat.testBit_or, testBit_sqBB (hlt s (by simp)) i]
        simp [Bool.or_comm, eq_comm]
    rw [hstep]
    cases hb1 : (q.occupied_all).testBit i <;>
      cases hb2 : (decide (s = i) && decide ((p.piece_on s).isSome = true)) <;>
      simp

theorem mem_ranksSqs : ∀ (r i : Nat), i ∈ ranksSqs r ↔ i < (r + 1) * 8 := by
  intro r
  induction r with
  | zero =>
    intro i
    rw [ranksSqs, List.mem_range']
    constructor
    · rintro ⟨j, hj, rfl⟩
      omega
    · intro hi
      exact ⟨i, by omega, by omega⟩
  | succ r ih =>
    intro i
    rw [ranksSqs, List.mem_append, List.mem_range', ih]
    constructor
    · rintro (⟨j, hj, rfl⟩ | hi) <;> omega
    · intro hi
      by_cases hc : i < (r + 1) * 8
      · exact Or.inr hc
      · exact Or.inl ⟨i - (r + 1) * 8, by omega, by omega⟩

theorem ranksSqs_lt : ∀ s ∈ ranksSqs 7, s < 64 := by
  intro s hs
  rw [mem_ranksSqs] at hs
  omega

theorem any_decide_mem (i : Nat) (g : Nat → Bool) :
    ∀ (sqs : List Nat),
      sqs.any (fun s => decide (s = i) && g s) = (decide (i ∈ sqs) && g i) := by
  intro sqs
  induction sqs with
  | nil => simp
  | cons s sqs ih =>
    rw [List.any_cons, ih]
    by_cases hm : s = i
    · subst hm
      simp
    · simp [hm, Ne.symm hm]

theorem recon_pieces {p : Position} (hc : Consistent p) (c : Color)
    (pt : PieceType) :
    (((ranksSqs 7).foldl (addSq p) Position.emptyPos).pieces c pt)
      = p.pieces c pt := by
  apply Nat.eq_of_testBit_eq
  intro i
  rw [foldl_addSq_pieces p (ranksSqs 7) _ c pt i ranksSqs_lt,
    any_decide_mem]
  have hempty : (Position.emptyPos.pieces c pt).testBit i = false := by
    have hz : Position.emptyPos.pieces c pt = 0 := by cases c <;> cases pt <;> rfl
    rw [hz, Nat.zero_testBit]
  rw [hempty, Bool.false_or]
  by_cases hi : i < 64
  · rw [show decide (i ∈ ranksSqs 7) = true from by
      simp only [mem_ranksSqs, decide_eq_true_eq]
      omega]
    rw [Bool.true_and]
    by_cases hpo : p.piece_on i = some (c, pt)
    · simp [hpo, piece_on_some_testBit hi hpo]
    · have hbit : (p.pieces c pt).testBit i = false := by
        by_contra hx
        exact hpo (testBit_piece_on hc hi (by simpa using hx))
      simp [hpo, hbit]
  · rw [show decide (i ∈ ranksSqs 7) = false from by
      simp only [mem_ranksSqs, decide_eq_false_iff_not]
      omega]
    rw [Bool.false_and]
    exact (testBit_ge_64 (pieces_lt hc c pt) (by omega)).symm

theorem recon_occ {p : Position} (hc : Consistent p) (c : Color) :
    (((ranksSqs 7).foldl (addSq p) Position.emptyPos).occupied_by c)
      = p.occupied_by c := by
  apply Nat.eq_of_testBit_eq
  intro i
  rw [foldl_addSq_occ p (ranksSqs 7) _ c i ranksSqs_lt, any_decide_mem]
  have hempty : (Position.emptyPos.occupied_by c).testBit i = false := by
    have hz : Position.emptyPos.occupied_by c = 0 := by cases c <;> rfl
    rw [hz, Nat.zero_testBit]
  rw [hempty, Bool.false_or]
  by_cases hi : i < 64
  · rw [show decide (i ∈ ranksSqs 7) = true from by
      simp only [mem_ranksSqs, decide_eq_true_eq]
      omega]
    rw [Bool.true_and]
    cases hpo : p.piece_on i with
    | none =>
      have hocc : (p.occupied_by c).testBit i = false :=
        boards_occ_bit_false (boardsOK_of_consistent hc)
          (piece_on_none_testBit hc hi hpo c)
      simp [hocc]
    | some cp =>
      obtain ⟨c2, pt2⟩ := cp
      by_cases hcc : c2 = c
      · subst hcc
        have hocc : (p.occupied_by c2).testBit i = true :=
          pieces_le_occ hc c2 pt2 (piece_on_some_testBit hi hpo)
        simp [hocc]
      · have hocc : (p.occupied_by c).testBit i = false := by
          by_contra hx
          have hx2 : (p.occupied_by c).testBit i = true := by simpa using hx
          rw [occ_testBit hc] at hx2
          simp only [Bool.or_eq_true] at hx2
          have hget : ∀ pt1 : PieceType,
              (p.pieces c pt1).testBit i = true → False := by
            intro pt1 hb
            have := testBit_piece_on hc hi hb
            rw [hpo] at this
            rw [Option.some.injEq, Prod.mk.injEq] at this
            exact hcc this.1
          rcases hx2 with ((((h1 | h1) | h1) | h1) | h1) | h1 <;>
            exact hget _ h1
        have hdm : decide ((some (c2, pt2)).map Prod.fst = some c) = false := by
          simp only [decide_eq_false_iff_not]
          intro he
          have he2 : c2 = c := by simpa using he
          exact hcc he2
        rw [hocc, hdm]
  · rw [show decide (i ∈ ranksSqs 7) = false from by
      simp only [mem_ranksSqs, decide_eq_false_iff_not]
      omega]
    rw [Bool.false_and]
    exact (testBit_ge_64 (occ_lt hc c) (by omega)).symm

theorem recon_all {p : Position} (hc : Consistent p) :
    (((ranksSqs 7).foldl (addSq p) Position.emptyPos).occupied_all)
      = p.occupied_all := by
  apply Nat.eq_of_testBit_eq
  intro i
  rw [foldl_addSq_all p (ranksSqs 7) _ i ranksSqs_lt, any_decide_mem]
  rw [show (Position.emptyPos.occupied_all).testBit i = false from by
    rw [show Position.emptyPos.occupied_all = 0 from rfl, Nat.zero_testBit]]
  rw [Bool.false_or]
  by_cases hi : i < 64
  · rw [show decide (i ∈ ranksSqs 7) = true from by
      simp only [mem_ranksSqs, decide_eq_true_eq]
      omega]
    rw [Bool.true_and]
    cases hpo : p.piece_on i with
    | none =>
      have hall : p.occupied_all.testBit i = false := by
        rw [hc.2.2.1, Nat.testBit_or]
        have hw : (p.occupied_by Color.White).testBit i = false :=
          boards_occ_bit_false (boardsOK_of_consistent hc)
            (piece_on_none_testBit hc hi hpo Color.White)
        have hb : (p.occupied_by Color.Black).testBit i = false :=
          boards_occ_bit_false (boardsOK_of_consistent hc)
            (piece_on_none_testBit hc hi hpo Color.Black)
        rw [show p.occupied_white = p.occupied_by Color.White from rfl,
          show p.occupied_black = p.occupied_by Color.Black from rfl, hw, hb]
        rfl
      simp [hall]
    | some cp =>
      obtain ⟨c2, pt2⟩ := cp
      have hall : p.occupied_all.testBit i = true :=
        occ_le_all hc (pieces_le_occ hc c2 pt2 (piece_on_some_testBit hi hpo))
      simp [hall]
  · rw [show decide (i ∈ ranksSqs 7) = false from by
      simp only [mem_ranksSqs, decide_eq_false_iff_not]
      omega]
    rw [Bool.false_and]
    exact (testBit_ge_64 (occ_all_lt hc) (by omega)).symm

-- ===========================================================================
-- Field-level facts for the six rendered FEN fields
-- ===========================================================================

theorem isDigit_not_ws {c : Char} (h : c.isDigit = true) :
    c.isWhitespace = false := by
  by_contra hw
  have hw2 : c.isWhitespace = true := by simpa using hw
  have hd : ((c = ' ' ∨ c = '\t') ∨ c = '\r') ∨ c = '\n' := by
    simpa [Char.isWhitespace, Bool.or_eq_true] using hw2
  rcases hd with ((h1 | h1) | h1) | h1 <;> subst h1 <;>
    exact absurd h (by decide)

theorem toString_field (n : Nat) :
    (toString n).data ≠ [] ∧ ∀ c ∈ (toString n).data, c.isWhitespace = false := by
  rw [toString_nat_data]
  exact ⟨decDigits_ne_nil n,
    fun c hc => isDigit_not_ws (decDigits_isDigit n c hc)⟩

theorem castlingFen_parse {cr : Nat} (h : cr < 16) :
    (if castlingFen cr = "-" then Except.ok 0
      else parseCastlingField (castlingFen cr).toList 0) = Except.ok cr := by
  interval_cases cr <;> rfl

theorem castlingFen_field {cr : Nat} (h : cr < 16) :
    (castlingFen cr).data ≠ [] ∧
      ∀ c ∈ (castlingFen cr).data, c.isWhitespace = false := by
  interval_cases cr <;> exact ⟨by decide, by decide⟩

theorem toAlgebraic_facts {sq : Nat} (h : sq < 64) :
    (toAlgebraic sq).data ≠ [] ∧
      (∀ c ∈ (toAlgebraic sq).data, c.isWhitespace = false) ∧
      toAlgebraic sq ≠ "-" ∧ fromAlgebraic (toAlgebraic sq) = some sq := by
  interval_cases sq <;> exact ⟨by decide, by decide, by decide, by decide⟩

theorem rankTailChars_ws (p : Position) (rank : Nat) :
    ∀ (files : List Nat) (k : Nat) (c : Char),
      c ∈ rankTailChars p rank files k → c.isWhitespace = false := by
  intro files
  induction files with
  | nil =>
    intro k c hcm
    rw [rankTailChars] at hcm
    split_ifs at hcm
    · rw [toString_nat_data] at hcm
      exact isDigit_not_ws (decDigits_isDigit k c hcm)
    · exact absurd hcm (List.not_mem_nil c)
  | cons f fs ih =>
    intro k c hcm
    rw [rankTailChars] at hcm
    cases hpo : p.piece_on (fromFileRank f rank) with
    | some cp =>
      rw [hpo] at hcm
      simp only [List.mem_append, List.mem_cons] at hcm
      rcases hcm with h1 | h1 | h1
      · split_ifs at h1
        · rw [toString_nat_data] at h1
          exact isDigit_not_ws (decDigits_isDigit k c h1)
        · exact absurd h1 (List.not_mem_nil c)
      · subst h1
        exact (pieceFenChar_facts cp.1 cp.2).2.2.2.2
      · exact ih 0 c h1
    | none =>
      rw [hpo] at hcm
      exact ih (k + 1) c hcm

theorem rankTailChars_ne_nil (p : Position) (rank : Nat) :
    ∀ (files : List Nat) (k : Nat), (files = [] → 0 < k) →
      rankTailChars p rank files k ≠ [] := by
  intro files
  induction files with
  | nil =>
    intro k hk
    rw [rankTailChars, if_pos (hk rfl), toString_nat_data]
    exact decDigits_ne_nil k
  | cons f fs ih =>
    intro k _
    rw [rankTailChars]
    cases hpo : p.piece_on (fromFileRank f rank) with
    | some cp => simp
    | none => exact ih (k + 1) (by omega)

theorem ranksChars_ws (p : Position) :
    ∀ (r : Nat), ∀ c ∈ ranksChars p r, c.isWhitespace = false := by
  intro r
  induction r with
  | zero =>
    intro c hcm
    rw [ranksChars] at hcm
    exact rankTailChars_ws p 0 _ 0 c hcm
  | succ r ih =>
    intro c hcm
    rw [ranksChars] at hcm
    simp only [List.mem_append, List.mem_cons] at hcm
    rcases hcm with h1 | h1 | h1
    · exact rankTailChars_ws p (r + 1) _ 0 c h1
    · subst h1
      decide
    · exact ih c h1

theorem ranksChars_ne_nil (p : Position) (r : Nat) : ranksChars p r ≠ [] := by
  cases r with
  | zero =>
    rw [ranksChars]
    exact rankTailChars_ne_nil p 0 _ 0 (by intro h; exact absurd h (by decide))
  | succ r =>
    rw [ranksChars]
    simp

/-- `compute_hash` depends only on the boards, side, castling and EP
fields. -/
theorem compute_hash_fields {q p : Position} (h1 : q.white = p.white)
    (h2 : q.black = p.black) (h6 : q.side_to_move = p.side_to_move)
    (h7 : q.castling = p.castling) (h8 : q.en_passant = p.en_passant) :
    q.compute_hash = p.compute_hash := by
  unfold Position.compute_hash Position.pieceHash
  rw [h1, h2, h6, h7, h8]

-- ===========================================================================
-- The full roundtrip
-- ===========================================================================

/-- `from_fen` on a string whose whitespace split is six fields, with a
successful placement parse, a valid side code and a successful castling
parse: the parsed position field by field. -/
theorem from_fen_fields (fen f1 f2 f3 f4 f5 f6 : String)
    (hf : fenFields fen = [f1, f2, f3, f4, f5, f6])
    (pos0 : Position)
    (hpp : parsePlacement f1.toList 7 0 Position.emptyPos = Except.ok pos0)
    (hsw : f2 = "w" ∨ f2 = "b")
    (cr : Nat)
    (hcr : (if f3 = "-" then Except.ok 0
      else parseCastlingField f3.toList 0) = Except.ok cr) :
    Position.from_fen fen = Except.ok
      { white := pos0.white, black := pos0.black,
        occupied_white := pos0.occupied_white,
        occupied_black := pos0.occupied_black,
        occupied_all := pos0.occupied_all,
        side_to_move := if f2 = "w" then Color.White else Color.Black,
        castling := cr,
        en_passant := if f4 = "-" then none else fromAlgebraic f4,
        halfmove_clock := (parseUInt 255 f5).getD 0,
        fullmove_number := (parseUInt 65535 f6).getD 1,
        hash := Position.compute_hash
          { white := pos0.white, black := pos0.black,
            occupied_white := pos0.occupied_white,
            occupied_black := pos0.occupied_black,
            occupied_all := pos0.occupied_all,
            side_to_move := if f2 = "w" then Color.White else Color.Black,
            castling := cr,
            en_passant := if f4 = "-" then none else fromAlgebraic f4,
            halfmove_clock := (parseUInt 255 f5).getD 0,
            fullmove_number := (parseUInt 65535 f6).getD 1,
            hash := pos0.hash } } := by
  simp only [Position.from_fen]
  rw [hf]
  rw [if_neg (by simp)]
  simp only [List.getD_cons_zero, List.getD_cons_succ]
  rw [hpp]
  dsimp only
  rw [if_pos hsw]
  rw [hcr]
  rfl

theorem from_fen_to_fen_core (p : Position) (hc : Consistent p)
    (hhm : p.halfmove_clock ≤ 255) (hfm : p.fullmove_number ≤ 65535)
    (sideStr epStr : String)
    (hsf : sideStr.data ≠ [] ∧ ∀ c ∈ sideStr.data, c.isWhitespace = false)
    (hepf : epStr.data ≠ [] ∧ ∀ c ∈ epStr.data, c.isWhitespace = false)
    (hsw : sideStr = "w" ∨ sideStr = "b")
    (hsv : (if sideStr = "w" then Color.White else Color.Black)
      = p.side_to_move)
    (hepv : (if epStr = "-" then none else fromAlgebraic epStr)
      = p.en_passant) :
    Position.from_fen
        (String.intercalate "/"
            ((List.range 8).map (fun i => rankFen p (7 - i)))
          ++ " " ++ sideStr ++ " " ++ castlingFen p.castling ++ " " ++ epStr
          ++ " " ++ toString p.halfmove_clock ++ " "
          ++ toString p.fullmove_number)
      = Except.ok p := by
  have h6 : p.castling < 16 := hc.2.2.2.2.2.1
  have h8 : p.hash = p.compute_hash := hc.2.2.2.2.2.2.2
  have hpl := placement_data p
  have hfields : fenFields
      (String.intercalate "/"
          ((List.range 8).map (fun i => rankFen p (7 - i)))
        ++ " " ++ sideStr ++ " " ++ castlingFen p.castling ++ " " ++ epStr
        ++ " " ++ toString p.halfmove_clock ++ " "
        ++ toString p.fullmove_number)
      = [String.intercalate "/"
          ((List.range 8).map (fun i => rankFen p (7 - i))),
         sideStr, castlingFen p.castling, epStr,
         toString p.halfmove_clock, toString p.fullmove_number] := by
    refine fenFields_six _ _ _ _ _ _ ?_ hsf (castlingFen_field h6) hepf
      (toString_field _) (toString_field _)
    rw [hpl]
    exact ⟨ranksChars_ne_nil p 7, ranksChars_ws p 7⟩
  have hplparse : parsePlacement
      (String.intercalate "/"
        ((List.range 8).map (fun i => rankFen p (7 - i)))).toList 7 0
      Position.emptyPos
      = Except.ok (List.foldl (addSq p) Position.emptyPos (ranksSqs 7)) := by
    show parsePlacement
      (String.intercalate "/"
        ((List.range 8).map (fun i => rankFen p (7 - i)))).data 7 0
      Position.emptyPos = _
    rw [hpl]
    have h := ranks_parse p 7 Position.emptyPos []
    rw [List.append_nil] at h
    rw [h]
    rfl
  rw [from_fen_fields _ _ _ _ _ _ _ hfields _ hplparse hsw p.castling
    (castlingFen_parse h6)]
  refine congrArg Except.ok
    (Position.ext_fields ?_ ?_ ?_ ?_ ?_ ?_ ?_ ?_ ?_ ?_ ?_)
  · exact PieceSet.ext_get (fun pt => recon_pieces hc Color.White pt)
  · exact PieceSet.ext_get (fun pt => recon_pieces hc Color.Black pt)
  · exact recon_occ hc Color.White
  · exact recon_occ hc Color.Black
  · exact recon_all hc
  · exact hsv
  · rfl
  · exact hepv
  · show (parseUInt 255 (toString p.halfmove_clock)).getD 0 = p.halfmove_clock
    rw [parseUInt_toString hhm]
    rfl
  · show (parseUInt 65535 (toString p.fullmove_number)).getD 1
      = p.fullmove_number
    rw [parseUInt_toString hfm]
    rfl
  · refine Eq.trans (compute_hash_fields ?_ ?_ ?_ ?_ ?_) h8.symm
    · exact PieceSet.ext_get (fun pt => recon_pieces hc Color.White pt)
    · exact PieceSet.ext_get (fun pt => recon_pieces hc Color.Black pt)
    · exact hsv
    · rfl
    · exact hepv

/-- C9: rendering a consistent position with `to_fen` and parsing it back
with `from_fen` returns the position exactly, hence re-rendering returns the
same FEN string.  The clock bounds are the `u8`/`u16` ranges of the
`halfmove_clock` and `fullmove_number` fields, which every program position
satisfies by typing. -/
theorem from_fen_to_fen_roundtrip (p : Position) (hc : Consistent p)
    (hhm : p.halfmove_clock ≤ 255) (hfm : p.fullmove_number ≤ 65535) :
    Position.from_fen p.to_fen = Except.ok p ∧
    (Position.from_fen p.to_fen).map Position.to_fen
      = Except.ok p.to_fen := by
  have hep64 : p.en_passant.getD 0 < 64 := hc.2.2.2.2.2.2.1
  have hmain : Position.from_fen p.to_fen = Except.ok p := by
    simp only [Position.to_fen]
    cases hside : p.side_to_move with
    | White =>
      cases hepq : p.en_passant with
      | none =>
        exact from_fen_to_fen_core p hc hhm hfm "w" "-"
          ⟨by decide, by decide⟩ ⟨by decide, by decide⟩ (Or.inl rfl)
          (by rw [if_pos rfl, hside])
          (by rw [if_pos rfl, hepq])
      | some sq =>
        have hsq : sq < 64 := by
          rw [hepq] at hep64
          simpa using hep64
        obtain ⟨ha1, ha2, ha3, ha4⟩ := toAlgebraic_facts hsq
        exact from_fen_to_fen_core p hc hhm hfm "w" (toAlgebraic sq)
          ⟨by decide, by decide⟩ ⟨ha1, ha2⟩ (Or.inl rfl)
          (by rw [if_pos rfl, hside])
          (by rw [if_neg ha3, ha4, hepq])
    | Black =>
      cases hepq : p.en_passant with
      | none =>
        exact from_fen_to_fen_core p hc hhm hfm "b" "-"
          ⟨by decide, by decide⟩ ⟨by decide, by decide⟩ (Or.inr rfl)
          (by rw [if_neg (by decide), hside])
          (by rw [if_pos rfl, hepq])
      | some sq =>
        have hsq : sq < 64 := by
          rw [hepq] at hep64
          simpa using hep64
        obtain ⟨ha1, ha2, ha3, ha4⟩ := toAlgebraic_facts hsq
        exact from_fen_to_fen_core p hc hhm hfm "b" (toAlgebraic sq)
          ⟨by decide, by decide⟩ ⟨ha1, ha2⟩ (Or.inr rfl)
          (by rw [if_neg (by decide), hside])
          (by rw [if_neg ha3, ha4, hepq])
  refine ⟨hmain, ?_⟩
  rw [hmain]
  rfl

/-- C9 witness: the concrete roundtrip for the pawn-on-d5 position. -/
theorem from_fen_to_fen_roundtrip_witness :
    Consistent pawnD5Example ∧ pawnD5Example.halfmove_clock ≤ 255 ∧
      pawnD5Example.fullmove_number ≤ 65535 ∧
      Position.from_fen pawnD5Example.to_fen = Except.ok pawnD5Example :=
  ⟨by decide, by decide, by decide,
    (from_fen_to_fen_roundtrip pawnD5Example (by decide) (by decide)
      (by decide)).1⟩

end Engine
